import Mathlib

/-!
# LOOP to C transpiler (`src/loop.c`): reader, parser, emitter

A shallow embedding of `loop.c`.

## How the C program is represented

* The input file is the list of its bytes.  `getChar` returns `char`; here it returns
  `Option Char`, `none` standing for `EOF`, kept distinct from every byte (where `char` is
  signed the byte `0xFF` compares equal to `EOF`; no statement below depends on the
  difference).  `buf` is a list of `size` bytes, zero-filled when `newLineReader` returns
  (`malloc` does not promise it); `fgets` overwrites its front and leaves the rest.
* `Program` nodes live in a heap (`List Program`, in allocation order, `ret` is index 0); a
  `Program *` is an index into the heap, `NULL` is `none`.  `newProgram` is `calloc`, so a
  fresh node is `Program.zero` (the function has no `return`; the pointer `calloc` returned
  is what its caller receives).  `parse` hands over the tree its result points to
  (`toTree`); `writeProgram` walks that tree.
* `parseNumber` accumulates in a C `int`: arithmetic on it wraps at 32 bits, two's
  complement (signed overflow is undefined in C; this is what the usual targets do).  The
  fields `i`, `j`, `c` are `uint64_t`; `%d` prints their low 32 bits as an `int`.  The other
  `int` counters (`count`, `line`, `segment`, `position`, `indentation`) are natural numbers:
  they stay far below `2^31` on any input shorter than that.
* `parserError` and `error` end the process: the functions return `Except.error` with the
  message (and the reader state the diagnostic is printed from).  Dereferencing `NULL` is
  the failure `nullDereference`.  The text of the diagnostic is `parserErrorText`: the header
  with `line` and `column`, the chunk in `buf`, the caret line.
* What the chunked reader has to do with the text of the file is stated by `LineReader.At`
  (the reader has `n` characters of the file behind it) and `LineReader.Pending` (what is
  left of the file); `getChars` runs calls of `getChar`, with or without
  `lineReader->position--` after them, on a fresh reader.
* Loops without a structural argument take a bound on their iterations (`fuel`, `steps`);
  running out is the separate failure `outOfFuel`.  `parse` supplies `LineReader.fuel` of
  the fresh reader, a bound on the number of characters `getChar` can return; every pass of
  the loop of `parse` consumes input (`parseStep_remaining`).
* The text written to the output file is a `String`; the braces of the C text are written
  `\x7b` and `\x7d` in the literals.
-/

namespace Loop

/-- The constant `LINE_BUF_SIZE`. -/
def LINE_BUF_SIZE : Nat := 256

/-- The terminating byte of a C string. -/
def NUL : Char := Char.ofNat 0

/-- The enumeration `InstructionType`. -/
inductive InstructionType where
  | undefinedType
  | assignment
  | loopInstruction
  | whileInstruction
  | ifInstructionStart
  | ifInstructionEnd
  deriving DecidableEq, Repr

/-- The enumeration `Operation`. -/
inductive Operation where
  | undefinedOperation
  | constant
  | variable
  | plus
  | minus
  | times
  | dividedBy
  | modulo
  | equal
  | notEqual
  | greater
  | greaterEqual
  | less
  | lessEqual
  deriving DecidableEq, Repr

/-- The struct `Program`: one node; `innerProgram` and `nextProgram` are heap indices. -/
structure Program where
  instructionType : InstructionType
  operation : Operation
  treatCAsVariable : Bool
  i : Nat
  j : Nat
  c : Nat
  innerProgram : Option Nat
  nextProgram : Option Nat
  deriving DecidableEq, Repr

/-- The node `newProgram` returns: `calloc` zeroes every field. -/
def Program.zero : Program :=
  { instructionType := .undefinedType, operation := .undefinedOperation,
    treatCAsVariable := false, i := 0, j := 0, c := 0,
    innerProgram := none, nextProgram := none }

/-- The struct `LineReader`; `input` is what the stream still holds. -/
structure LineReader where
  inputFileName : String
  input : List Char
  buf : List Char
  size : Nat
  line : Nat
  segment : Nat
  position : Nat
  endOfLine : Bool
  deriving DecidableEq, Repr

/-- The struct `ParserOptions`. -/
structure ParserOptions where
  inputFileName : String
  extensionWhile : Bool
  extensionOperations : Bool
  extensionAssignment : Bool
  noWhitespace : Bool
  extensionIf : Bool
  extensionIfExtended : Bool
  extensionWhileExtended : Bool
  deriving DecidableEq, Repr

/-- How a run of the parser or the emitter ends when it does not return. -/
inductive Failure where
  | parserError (message : String) (lineReader : LineReader)
  | error (message : String)
  | nullDereference
  | outOfFuel
  deriving DecidableEq, Repr

/-- The function `parserError`: the diagnostic is printed from `lineReader`, then `exit`. -/
def parserError {α : Type} (lineReader : LineReader) (message : String) : Except Failure α :=
  .error (.parserError message lineReader)

/-- The function `error`. -/
def error {α : Type} (message : String) : Except Failure α :=
  .error (.error message)

/-- The function `newLineReader` on a file that opens, with contents `input`. -/
def newLineReader (inputFileName : String) (input : List Char) (size : Nat) : LineReader :=
  { inputFileName := inputFileName, input := input, buf := List.replicate size NUL,
    size := size, line := 0, segment := 0, position := 0, endOfLine := true }

/-- The C library `strlen`: the number of bytes before the first `NUL`. -/
def strlen (buf : List Char) : Nat :=
  (buf.takeWhile (fun c => c != NUL)).length

/-- The bytes one `fgets` call takes: at most `n`, stopping after a newline. -/
def fgets : Nat → List Char → List Char × List Char
  | 0, cs => ([], cs)
  | _ + 1, [] => ([], [])
  | n + 1, c :: cs =>
    if c = Char.ofNat 10 then ([c], cs)
    else ((c :: (fgets n cs).1), (fgets n cs).2)

/-- The loop of `getChar`. -/
def getCharLoop : Nat → LineReader → Except Failure (Option Char × LineReader)
  | 0, _ => .error .outOfFuel
  | fuel + 1, lineReader =>
    if lineReader.position ≥ lineReader.size then
      error "Invalid line reader buffer position"
    else
      let c := lineReader.buf.getD lineReader.position NUL
      let lineReader := { lineReader with position := lineReader.position + 1 }
      if c ≠ NUL then .ok (some c, lineReader)
      else if lineReader.input = [] then .ok (none, lineReader)
      else
        let res := fgets (lineReader.size - 1) lineReader.input
        let buf := res.1 ++ [NUL] ++ lineReader.buf.drop (res.1.length + 1)
        let lineReader := { lineReader with input := res.2, buf := buf }
        let lineReader :=
          if lineReader.endOfLine then
            { lineReader with line := lineReader.line + 1, segment := 0, position := 0,
                              endOfLine := false }
          else
            { lineReader with segment := lineReader.segment + 1, position := 0 }
        let len := strlen buf
        let lineReader :=
          if len > 0 ∧ buf.getD (len - 1) NUL = Char.ofNat 10 then
            { lineReader with endOfLine := true }
          else lineReader
        getCharLoop fuel lineReader

/-- The function `getChar`; `none` is `EOF`. -/
def getChar (lineReader : LineReader) : Except Failure (Option Char × LineReader) :=
  getCharLoop (lineReader.input.length + 1) lineReader

/-- The statement `lineReader->position--`.  It always follows a `getChar`, which leaves
`position` at 1 or more (`getCharLoop_last`). -/
def unread (lineReader : LineReader) : LineReader :=
  { lineReader with position := lineReader.position - 1 }

/-- The test `strchr(" \t\r\n", c)`; `strchr` also finds the terminator. -/
def isWhitespace : Option Char → Bool
  | some c => c = ' ' || c = Char.ofNat 9 || c = Char.ofNat 13 || c = Char.ofNat 10 || c = NUL
  | none => false

/-- The test `c >= '0' && c <= '9'`. -/
def isDigit : Option Char → Bool
  | some c => decide ('0' ≤ c) && decide (c ≤ '9')
  | none => false

/-- A bound on the number of characters `getChar` can still return. -/
def LineReader.fuel (lineReader : LineReader) : Nat :=
  lineReader.input.length * (lineReader.size + 1) + (lineReader.size - lineReader.position) + 1

/-- The `while` loop of `consumeWhitespace`: the character that ends it, and `count`. -/
def consumeWhitespaceLoop : Nat → LineReader → Nat →
    Except Failure (Option Char × Nat × LineReader)
  | 0, _, _ => .error .outOfFuel
  | fuel + 1, lineReader, count =>
    match getChar lineReader with
    | .error e => .error e
    | .ok (c, lineReader) =>
      if isWhitespace c then consumeWhitespaceLoop fuel lineReader (count + 1)
      else .ok (c, count, lineReader)

/-- The function `consumeWhitespace`. -/
def consumeWhitespace (fuel : Nat) (lineReader : LineReader) (minimum : Nat)
    (parserOptions : ParserOptions) : Except Failure (Nat × LineReader) :=
  match consumeWhitespaceLoop fuel lineReader 0 with
  | .error e => .error e
  | .ok (c, count, lineReader) =>
    if count < minimum ∧ parserOptions.noWhitespace = false then
      if c = none then parserError lineReader "Unexpected end of file"
      else parserError lineReader "Expected whitespace"
    else .ok (count, unread lineReader)

/-- Arithmetic of a C `int`: the value wrapped into 32 bits, two's complement. -/
def wrapInt (v : Int) : Int := (v + 2147483648) % 4294967296 - 2147483648

/-- Conversion of an `int` to `uint64_t`. -/
def toUInt64 (v : Int) : Nat := (v % 18446744073709551616).toNat

/-- Conversion of a `uint64_t` to `int`. -/
def toInt (v : Nat) : Int := wrapInt (v : Int)

/-- The `while` loop of `parseNumber`: the character that ends it, `count` and `x`. -/
def parseNumberLoop : Nat → LineReader → Nat → Int →
    Except Failure (Option Char × Nat × Int × LineReader)
  | 0, _, _, _ => .error .outOfFuel
  | fuel + 1, lineReader, count, x =>
    match getChar lineReader with
    | .error e => .error e
    | .ok (c, lineReader) =>
      if isDigit c then
        let x := wrapInt (x * 10)
        let x := wrapInt (x + (((c.getD NUL).toNat : Int) - 48))
        parseNumberLoop fuel lineReader (count + 1) x
      else .ok (c, count, x, lineReader)

/-- The function `parseNumber`. -/
def parseNumber (fuel : Nat) (lineReader : LineReader) : Except Failure (Int × LineReader) :=
  match parseNumberLoop fuel lineReader 0 0 with
  | .error e => .error e
  | .ok (c, count, x, lineReader) =>
    if count < 1 then
      if c = none then parserError lineReader "Unexpected end of file"
      else parserError lineReader "Expected number"
    else .ok (x, unread lineReader)

/-- The loop of `consumeString` over the characters of `string`. -/
def consumeStringLoop : List Char → LineReader → Except Failure LineReader
  | [], lineReader => .ok lineReader
  | s :: rest, lineReader =>
    match getChar lineReader with
    | .error e => .error e
    | .ok (c, lineReader) =>
      if c ≠ some s then
        if c = none then parserError lineReader "Unexpected end of file"
        else parserError lineReader ("Expected '" ++ String.singleton s ++ "'")
      else consumeStringLoop rest lineReader

/-- The function `consumeString`. -/
def consumeString (lineReader : LineReader) (string : String) : Except Failure LineReader :=
  consumeStringLoop string.toList lineReader

/-- The update `if (v > heighestIndex) heighestIndex = v;` of the global `int`. -/
def updateHeighestIndex (v : Nat) (heighestIndex : Int) : Int :=
  if v > toUInt64 heighestIndex then toInt v else heighestIndex

/-- Lines 382-399 of `parseAssignment`: the operator, from its first character `c`. -/
def parseOperator (program : Program) (lineReader : LineReader)
    (parserOptions : ParserOptions) (c : Option Char) : Except Failure (Program × LineReader) :=
  if c = some '+' then
    pure ({ program with operation := .plus }, lineReader)
  else if c = some '-' then
    pure ({ program with operation := .minus }, lineReader)
  else if parserOptions.extensionOperations = true ∧ c = some '*' then
    pure ({ program with operation := .times }, lineReader)
  else if parserOptions.extensionOperations = true ∧ c = some 'D' then do
    let lineReader ← consumeString lineReader "IV"
    pure ({ program with operation := .dividedBy }, lineReader)
  else if parserOptions.extensionOperations = true ∧ c = some 'M' then do
    let lineReader ← consumeString lineReader "OD"
    pure ({ program with operation := .modulo }, lineReader)
  else if c = none then
    parserError lineReader "Unexpected end of file"
  else if parserOptions.extensionOperations = true then
    parserError lineReader "Expected '+', '-', '*', \"DIV\", or \"MOD\""
  else
    parserError lineReader "Expected '+' or '-'"

/-- Lines 401-408 of `parseAssignment`: under `extensionAssignment` the right operand may
start with `x`. -/
def parseOperandStart (program : Program) (lineReader : LineReader)
    (parserOptions : ParserOptions) : Except Failure (Program × LineReader) :=
  if parserOptions.extensionAssignment = true then do
    let (c, lineReader) ← getChar lineReader
    if c = some 'x' then
      pure ({ program with treatCAsVariable := true }, lineReader)
    else if isDigit c then
      pure (program, unread lineReader)
    else
      parserError lineReader "Expected a variable or number"
  else
    pure (program, lineReader)

/-- Lines 381-410 of `parseAssignment`: the operator, its right operand, the trailing blanks. -/
def parseAssignmentOperation (fuel : Nat) (program : Program) (lineReader : LineReader)
    (parserOptions : ParserOptions) : Except Failure (Program × LineReader × Nat) := do
  let (c, lineReader) ← getChar lineReader
  let (program, lineReader) ← parseOperator program lineReader parserOptions c
  let (_, lineReader) ← consumeWhitespace fuel lineReader 1 parserOptions
  let (program, lineReader) ← parseOperandStart program lineReader parserOptions
  let (x, lineReader) ← parseNumber fuel lineReader
  let program := { program with c := toUInt64 x }
  let (count, lineReader) ← consumeWhitespace fuel lineReader 0 parserOptions
  pure (program, lineReader, count)

/-- Lines 366-410 of `parseAssignment`: the source variable and what follows it. -/
def parseAssignmentSource (fuel : Nat) (program : Program) (lineReader : LineReader)
    (parserOptions : ParserOptions) (heighestIndex : Int) :
    Except Failure (Program × LineReader × Nat × Int) := do
  let lineReader ← consumeString lineReader "x"
  let (x, lineReader) ← parseNumber fuel lineReader
  let program := { program with j := toUInt64 x }
  let heighestIndex := updateHeighestIndex program.j heighestIndex
  if parserOptions.extensionAssignment = true then do
    let (count, lineReader) ← consumeWhitespace fuel lineReader 0 parserOptions
    let (c, lineReader) ← getChar lineReader
    let lineReader := unread lineReader
    if c = some ';' ∨ c = some 'E' ∨ c = none then
      if parserOptions.noWhitespace = false ∧ c = some 'E' ∧ count = 0 then
        parserError lineReader "Expected whitespace"
      else
        pure ({ program with operation := .variable }, lineReader, count, heighestIndex)
    else do
      let (program, lineReader, count) ←
        parseAssignmentOperation fuel program lineReader parserOptions
      pure (program, lineReader, count, heighestIndex)
  else do
    let (_, lineReader) ← consumeWhitespace fuel lineReader 1 parserOptions
    let (program, lineReader, count) ←
      parseAssignmentOperation fuel program lineReader parserOptions
    pure (program, lineReader, count, heighestIndex)

/-- The function `parseAssignment`; the results are `*program`, `*lineReader`, `*count`
and the global `heighestIndex`. -/
def parseAssignment (fuel : Nat) (program : Program) (lineReader : LineReader)
    (parserOptions : ParserOptions) (heighestIndex : Int) :
    Except Failure (Program × LineReader × Nat × Int) := do
  let program := { program with instructionType := .assignment }
  let (x, lineReader) ← parseNumber fuel lineReader
  let program := { program with i := toUInt64 x }
  let heighestIndex := updateHeighestIndex program.i heighestIndex
  let (_, lineReader) ← consumeWhitespace fuel lineReader 1 parserOptions
  let lineReader ← consumeString lineReader ":="
  let (_, lineReader) ← consumeWhitespace fuel lineReader 1 parserOptions
  if parserOptions.extensionAssignment = true then do
    let (c, lineReader) ← getChar lineReader
    let lineReader := unread lineReader
    if isDigit c then do
      let program := { program with operation := .constant }
      let (x, lineReader) ← parseNumber fuel lineReader
      let program := { program with c := toUInt64 x }
      let (count, lineReader) ← consumeWhitespace fuel lineReader 0 parserOptions
      pure (program, lineReader, count, heighestIndex)
    else
      parseAssignmentSource fuel program lineReader parserOptions heighestIndex
  else
    parseAssignmentSource fuel program lineReader parserOptions heighestIndex

/-- The function `parseLoop`. -/
def parseLoop (fuel : Nat) (program : Program) (lineReader : LineReader)
    (parserOptions : ParserOptions) : Except Failure (Program × LineReader) := do
  let program := { program with instructionType := .loopInstruction }
  let lineReader ← consumeString lineReader "OOP"
  let (_, lineReader) ← consumeWhitespace fuel lineReader 1 parserOptions
  let lineReader ← consumeString lineReader "x"
  let (x, lineReader) ← parseNumber fuel lineReader
  let program := { program with i := toUInt64 x }
  let (_, lineReader) ← consumeWhitespace fuel lineReader 1 parserOptions
  let lineReader ← consumeString lineReader "DO"
  let (_, lineReader) ← consumeWhitespace fuel lineReader 1 parserOptions
  pure (program, lineReader)

/-- The relation of `parseWhile` and `parseIf` after a first character `>` or `<`:
a following `=` is taken, anything else is put back. -/
def parseOrEqual (program : Program) (lineReader : LineReader) (strict orEqual : Operation) :
    Except Failure (Program × LineReader) := do
  let (c, lineReader) ← getChar lineReader
  if c = some '=' then
    pure ({ program with operation := orEqual }, lineReader)
  else
    pure ({ program with operation := strict }, unread lineReader)

/-- The operand of `parseWhile` and `parseIf` under the extended flag: `x<k>` or a number. -/
def parseOperand (fuel : Nat) (program : Program) (lineReader : LineReader) :
    Except Failure (Program × LineReader) := do
  let (c, lineReader) ← getChar lineReader
  let (program, lineReader) :=
    if c = some 'x' then ({ program with treatCAsVariable := true }, lineReader)
    else (program, unread lineReader)
  let (x, lineReader) ← parseNumber fuel lineReader
  pure ({ program with c := toUInt64 x }, lineReader)

/-- Lines 459-469 of `parseWhile` and 510-520 of `parseIf`: the right side of the relation,
`x<k>` or a number under the extended flag, else the literal `0`. -/
def parseComparand (fuel : Nat) (program : Program) (lineReader : LineReader)
    (extended : Bool) : Except Failure (Program × LineReader) :=
  if extended = true then
    parseOperand fuel program lineReader
  else do
    let lineReader ← consumeString lineReader "0"
    pure (program, lineReader)

/-- Lines 432-457 of `parseWhile`: the relation, from its first character `c`. -/
def parseWhileRelation (program : Program) (lineReader : LineReader)
    (parserOptions : ParserOptions) (c : Option Char) : Except Failure (Program × LineReader) :=
  if c = some '!' then do
    let lineReader ← consumeString lineReader "="
    pure ({ program with operation := .notEqual }, lineReader)
  else if parserOptions.extensionWhileExtended = true then
    if c = some '=' then
      pure ({ program with operation := .equal }, lineReader)
    else if c = some '>' then
      parseOrEqual program lineReader .greater .greaterEqual
    else if c = some '<' then
      parseOrEqual program lineReader .less .lessEqual
    else
      parserError lineReader "Expected \"=\", \"!=\", \">\", \">=\", \"<\", or \"<=\""
  else
    parserError lineReader "Expected \"!=\""

/-- The function `parseWhile`. -/
def parseWhile (fuel : Nat) (program : Program) (lineReader : LineReader)
    (parserOptions : ParserOptions) : Except Failure (Program × LineReader) := do
  let program := { program with instructionType := .whileInstruction }
  let lineReader ← consumeString lineReader "HILE"
  let (_, lineReader) ← consumeWhitespace fuel lineReader 1 parserOptions
  let lineReader ← consumeString lineReader "x"
  let (x, lineReader) ← parseNumber fuel lineReader
  let program := { program with i := toUInt64 x }
  let (_, lineReader) ← consumeWhitespace fuel lineReader 1 parserOptions
  let (c, lineReader) ← getChar lineReader
  let (program, lineReader) ← parseWhileRelation program lineReader parserOptions c
  let (_, lineReader) ← consumeWhitespace fuel lineReader 1 parserOptions
  let (program, lineReader) ←
    parseComparand fuel program lineReader parserOptions.extensionWhileExtended
  let (_, lineReader) ← consumeWhitespace fuel lineReader 1 parserOptions
  let lineReader ← consumeString lineReader "DO"
  let (_, lineReader) ← consumeWhitespace fuel lineReader 1 parserOptions
  pure (program, lineReader)

/-- Lines 483-508 of `parseIf`: the relation, from its first character `c`. -/
def parseIfRelation (program : Program) (lineReader : LineReader)
    (parserOptions : ParserOptions) (c : Option Char) : Except Failure (Program × LineReader) :=
  if c = some '=' then
    pure ({ program with operation := .equal }, lineReader)
  else if parserOptions.extensionIfExtended = true then
    if c = some '!' then do
      let lineReader ← consumeString lineReader "="
      pure ({ program with operation := .notEqual }, lineReader)
    else if c = some '>' then
      parseOrEqual program lineReader .greater .greaterEqual
    else if c = some '<' then
      parseOrEqual program lineReader .less .lessEqual
    else
      parserError lineReader "Expected \"=\", \"!=\", \">\", \">=\", \"<\", or \"<=\""
  else
    parserError lineReader "Expected '='"

/-- The function `parseIf`. -/
def parseIf (fuel : Nat) (program : Program) (lineReader : LineReader)
    (parserOptions : ParserOptions) : Except Failure (Program × LineReader) := do
  let program := { program with instructionType := .ifInstructionStart }
  let lineReader ← consumeString lineReader "F"
  let (_, lineReader) ← consumeWhitespace fuel lineReader 1 parserOptions
  let lineReader ← consumeString lineReader "x"
  let (x, lineReader) ← parseNumber fuel lineReader
  let program := { program with i := toUInt64 x }
  let (_, lineReader) ← consumeWhitespace fuel lineReader 1 parserOptions
  let (c, lineReader) ← getChar lineReader
  let (program, lineReader) ← parseIfRelation program lineReader parserOptions c
  let (_, lineReader) ← consumeWhitespace fuel lineReader 1 parserOptions
  let (program, lineReader) ←
    parseComparand fuel program lineReader parserOptions.extensionIfExtended
  let (_, lineReader) ← consumeWhitespace fuel lineReader 1 parserOptions
  let lineReader ← consumeString lineReader "THEN"
  let (_, lineReader) ← consumeWhitespace fuel lineReader 1 parserOptions
  pure (program, lineReader)

/-- The local and global variables of `parse`. -/
structure ParserState where
  heap : List Program
  program : Nat
  programStack : List Nat
  lineReader : LineReader
  count : Nat
  heighestIndex : Int
  deriving DecidableEq, Repr

/-- Where control is in the body of the `while (1)` of `parse`. -/
inductive Label where
  | instruction
  | end_of_instruction
  deriving DecidableEq, Repr

/-- The function `pop`. -/
def pop (programStack : List Nat) : Option Nat × List Nat :=
  match programStack with
  | [] => (none, [])
  | program :: next => (some program, next)

/-- The three statements after a block opener is parsed: `program->innerProgram =
newProgram(); push(&programStack, program); program = program->innerProgram;`. -/
def openBlock (state : ParserState) (program : Program) (lineReader : LineReader) : ParserState :=
  { state with
    heap := state.heap.set state.program { program with innerProgram := some state.heap.length }
              ++ [Program.zero],
    programStack := state.program :: state.programStack,
    program := state.heap.length,
    lineReader := lineReader }

/-- The statements at `;`: `program->nextProgram = newProgram(); program = program->nextProgram;`. -/
def nextInstruction (state : ParserState) (lineReader : LineReader) : ParserState :=
  { state with
    heap := state.heap.set state.program
              { state.heap.getD state.program Program.zero with
                nextProgram := some state.heap.length } ++ [Program.zero],
    program := state.heap.length,
    lineReader := lineReader }

/-- The statements at `ELSE` after the popped `program` passed its test (lines 580-585). -/
def openElse (state : ParserState) (program : Nat) (programStack : List Nat)
    (lineReader : LineReader) : ParserState :=
  { state with
    heap := state.heap.set program
              { state.heap.getD program Program.zero with
                nextProgram := some state.heap.length }
              ++ [{ Program.zero with instructionType := .ifInstructionEnd,
                                      innerProgram := some (state.heap.length + 1) },
                  Program.zero],
    program := state.heap.length + 1,
    programStack := state.heap.length :: programStack,
    lineReader := lineReader }

/-- How one pass through the body of the `while (1)` of `parse` ends: at `continue` or a
`goto` (control goes on at `label`), or at `break`. -/
inductive Control where
  | goOn (label : Label) (state : ParserState)
  | break (state : ParserState)
  deriving DecidableEq, Repr

/-- The body of the `while (1)` of `parse` from its top to `continue` or to the label
`end_of_instruction` (lines 535-558). -/
def parseInstruction (parserOptions : ParserOptions) (fuel : Nat) (state : ParserState) :
    Except Failure Control := do
  let (_, lineReader) ← consumeWhitespace fuel state.lineReader 0 parserOptions
  let (c, lineReader) ← getChar lineReader
  if c = none then
    parserError lineReader "Unexpected end of file"
  else if c = some 'x' then do
    let (program, lineReader, count, heighestIndex) ←
      parseAssignment fuel (state.heap.getD state.program Program.zero) lineReader
        parserOptions state.heighestIndex
    pure (.goOn .end_of_instruction
      { state with heap := state.heap.set state.program program, lineReader := lineReader,
                   count := count, heighestIndex := heighestIndex })
  else if c = some 'L' then do
    let (program, lineReader) ←
      parseLoop fuel (state.heap.getD state.program Program.zero) lineReader parserOptions
    pure (.goOn .instruction (openBlock state program lineReader))
  else if c = some 'W' ∧ parserOptions.extensionWhile = true then do
    let (program, lineReader) ←
      parseWhile fuel (state.heap.getD state.program Program.zero) lineReader parserOptions
    pure (.goOn .instruction (openBlock state program lineReader))
  else if c = some 'I' ∧ parserOptions.extensionIf = true then do
    let (program, lineReader) ←
      parseIf fuel (state.heap.getD state.program Program.zero) lineReader parserOptions
    pure (.goOn .instruction (openBlock state program lineReader))
  else
    parserError lineReader "Expected beginning of instruction"

/-- The body of the `while (1)` of `parse` from the label `end_of_instruction` to the next
`goto`, `continue`, end of the body or `break` (lines 560-595). -/
def parseEndOfInstruction (parserOptions : ParserOptions) (fuel : Nat) (state : ParserState) :
    Except Failure Control := do
  let (c, lineReader) ← getChar state.lineReader
  if c = some ';' then
    pure (.goOn .instruction (nextInstruction state lineReader))
  else if c = some 'E' then
    if state.count = 0 ∧ parserOptions.noWhitespace = false then
      parserError lineReader "Expected whitespace"
    else do
      let (c, lineReader) ← getChar lineReader
      if c = some 'N' then do
        let lineReader ← consumeString lineReader "D"
        match pop state.programStack with
        | (none, _) => parserError lineReader "Unexpected END token"
        | (some program, programStack) =>
          let (count, lineReader) ← consumeWhitespace fuel lineReader 0 parserOptions
          pure (.goOn .end_of_instruction
            { state with program := program, programStack := programStack,
                         lineReader := lineReader, count := count })
      else if parserOptions.extensionIfExtended = true then
        if c = some 'L' then do
          let lineReader ← consumeString lineReader "SE"
          match pop state.programStack with
          | (none, _) => .error .nullDereference
          | (some program, programStack) =>
            if (state.heap.getD program Program.zero).instructionType
                ≠ .ifInstructionStart then
              parserError lineReader "Unexpected ELSE token"
            else do
              let (_, lineReader) ← consumeWhitespace fuel lineReader 1 parserOptions
              pure (.goOn .instruction (openElse state program programStack lineReader))
        else
          parserError lineReader "Expected 'N' or 'L'"
      else
        parserError lineReader "Expected 'N'"
  else if c = none then
    match pop state.programStack with
    | (some _, _) => parserError lineReader "Unexpected end of file"
    | (none, programStack) =>
      pure (.break { state with programStack := programStack, lineReader := lineReader })
  else
    match pop state.programStack with
    | (none, _) => parserError lineReader "Expected ';' or end of file"
    | (some _, _) => parserError lineReader "Expected ';' or \"END\""

/-- One pass through the body of the `while (1)` of `parse`, entered at `label`. -/
def parseStep (parserOptions : ParserOptions) (fuel : Nat) (label : Label)
    (state : ParserState) : Except Failure Control :=
  match label with
  | .instruction => parseInstruction parserOptions fuel state
  | .end_of_instruction => parseEndOfInstruction parserOptions fuel state

/-- The `while (1)` loop of `parse`, at most `steps` passes; the result is the state at
`break`.  The loops of the token functions get `fuel`. -/
def parseRun (parserOptions : ParserOptions) (fuel : Nat) :
    Nat → Label → ParserState → Except Failure ParserState
  | 0, _, _ => .error .outOfFuel
  | steps + 1, label, state =>
    match parseStep parserOptions fuel label state with
    | .error e => .error e
    | .ok (.break state) => .ok state
    | .ok (.goOn label state) => parseRun parserOptions fuel steps label state

/-- The node structure a `Program *` points to: `null` is `NULL`, the two subtrees of a
node are what its `innerProgram` and `nextProgram` point to. -/
inductive Tree where
  | null
  | node (program : Program) (innerProgram : Tree) (nextProgram : Tree)
  deriving DecidableEq, Repr

/-- Following the pointers of the heap from `pointer`, at most `fuel` nodes deep. -/
def toTree (heap : List Program) : Nat → Option Nat → Option Tree
  | _, none => some .null
  | 0, some _ => none
  | fuel + 1, some k =>
    match heap[k]? with
    | none => none
    | some program =>
      match toTree heap fuel program.innerProgram, toTree heap fuel program.nextProgram with
      | some innerProgram, some nextProgram => some (.node program innerProgram nextProgram)
      | _, _ => none

/-- What `parse` hands to `main`: the tree `ret` points to and the global `heighestIndex`. -/
structure Parsed where
  program : Tree
  heighestIndex : Int
  deriving DecidableEq, Repr

/-- The state of `parse` when it enters its loop on a file with contents `input`. -/
def parseStart (parserOptions : ParserOptions) (input : List Char) : ParserState :=
  { heap := [Program.zero], program := 0, programStack := [],
    lineReader := newLineReader parserOptions.inputFileName input LINE_BUF_SIZE,
    count := 0, heighestIndex := 0 }

/-- The function `parse` on a file with contents `input`. -/
def parse (parserOptions : ParserOptions) (input : List Char) : Except Failure Parsed :=
  match parseRun parserOptions (parseStart parserOptions input).lineReader.fuel
      (parseStart parserOptions input).lineReader.fuel .instruction
      (parseStart parserOptions input) with
  | .error e => .error e
  | .ok state =>
    match toTree state.heap state.heap.length (some 0) with
    | none => .error .outOfFuel
    | some program => .ok { program := program, heighestIndex := state.heighestIndex }

/-- The struct `WriteOptions`. -/
structure WriteOptions where
  outputFileName : String
  functionName : String
  extensionHeader : Bool
  deriving DecidableEq, Repr

/-- The global `type`. -/
def type : String := "uint_fast64_t"

/-- The global `typePrintMacro`. -/
def typePrintMacro : String := "PRIuFAST64"

/-- What `%d` prints for an `int`. -/
def formatInt (v : Int) : String :=
  if v < 0 then "-" ++ Nat.repr v.natAbs else Nat.repr v.toNat

/-- What `%d` prints for a `uint64_t` argument: its low 32 bits, read as an `int`. -/
def formatD (v : Nat) : String := formatInt (toInt v)

/-- The function `writeIncludes`. -/
def writeIncludes : String :=
  "#include <stdlib.h>\n" ++ "#include <stdio.h>\n" ++ "#include <string.h>\n"
    ++ "#include <inttypes.h>\n"

/-- The function `writeStart`. -/
def writeStart (functionName : String) (heighestIndex : Int) : String :=
  "\n" ++ type ++ " " ++ functionName ++ "(" ++ type ++ " argc, " ++ type ++ " *argv) \x7b\n"
    ++ "\t" ++ type ++ " *x = calloc(" ++ formatInt (wrapInt (heighestIndex + 1)) ++ ", sizeof("
    ++ type ++ "));\n"
    ++ "\t" ++ type ++ " n = argc < " ++ formatInt heighestIndex ++ " ? argc : "
    ++ formatInt heighestIndex ++ ";\n"
    ++ "\tmemcpy(x + 1, argv, n * sizeof(" ++ type ++ "));\n"

/-- The function `writeEnd`. -/
def writeEnd (functionName : String) : String :=
  "\t\n" ++ "\t\n" ++ "\t" ++ type ++ " ret = x[0];\n" ++ "\tfree(x);\n" ++ "\treturn ret;\n"
    ++ "\x7d\n" ++ "\n" ++ "int main(int argc, char **argv) \x7b\n"
    ++ "\t" ++ type ++ " *arr = malloc((argc - 1) * sizeof(" ++ type ++ "));\n"
    ++ "\tfor (int i = 0; i < argc - 1; ++i) \x7b\n"
    ++ "\t\tarr[i] = atoi(argv[i + 1]);\n" ++ "\t\x7d\n"
    ++ "\t" ++ type ++ " res = " ++ functionName ++ "(argc - 1, arr);\n"
    ++ "\tfree(arr);\n"
    ++ "\tprintf(\"%\" " ++ typePrintMacro ++ " \"\\n\", res);\n"
    ++ "\treturn 0;\n" ++ "\x7d"

/-- The function `writeIndentation`. -/
def writeIndentation (indentation : Nat) : String :=
  "\n" ++ String.mk (List.replicate indentation (Char.ofNat 9))

/-- The function `writeAssignment`. -/
def writeAssignment (program : Program) : Except Failure String :=
  match program.operation with
  | .constant => .ok ("x[" ++ formatD program.i ++ "] = " ++ formatD program.c ++ ";")
  | .variable => .ok ("x[" ++ formatD program.i ++ "] = x[" ++ formatD program.j ++ "];")
  | .plus =>
    .ok (if program.treatCAsVariable then
      "x[" ++ formatD program.i ++ "] = x[" ++ formatD program.j ++ "] + x["
        ++ formatD program.c ++ "];"
    else
      "x[" ++ formatD program.i ++ "] = x[" ++ formatD program.j ++ "] + "
        ++ formatD program.c ++ ";")
  | .minus =>
    .ok (if program.treatCAsVariable then
      "x[" ++ formatD program.i ++ "] = x[" ++ formatD program.j ++ "] > x["
        ++ formatD program.c ++ "] ? x[" ++ formatD program.j ++ "] - x["
        ++ formatD program.c ++ "] : 0;"
    else
      "x[" ++ formatD program.i ++ "] = x[" ++ formatD program.j ++ "] > "
        ++ formatD program.c ++ " ? x[" ++ formatD program.j ++ "] - "
        ++ formatD program.c ++ " : 0;")
  | .times =>
    .ok (if program.treatCAsVariable then
      "x[" ++ formatD program.i ++ "] = x[" ++ formatD program.j ++ "] * x["
        ++ formatD program.c ++ "];"
    else
      "x[" ++ formatD program.i ++ "] = x[" ++ formatD program.j ++ "] * "
        ++ formatD program.c ++ ";")
  | .dividedBy =>
    .ok (if program.treatCAsVariable then
      "x[" ++ formatD program.i ++ "] = x[" ++ formatD program.j ++ "] / x["
        ++ formatD program.c ++ "];"
    else
      "x[" ++ formatD program.i ++ "] = x[" ++ formatD program.j ++ "] / "
        ++ formatD program.c ++ ";")
  | .modulo =>
    .ok (if program.treatCAsVariable then
      "x[" ++ formatD program.i ++ "] = x[" ++ formatD program.j ++ "] % x["
        ++ formatD program.c ++ "];"
    else
      "x[" ++ formatD program.i ++ "] = x[" ++ formatD program.j ++ "] % "
        ++ formatD program.c ++ ";")
  | _ => error "Encountered assignment with undefined operation"

/-- The function `writeLoop`. -/
def writeLoop (program : Program) : String :=
  "for (int i = x[" ++ formatD program.i ++ "]; i; --i) \x7b"

/-- The `switch` of `writeWhile` and of `writeIfStart`: the text of the relation. -/
def relation (operation : Operation) : Option String :=
  match operation with
  | .equal => some "=="
  | .notEqual => some "!="
  | .greater => some ">"
  | .greaterEqual => some ">="
  | .less => some "<"
  | .lessEqual => some "<="
  | _ => none

/-- The function `writeWhile`. -/
def writeWhile (program : Program) : Except Failure String :=
  match relation program.operation with
  | none => error "Encountered WHILE with undefined relation"
  | some relation =>
    .ok (if program.treatCAsVariable then
      "while (x[" ++ formatD program.i ++ "] " ++ relation ++ " x[" ++ formatD program.c
        ++ "]) \x7b"
    else
      "while (x[" ++ formatD program.i ++ "] " ++ relation ++ " " ++ formatD program.c
        ++ ") \x7b")

/-- The function `writeIfStart`. -/
def writeIfStart (program : Program) : Except Failure String :=
  match relation program.operation with
  | none => error "Encountered IF with undefined relation"
  | some relation =>
    .ok (if program.treatCAsVariable then
      "if (x[" ++ formatD program.i ++ "] " ++ relation ++ " x[" ++ formatD program.c
        ++ "]) \x7b"
    else
      "if (x[" ++ formatD program.i ++ "] " ++ relation ++ " " ++ formatD program.c
        ++ ") \x7b")

/-- The function `writeIfEnd`. -/
def writeIfEnd : String := "else \x7b"

/-- The function `writeInstruction`. -/
def writeInstruction (program : Program) : Except Failure String :=
  match program.instructionType with
  | .assignment => writeAssignment program
  | .loopInstruction => .ok (writeLoop program)
  | .whileInstruction => writeWhile program
  | .ifInstructionStart => writeIfStart program
  | .ifInstructionEnd => .ok writeIfEnd
  | .undefinedType => error "Encountered Instruction of undefined type"

/-- The function `writeLoopEnd`. -/
def writeLoopEnd : String := "\x7d"

/-- The variables of the loop of `writeProgram`: the node `program` points to, the stack, the
indentation and the text written so far. -/
structure WriterState where
  program : Tree
  programStack : List Tree
  indentation : Nat
  output : String
  deriving DecidableEq, Repr

/-- The inner loop `while (program->nextProgram == NULL)` of `writeProgram` and the two
statements after it, from a node whose `nextProgram` is given; the result has
`program = null` when `pop` returned `NULL`. -/
def writeProgramClose (nextProgram : Tree) : List Tree → Nat → String → WriterState
  | programStack, indentation, output =>
    match nextProgram with
    | .node _ _ _ =>
      { program := nextProgram, programStack := programStack, indentation := indentation,
        output := output }
    | .null =>
      match programStack with
      | [] => { program := .null, programStack := [], indentation := indentation,
                output := output }
      | .null :: programStack =>
        { program := .null, programStack := programStack, indentation := indentation,
          output := output }
      | .node _ _ poppedNext :: programStack =>
        writeProgramClose poppedNext programStack (indentation - 1)
          (output ++ writeIndentation (indentation - 1) ++ writeLoopEnd)

/-- The `while (1)` loop of `writeProgram` (lines 799-820). -/
def writeProgramLoop : Nat → WriterState → Except Failure String
  | 0, _ => .error .outOfFuel
  | _ + 1, { program := .null, .. } => .error .nullDereference
  | fuel + 1, { program := .node program innerProgram nextProgram, programStack := programStack,
                indentation := indentation, output := output } =>
    let output :=
      if program.instructionType = .ifInstructionEnd then output ++ " "
      else output ++ writeIndentation indentation
    match writeInstruction program with
    | .error e => .error e
    | .ok text =>
      let output := output ++ text
      match innerProgram with
      | .node _ _ _ =>
        writeProgramLoop fuel
          { program := innerProgram,
            programStack := .node program innerProgram nextProgram :: programStack,
            indentation := indentation + 1, output := output }
      | .null =>
        match writeProgramClose nextProgram programStack indentation output with
        | { program := .null, output := output, .. } => .ok output
        | state => writeProgramLoop fuel state

/-- The number of nodes of a tree. -/
def Tree.size : Tree → Nat
  | .null => 0
  | .node _ innerProgram nextProgram => innerProgram.size + nextProgram.size + 1

/-- The text the loop of `writeProgram` writes between `writeStart` and `writeEnd`. -/
def writeProgramBody (program : Tree) : Except Failure String :=
  writeProgramLoop (program.size + 1)
    { program := program, programStack := [], indentation := 1, output := "" }

/-- The function `writeProgram`: the text written to the output file. -/
def writeProgram (program : Tree) (writeOptions : WriteOptions) (heighestIndex : Int) :
    Except Failure String :=
  match program with
  | .null => error "Encountered empty program"
  | .node _ _ _ =>
    match writeProgramBody program with
    | .error e => .error e
    | .ok body =>
      .ok (writeIncludes
        ++ (if writeOptions.extensionHeader then
              "#include \"" ++ (writeOptions.outputFileName.dropRight 1 ++ "h") ++ "\"\n"
            else "")
        ++ writeStart writeOptions.functionName heighestIndex ++ body
        ++ writeEnd writeOptions.functionName)

/-! ## The meaning of the emitted statements

The array `x` of the emitted function is a list of `uint_fast64_t` values (64 bits); an access
outside the array has no defined result (`none`).  Each case below is the C meaning of the
text the matching `write...` function prints; indices and literals are the numbers `%d`
printed. -/

/-- The number of values of `uint_fast64_t`. -/
def U64 : Nat := 18446744073709551616

/-- The number `%d` printed for a field. -/
def printed (v : Nat) : Int := toInt v

/-- The read `x[k]` in the emitted code. -/
def readIndex (x : List Nat) (k : Int) : Option Nat :=
  if k < 0 then none else x.get? k.toNat

/-- The write `x[k] = v;` in the emitted code. -/
def writeIndex (x : List Nat) (k : Int) (v : Nat) : Option (List Nat) :=
  if k < 0 ∨ x.length ≤ k.toNat then none else some (x.set k.toNat v)

/-- The right operand of an emitted statement: `x[c]` when `treatCAsVariable`, else the
literal `c` converted to `uint_fast64_t`. -/
def operand (program : Program) (x : List Nat) : Option Nat :=
  if program.treatCAsVariable then readIndex x (printed program.c)
  else some (toUInt64 (printed program.c))

/-- The C expression `a - b` on `uint_fast64_t`. -/
def subU64 (a b : Nat) : Nat := (a + U64 - b) % U64

/-- The C expression `a > b ? a - b : 0` that `writeAssignment` prints for `minus`. -/
def saturatingMinus (a b : Nat) : Nat := if a > b then subU64 a b else 0

/-- The value an emitted assignment stores, from the value `a` of `x[j]` and the operand `r`. -/
def assignmentValue (operation : Operation) (a r : Nat) : Option Nat :=
  match operation with
  | .plus => some ((a + r) % U64)
  | .minus => some (saturatingMinus a r)
  | .times => some ((a * r) % U64)
  | .dividedBy => if r = 0 then none else some (a / r)
  | .modulo => if r = 0 then none else some (a % r)
  | _ => none

/-- The effect of the statement `writeAssignment` prints. -/
def execAssignment (program : Program) (x : List Nat) : Option (List Nat) :=
  match program.operation with
  | .constant => writeIndex x (printed program.i) (toUInt64 (printed program.c))
  | .variable =>
    match readIndex x (printed program.j) with
    | none => none
    | some a => writeIndex x (printed program.i) a
  | operation =>
    match readIndex x (printed program.j), operand program x with
    | some a, some r =>
      match assignmentValue operation a r with
      | none => none
      | some v => writeIndex x (printed program.i) v
    | _, _ => none

/-- The relation `writeWhile` and `writeIfStart` print, on two `uint_fast64_t` values. -/
def holds (operation : Operation) (a b : Nat) : Option Bool :=
  match operation with
  | .equal => some (decide (a = b))
  | .notEqual => some (decide (a ≠ b))
  | .greater => some (decide (a > b))
  | .greaterEqual => some (decide (a ≥ b))
  | .less => some (decide (a < b))
  | .lessEqual => some (decide (a ≤ b))
  | _ => none

/-- The condition `x[i] <rel> operand` of an emitted `while` or `if`. -/
def condition (program : Program) (x : List Nat) : Option Bool :=
  match readIndex x (printed program.i), operand program x with
  | some a, some b => holds program.operation a b
  | _, _ => none

/-- Running a block `n` times. -/
def times (body : List Nat → Option (List Nat)) : Nat → List Nat → Option (List Nat)
  | 0, x => some x
  | n + 1, x =>
    match body x with
    | none => none
    | some x => times body n x

/-- What follows the closing brace of a taken `if`: an `else` block right after it is skipped. -/
def afterThen (nextProgram : Tree) : Tree :=
  match nextProgram with
  | .node program _ afterElse =>
    if program.instructionType = .ifInstructionEnd then afterElse else nextProgram
  | .null => .null

/-- The effect of the emitted statements of a tree on the array `x`; `none` when an access or
an operation has no defined result, or when `fuel` steps do not suffice. -/
def exec : Nat → Tree → List Nat → Option (List Nat)
  | _, .null, x => some x
  | 0, .node _ _ _, _ => none
  | fuel + 1, .node program innerProgram nextProgram, x =>
    match program.instructionType with
    | .assignment =>
      match execAssignment program x with
      | none => none
      | some x => exec fuel nextProgram x
    | .loopInstruction =>
      match readIndex x (printed program.i) with
      | none => none
      | some n =>
        if toInt n < 0 then none
        else
          match times (exec fuel innerProgram) (toInt n).toNat x with
          | none => none
          | some x => exec fuel nextProgram x
    | .whileInstruction =>
      match condition program x with
      | none => none
      | some true =>
        match exec fuel innerProgram x with
        | none => none
        | some x => exec fuel (.node program innerProgram nextProgram) x
      | some false => exec fuel nextProgram x
    | .ifInstructionStart =>
      match condition program x with
      | none => none
      | some true =>
        match exec fuel innerProgram x with
        | none => none
        | some x => exec fuel (afterThen nextProgram) x
      | some false => exec fuel nextProgram x
    | .ifInstructionEnd =>
      match exec fuel innerProgram x with
      | none => none
      | some x => exec fuel nextProgram x
    | .undefinedType => none

/-- The array the text of `writeStart` sets up from `argv`: `calloc(heighestIndex + 1, ...)`,
`n = argc < heighestIndex ? argc : heighestIndex`, `memcpy(x + 1, argv, n * ...)`. -/
def startArray (heighestIndex : Int) (argv : List Nat) : Option (List Nat) :=
  if wrapInt (heighestIndex + 1) < 0 ∨ heighestIndex < 0 then none
  else
    let n := min argv.length heighestIndex.toNat
    some ((0 : Nat) :: (argv.take n ++ List.replicate (heighestIndex.toNat - n) 0))

/-- The value the emitted function returns (`x[0]`) when called with `argv`. -/
def runProgram (fuel : Nat) (parsed : Parsed) (argv : List Nat) : Option Nat :=
  match startArray parsed.heighestIndex argv with
  | none => none
  | some x =>
    match exec fuel parsed.program x with
    | none => none
    | some x => x.get? 0

/-! ## Predicates used by the statements -/

deriving instance DecidableEq for Except

/-- `Post a P`: when the computation `a` returns, what it returns satisfies `P`. -/
def Post {α : Type} (a : Except Failure α) (P : α → Prop) : Prop :=
  ∀ r, a = .ok r → P r

/-- `Sim a b`: when the computation `a` returns, `b` returns the same. -/
def Sim {α : Type} (a b : Except Failure α) : Prop :=
  ∀ r, a = .ok r → b = .ok r

/-- The profile `F` is a subset of `G`: every extension flag set in `F` is set in `G` (the
input file is the same). -/
def ParserOptions.subset (F G : ParserOptions) : Prop :=
  F.inputFileName = G.inputFileName
    ∧ (F.extensionWhile = true → G.extensionWhile = true)
    ∧ (F.extensionOperations = true → G.extensionOperations = true)
    ∧ (F.extensionAssignment = true → G.extensionAssignment = true)
    ∧ (F.noWhitespace = true → G.noWhitespace = true)
    ∧ (F.extensionIf = true → G.extensionIf = true)
    ∧ (F.extensionIfExtended = true → G.extensionIfExtended = true)
    ∧ (F.extensionWhileExtended = true → G.extensionWhileExtended = true)

/-- The operations `writeAssignment` has a case for. -/
def Operation.isArithmetic : Operation → Bool
  | .constant | .variable | .plus | .minus | .times | .dividedBy | .modulo => true
  | _ => false

/-- The operations `writeWhile` and `writeIfStart` have a case for. -/
def Operation.isRelation : Operation → Bool
  | .equal | .notEqual | .greater | .greaterEqual | .less | .lessEqual => true
  | _ => false

/-- The block openers: `loopInstruction`, `whileInstruction`, `ifInstructionStart`,
`ifInstructionEnd`. -/
def InstructionType.isOpener : InstructionType → Bool
  | .loopInstruction | .whileInstruction | .ifInstructionStart | .ifInstructionEnd => true
  | _ => false

/-- A node with a defined `instructionType` and, where `writeInstruction` looks at it, an
`operation` its `switch` has a case for. -/
def Program.defined (program : Program) : Prop :=
  match program.instructionType with
  | .undefinedType => False
  | .assignment => program.operation.isArithmetic = true
  | .whileInstruction => program.operation.isRelation = true
  | .ifInstructionStart => program.operation.isRelation = true
  | .loopInstruction => True
  | .ifInstructionEnd => True

/-- A defined node that has an `innerProgram` exactly when it is a block opener. -/
def Program.good (program : Program) : Prop :=
  program.defined ∧ (program.instructionType.isOpener = true ↔ program.innerProgram ≠ none)

/-- `q` has the `instructionType` and the two links of `p`. -/
def Program.sameLinks (p q : Program) : Prop :=
  q.instructionType = p.instructionType ∧ q.innerProgram = p.innerProgram
    ∧ q.nextProgram = p.nextProgram

/-- What holds of the nodes while `parse` runs: every node but the one `program` points to is
good; at the top of the loop `program` points to a fresh node; at `end_of_instruction` every
node is good. -/
def ParserState.wellFormed (label : Label) (state : ParserState) : Prop :=
  (∀ (k : Nat) (p : Program), state.heap[k]? = some p → k ≠ state.program → p.good)
  ∧ (label = .instruction → state.heap.getD state.program Program.zero = Program.zero)
  ∧ (label = .end_of_instruction →
      ∀ (k : Nat) (p : Program), state.heap[k]? = some p → p.good)

/-- Every node of the tree satisfies `P`. -/
def Tree.Forall (P : Program → Prop) : Tree → Prop
  | .null => True
  | .node program innerProgram nextProgram =>
    P program ∧ innerProgram.Forall P ∧ nextProgram.Forall P

/-- In every node the subtrees are `null` exactly where the pointer fields are `NULL`. -/
def Tree.linked : Tree → Prop
  | .null => True
  | .node program innerProgram nextProgram =>
    (innerProgram = .null ↔ program.innerProgram = none)
      ∧ (nextProgram = .null ↔ program.nextProgram = none)
      ∧ innerProgram.linked ∧ nextProgram.linked

/-- The number of block-opener nodes of a tree. -/
def Tree.openers : Tree → Nat
  | .null => 0
  | .node program innerProgram nextProgram =>
    (if program.instructionType.isOpener then 1 else 0) + innerProgram.openers
      + nextProgram.openers

/-- The number of occurrences of a character in a text. -/
def countChar (c : Char) (text : String) : Nat := text.data.count c

/-- The opening brace. -/
def openingBrace : Char := Char.ofNat 123

/-- The closing marker. -/
def closingBrace : Char := Char.ofNat 125

/-- What the loop of `writeProgram` writes when it visits a node at `indentation`: a blank
before `else`, a new indented line before anything else, then the instruction. -/
def line (program : Program) (indentation : Nat) : Except Failure String :=
  match writeInstruction program with
  | .error e => .error e
  | .ok text =>
    .ok ((if program.instructionType = .ifInstructionEnd then " "
          else writeIndentation indentation) ++ text)

/-- The closing marker of a block whose opener is at `indentation`. -/
def closer (indentation : Nat) : String := writeIndentation indentation ++ writeLoopEnd

/-- The recursive pre-order emitter: the line of the node, its body one level deeper followed
by the closing marker, then the following instructions. -/
def emit : Tree → Nat → Except Failure String
  | .null, _ => .ok ""
  | .node program innerProgram nextProgram, indentation =>
    match line program indentation with
    | .error e => .error e
    | .ok first =>
      match (match innerProgram with
             | .null => (.ok "" : Except Failure String)
             | .node _ _ _ =>
               match emit innerProgram (indentation + 1) with
               | .error e => .error e
               | .ok body => .ok (body ++ closer indentation)) with
      | .error e => .error e
      | .ok block =>
        match emit nextProgram indentation with
        | .error e => .error e
        | .ok rest => .ok (first ++ block ++ rest)

/-- What the loop of `writeProgram` does once a statement sequence has ended (the current
node has no `nextProgram`): close blocks, then stop or go on. -/
def writeProgramFinish (fuel : Nat) (programStack : List Tree) (indentation : Nat)
    (output : String) : Except Failure String :=
  match writeProgramClose .null programStack indentation output with
  | { program := .null, output := output, .. } => .ok output
  | state => writeProgramLoop fuel state

/-! ## Inputs and profiles of the scenarios -/

/-- The base profile: no extension flag is set. -/
def baseProfile : ParserOptions :=
  { inputFileName := "program.loop", extensionWhile := false, extensionOperations := false,
    extensionAssignment := false, noWhitespace := false, extensionIf := false,
    extensionIfExtended := false, extensionWhileExtended := false }

/-- The tree of `LOOP x1 DO x0 := x0 + 1 END`: a loop on index 1 whose body is the single
assignment `x0 := x0 + 1`. -/
def loopTree : Tree :=
  .node { instructionType := .loopInstruction, operation := .undefinedOperation,
          treatCAsVariable := false, i := 1, j := 0, c := 0,
          innerProgram := some 1, nextProgram := none }
    (.node { instructionType := .assignment, operation := .plus, treatCAsVariable := false,
             i := 0, j := 0, c := 1, innerProgram := none, nextProgram := none }
      .null .null)
    .null

/-- The profile in which every extension flag is set. -/
def fullProfile : ParserOptions :=
  { inputFileName := "program.loop", extensionWhile := true, extensionOperations := true,
    extensionAssignment := true, noWhitespace := true, extensionIf := true,
    extensionIfExtended := true, extensionWhileExtended := true }

/-- The message of the diagnostic a failed run printed. -/
def failureMessage {α : Type} : Except Failure α → Option String
  | .error (.parserError message _) => some message
  | .error (.error message) => some message
  | _ => none

/-- The profile in which exactly `extensionIf` and `extensionIfExtended` are set. -/
def ifExtendedProfile : ParserOptions :=
  { baseProfile with extensionIf := true, extensionIfExtended := true }

/-- The profile in which exactly `extensionIf`, `extensionIfExtended` and
`extensionAssignment` are set. -/
def ifExtendedAssignmentProfile : ParserOptions :=
  { baseProfile with extensionIf := true, extensionIfExtended := true,
                     extensionAssignment := true }

/-- The tree of `LOOP x5 DO x0 := x0 + 1 END`. -/
def loopFiveTree : Tree :=
  .node { instructionType := .loopInstruction, operation := .undefinedOperation,
          treatCAsVariable := false, i := 5, j := 0, c := 0,
          innerProgram := some 1, nextProgram := none }
    (.node { instructionType := .assignment, operation := .plus, treatCAsVariable := false,
             i := 0, j := 0, c := 1, innerProgram := none, nextProgram := none }
      .null .null)
    .null

/-- The tree of `IF x1 = 0 THEN x0 := 1 ELSE x0 := 2 END`: an `ifInstructionStart` testing
`x1 = 0` whose body assigns 1 to `x0` and whose next is an `ifInstructionEnd` whose body
assigns 2 to `x0`. -/
def ifElseTree : Tree :=
  .node { instructionType := .ifInstructionStart, operation := .equal,
          treatCAsVariable := false, i := 1, j := 0, c := 0,
          innerProgram := some 1, nextProgram := some 2 }
    (.node { instructionType := .assignment, operation := .constant, treatCAsVariable := false,
             i := 0, j := 0, c := 1, innerProgram := none, nextProgram := none }
      .null .null)
    (.node { instructionType := .ifInstructionEnd, operation := .undefinedOperation,
             treatCAsVariable := false, i := 0, j := 0, c := 0,
             innerProgram := some 3, nextProgram := none }
      (.node { instructionType := .assignment, operation := .constant,
               treatCAsVariable := false, i := 0, j := 0, c := 2,
               innerProgram := none, nextProgram := none }
        .null .null)
      .null)

/-- The single node of `x<i> := x<j> + <c>`: an assignment with operation `plus`. -/
def plusNode (i j c : Nat) : Tree :=
  .node { instructionType := .assignment, operation := .plus, treatCAsVariable := false,
          i := i, j := j, c := c, innerProgram := none, nextProgram := none }
    .null .null

/-- A measure of what the reader can still deliver: it decreases whenever `getChar` returns,
and `lineReader->position--` gives back one. -/
def LineReader.remaining (lineReader : LineReader) : Nat :=
  lineReader.input.length * (lineReader.size + 1) + (lineReader.size - lineReader.position)

/-- Where the loop of `parse` is after `passes` passes through its body, from `label` and
`state`; `none` when a pass ended the loop or failed. -/
def parseReach (parserOptions : ParserOptions) (fuel : Nat) :
    Nat → Label → ParserState → Option (Label × ParserState)
  | 0, label, state => some (label, state)
  | passes + 1, label, state =>
    match parseStep parserOptions fuel label state with
    | .ok (.goOn label state) => parseReach parserOptions fuel passes label state
    | _ => none

/-- The state of `parse` on `x0 := x0 + 1 END` (base profile) after its first pass: at
`end_of_instruction`, the assignment parsed, the stack empty. -/
def unmatchedEndState : ParserState :=
  match parseReach baseProfile (parseStart baseProfile "x0 := x0 + 1 END".toList).lineReader.fuel
      1 .instruction (parseStart baseProfile "x0 := x0 + 1 END".toList) with
  | some (_, state) => state
  | none => parseStart baseProfile "x0 := x0 + 1 END".toList

/-- The reader `getChar` leaves when called on `lineReader` (`lineReader` itself when
`getChar` fails). -/
def afterGetChar (lineReader : LineReader) : LineReader :=
  match getChar lineReader with
  | .ok (_, next) => next
  | .error _ => lineReader

/-! ## The diagnostic of `parserError` -/

/-- The column `parserError` prints in `<file>:<line>:<col>`:
`segment * (size - 1) + position`. -/
def column (lineReader : LineReader) : Nat :=
  lineReader.segment * (lineReader.size - 1) + lineReader.position

/-- The function `changeWhitespaceToSpaces`: tab, carriage return and newline before the
terminator become blanks. -/
def changeWhitespaceToSpaces (string : List Char) : List Char :=
  (string.take (strlen string)).map
      (fun c => if c = Char.ofNat 9 ∨ c = Char.ofNat 13 ∨ c = Char.ofNat 10 then ' ' else c)
    ++ string.drop (strlen string)

/-- What `%s` prints: the bytes before the terminator. -/
def formatS (string : List Char) : String := String.mk (string.take (strlen string))

/-- The last line `parserError` prints: the `for` loop writes a blank for each `i` from 1
below `position`, then the caret is written. -/
def caretLine (lineReader : LineReader) : String :=
  String.mk (List.replicate (lineReader.position - 1) ' ') ++ "^"

/-- The text `parserError` prints to `stderr`. -/
def parserErrorText (lineReader : LineReader) (message : String) : String :=
  lineReader.inputFileName ++ ":" ++ formatInt lineReader.line ++ ":"
    ++ formatInt (column lineReader) ++ ": error: " ++ message ++ "\n"
    ++ formatS (changeWhitespaceToSpaces lineReader.buf) ++ "\n"
    ++ caretLine lineReader

/-- The reader a failed run handed to `parserError`. -/
def failureReader {α : Type} : Except Failure α → Option LineReader
  | .error (.parserError _ lineReader) => some lineReader
  | _ => none

/-! ## The reader and the text of the file -/

/-- The logical line (counted from 1) of the character that follows `before` in a file. -/
def lineOf (before : List Char) : Nat := before.count (Char.ofNat 10) + 1

/-- The column (counted from 1) within its logical line of the character that follows
`before` in a file. -/
def columnOf (before : List Char) : Nat :=
  (before.reverse.takeWhile (fun c => c != Char.ofNat 10)).length + 1

/-- The reader between two calls of `getChar`: `buf` holds the chunk `chunk` of the file,
read by the last `fgets`, and its terminator; `before` is the part of the file in front of the
chunk; `line` and `segment` are those of the start of the chunk. -/
structure LineReader.Holds (lr : LineReader) (before chunk : List Char) : Prop where
  size : 2 ≤ lr.size
  buf : ∃ garbage, lr.buf = chunk ++ NUL :: garbage
  fits : chunk.length + 1 ≤ lr.size
  position : lr.position ≤ chunk.length
  noNul : ∀ c ∈ before ++ chunk ++ lr.input, c ≠ NUL
  oneLine : ∀ c ∈ chunk.dropLast, c ≠ Char.ofNat 10
  endOfLine : lr.endOfLine = true ↔ (chunk = [] ∨ chunk.getLast? = some (Char.ofNat 10))
  full : lr.endOfLine = false → lr.input ≠ [] → chunk.length + 1 = lr.size
  start : chunk = [] → before = [] ∧ lr.line = 0
  line : chunk ≠ [] → lr.line = lineOf before
  segment : chunk ≠ [] → lr.segment * (lr.size - 1) + 1 = columnOf before

/-- The reader `lr` reads the file `text` and has its first `n` characters behind it. -/
def LineReader.At (text : List Char) (n : Nat) (lr : LineReader) : Prop :=
  ∃ before chunk, lr.Holds before chunk ∧ before ++ chunk ++ lr.input = text
    ∧ before.length + lr.position = n

/-- The reader `lr` is between two calls and `pending` is what is left of the file: the
characters the next calls of `getChar` return, in order, before `EOF`. -/
def LineReader.Pending (lr : LineReader) (pending : List Char) : Prop :=
  ∃ text n, lr.At text n ∧ text.drop n = pending

/-- The reader after the statements of `getChar` that follow a successful `fgets`
(lines 285-298). -/
def refill (lr : LineReader) : LineReader :=
  { inputFileName := lr.inputFileName,
    input := (fgets (lr.size - 1) lr.input).2,
    buf := (fgets (lr.size - 1) lr.input).1 ++ [NUL]
            ++ lr.buf.drop ((fgets (lr.size - 1) lr.input).1.length + 1),
    size := lr.size,
    line := if lr.endOfLine then lr.line + 1 else lr.line,
    segment := if lr.endOfLine then 0 else lr.segment + 1,
    position := 0,
    endOfLine :=
      decide (strlen ((fgets (lr.size - 1) lr.input).1 ++ [NUL]
            ++ lr.buf.drop ((fgets (lr.size - 1) lr.input).1.length + 1)) > 0
        ∧ ((fgets (lr.size - 1) lr.input).1 ++ [NUL]
            ++ lr.buf.drop ((fgets (lr.size - 1) lr.input).1.length + 1)).getD
            (strlen ((fgets (lr.size - 1) lr.input).1 ++ [NUL]
              ++ lr.buf.drop ((fgets (lr.size - 1) lr.input).1.length + 1)) - 1) NUL
          = Char.ofNat 10) }

/-- The `int` that `parseNumber` has in `x` after the digits `digits`, from `x`. -/
def digitsValue : List Char → Int → Int
  | [], x => x
  | c :: digits, x => digitsValue digits (wrapInt (wrapInt (x * 10) + ((c.toNat : Int) - 48)))

/-- The number the decimal digits `digits` denote, continuing from `x`. -/
def decimalValue : List Char → Nat → Nat
  | [], x => x
  | c :: digits, x => decimalValue digits (x * 10 + (c.toNat - 48))

/-- Calls of `getChar` in a row, one for each entry of `putBack`; where the entry is `true`
the call is followed by `lineReader->position--`.  The result is the reader after them. -/
def getChars : List Bool → LineReader → Except Failure LineReader
  | [], lineReader => .ok lineReader
  | back :: putBack, lineReader =>
    match getChar lineReader with
    | .error e => .error e
    | .ok (_, lineReader) => getChars putBack (if back then unread lineReader else lineReader)

/-- The characters of a relation in the source text, as `parseWhile` and `parseIf` read
them. -/
def relationToken : Operation → List Char
  | .equal => ['=']
  | .notEqual => ['!', '=']
  | .greater => ['>']
  | .greaterEqual => ['>', '=']
  | .less => ['<']
  | .lessEqual => ['<', '=']
  | _ => []

/-- The characters of an operand in the source text: `x<k>` or `<k>`. -/
def operandToken (isVariable : Bool) (k : List Char) : List Char :=
  if isVariable then 'x' :: k else k

/-! ## Where `ifInstructionEnd` nodes stand -/

/-- Where `ifInstructionEnd` nodes stand in a tree.  `allowed` tells whether the root of the
tree may be one: it may where the tree is the `nextProgram` of an `ifInstructionStart` node.
Such a node has an `innerProgram`. -/
def Tree.elsePlaced : Bool → Tree → Prop
  | _, .null => True
  | allowed, .node program innerProgram nextProgram =>
    (program.instructionType = .ifInstructionEnd → allowed = true ∧ innerProgram ≠ .null)
      ∧ innerProgram.elsePlaced false
      ∧ nextProgram.elsePlaced (decide (program.instructionType = .ifInstructionStart))

/-- The `instructionType` of the node at index `m` of the heap. -/
def typeAt (heap : List Program) (m : Nat) : InstructionType :=
  (heap.getD m Program.zero).instructionType

/-- The links of `p` point into `heap`; its `innerProgram` is no `ifInstructionEnd` node, and
its `nextProgram` is one only if `p` is an `ifInstructionStart` node. -/
def linksPlaced (heap : List Program) (p : Program) : Prop :=
  (∀ m, p.innerProgram = some m → m < heap.length ∧ typeAt heap m ≠ .ifInstructionEnd)
    ∧ (∀ m, p.nextProgram = some m → m < heap.length
        ∧ (typeAt heap m = .ifInstructionEnd → p.instructionType = .ifInstructionStart))

/-- What holds of the `ifInstructionEnd` nodes while `parse` runs: the links of every node are
placed, and `ret` is no `ifInstructionEnd` node. -/
def heapPlaced (heap : List Program) : Prop :=
  0 < heap.length ∧ (∀ (k : Nat) (p : Program), heap[k]? = some p → linksPlaced heap p)
    ∧ typeAt heap 0 ≠ .ifInstructionEnd

/-! ## The layout of the emitted text -/

/-- Whether a tree is `null`. -/
def Tree.isNull : Tree → Bool
  | .null => true
  | .node _ _ _ => false

/-- The layout of the body text as the description of the emitter gives it, to be compared
with what the loop of `writeProgram` writes: every instruction and every closing marker on a
line of its own, after `indentation` tabs and one more for each block around it; where an
`ifInstructionEnd` node follows an `ifInstructionStart` node with a body, its `else` stands
on the line of the marker that closes that body, after one blank. -/
def layout : Tree → Nat → Except Failure String
  | .null, _ => .ok ""
  | .node program innerProgram .null, indentation =>
    match writeInstruction program, layout innerProgram (indentation + 1) with
    | .error e, _ => .error e
    | _, .error e => .error e
    | .ok text, .ok body =>
      if innerProgram.isNull then .ok (writeIndentation indentation ++ text)
      else
        .ok (writeIndentation indentation ++ text ++ body
          ++ writeIndentation indentation ++ "\x7d")
  | .node program innerProgram (.node elseProgram elseInner elseNext), indentation =>
    match writeInstruction program, layout innerProgram (indentation + 1) with
    | .error e, _ => .error e
    | _, .error e => .error e
    | .ok text, .ok body =>
      if innerProgram.isNull then
        match layout (.node elseProgram elseInner elseNext) indentation with
        | .error e => .error e
        | .ok rest => .ok (writeIndentation indentation ++ text ++ rest)
      else if elseProgram.instructionType = .ifInstructionEnd then
        match layout elseInner (indentation + 1), layout elseNext indentation with
        | .error e, _ => .error e
        | _, .error e => .error e
        | .ok elseBody, .ok rest =>
          .ok (writeIndentation indentation ++ text ++ body
            ++ writeIndentation indentation ++ "\x7d else \x7b" ++ elseBody
            ++ writeIndentation indentation ++ "\x7d" ++ rest)
      else
        match layout (.node elseProgram elseInner elseNext) indentation with
        | .error e => .error e
        | .ok rest =>
          .ok (writeIndentation indentation ++ text ++ body
            ++ writeIndentation indentation ++ "\x7d" ++ rest)

/-! ## Inputs, profiles and states of further scenarios -/

/-- The state of `parse` on `input` after `passes` passes through the body of its loop (the
state it starts in when a pass fails or ends the loop before). -/
def stateAfter (parserOptions : ParserOptions) (input : List Char) (passes : Nat) :
    ParserState :=
  match parseReach parserOptions (parseStart parserOptions input).lineReader.fuel passes
      .instruction (parseStart parserOptions input) with
  | some (_, state) => state
  | none => parseStart parserOptions input

/-- The count and the reader `consumeWhitespace` with minimum 0 returns on `lineReader`
(`lineReader` itself when it fails). -/
def afterBlanks (fuel : Nat) (lineReader : LineReader) (parserOptions : ParserOptions) :
    Nat × LineReader :=
  match consumeWhitespace fuel lineReader 0 parserOptions with
  | .ok r => r
  | .error _ => (0, lineReader)

/-- The reader after `getChar` was called three times on `lineReader`. -/
def afterThree (lineReader : LineReader) : LineReader :=
  afterGetChar (afterGetChar (afterGetChar lineReader))

/-- The profile in which exactly `extensionIf` is set. -/
def ifProfile : ParserOptions := { baseProfile with extensionIf := true }

/-- The profile in which exactly `extensionWhile` and `extensionWhileExtended` are set. -/
def whileExtendedProfile : ParserOptions :=
  { baseProfile with extensionWhile := true, extensionWhileExtended := true }

/-- A file of one line of 300 characters, longer than one chunk of `LINE_BUF_SIZE - 1`: 299
blanks and a question mark. -/
def longLine : List Char := List.replicate 299 ' ' ++ ['?']

/-- A file of two lines, the second one `longLine`. -/
def twoLines : List Char := "x0 := x0 + 1;\n".toList ++ longLine

/-- The input of the scenario of two closers in a row. -/
def nestedLoopsInput : List Char :=
  "LOOP x1 DO LOOP x2 DO x0 := x0 + 1 END END; x3 := x3 + 1".toList

/-- The state of `parse` on `nestedLoopsInput` (base profile) after three passes: at
`end_of_instruction` behind the assignment, both loops open. -/
def nestedLoopsState : ParserState := stateAfter baseProfile nestedLoopsInput 3

/-- The tree of `nestedLoopsInput`: the assignment to `x3` is the `nextProgram` of the outer
loop. -/
def nestedLoopsTree : Tree :=
  .node { instructionType := .loopInstruction, operation := .undefinedOperation,
          treatCAsVariable := false, i := 1, j := 0, c := 0,
          innerProgram := some 1, nextProgram := some 3 }
    (.node { instructionType := .loopInstruction, operation := .undefinedOperation,
             treatCAsVariable := false, i := 2, j := 0, c := 0,
             innerProgram := some 2, nextProgram := none }
      (.node { instructionType := .assignment, operation := .plus, treatCAsVariable := false,
               i := 0, j := 0, c := 1, innerProgram := none, nextProgram := none }
        .null .null)
      .null)
    (.node { instructionType := .assignment, operation := .plus, treatCAsVariable := false,
             i := 3, j := 3, c := 1, innerProgram := none, nextProgram := none }
      .null .null)

/-! ## Statement sequences -/

/-- The tree has no empty statement sequence below a block opener and no placeholder: every
node has a defined `instructionType`, and the `innerProgram` of every block opener is not
`NULL`. -/
def Tree.filled : Tree → Prop
  | .null => True
  | .node program innerProgram nextProgram =>
    program.instructionType ≠ .undefinedType
      ∧ (program.instructionType.isOpener = true → innerProgram ≠ .null)
      ∧ innerProgram.filled ∧ nextProgram.filled

/-- The profile in which exactly `extensionWhile` is set. -/
def whileProfile : ParserOptions := { baseProfile with extensionWhile := true }

/-- The input of the scenario of a `WHILE` block read under two profiles. -/
def whileInput : List Char := "WHILE x1 != 0 DO x0 := x0 + 2; x1 := x1 - 1 END".toList

/-- The tree of `whileInput`: a `while` node on index 1 with relation `notEqual` and operand
0, whose body is the assignment `x0 := x0 + 2` followed by `x1 := x1 - 1`. -/
def whileTree : Tree :=
  .node { instructionType := .whileInstruction, operation := .notEqual,
          treatCAsVariable := false, i := 1, j := 0, c := 0,
          innerProgram := some 1, nextProgram := none }
    (.node { instructionType := .assignment, operation := .plus, treatCAsVariable := false,
             i := 0, j := 0, c := 2, innerProgram := none, nextProgram := some 2 }
      .null
      (.node { instructionType := .assignment, operation := .minus, treatCAsVariable := false,
               i := 1, j := 1, c := 1, innerProgram := none, nextProgram := none }
        .null .null))
    .null

/-- The input of the scenario of a closer right after `;`. -/
def danglingSemicolonInput : List Char := "x0 := x0 + 1; END".toList

/-- The state of `parse` on `danglingSemicolonInput` (base profile) after two passes: at the
top of the loop behind `;`, the fresh node allocated. -/
def danglingSemicolonState : ParserState := stateAfter baseProfile danglingSemicolonInput 2

/-! ## Closers and `ELSE` in further positions -/

/-- The input of the scenario of an `ELSE` in the body of a `LOOP`. -/
def elseInLoopInput : List Char := "LOOP x1 DO x0 := x0 + 1 ELSE x0 := x0 + 1 END".toList

/-- The same input without the blank before `ELSE`. -/
def elseInLoopNoBlankInput : List Char :=
  "LOOP x1 DO x0 := x0 + 1ELSE x0 := x0 + 1 END".toList

/-- The input of the scenario of an `ELSE` right behind the header of a `LOOP`. -/
def elseAfterHeaderInput : List Char := "LOOP x1 DO ELSE x0 := x0 + 1 END".toList

/-! ## Reasoning about computations that may fail -/

theorem Post.bind {α β : Type} {a : Except Failure α} {f : α → Except Failure β}
    {Q : α → Prop} {P : β → Prop} (ha : Post a Q) (hf : ∀ x, Q x → Post (f x) P) :
    Post (a >>= f) P := by
  intro r h
  cases a with
  | error e => cases h
  | ok x => exact hf x (ha x rfl) r h

theorem Post.pure {α : Type} {x : α} {P : α → Prop} (h : P x) :
    Post (pure x : Except Failure α) P := by
  intro r hr
  cases hr
  exact h

theorem Post.ok {α : Type} {x : α} {P : α → Prop} (h : P x) :
    Post (.ok x : Except Failure α) P := by
  intro r hr
  cases hr
  exact h

theorem Post.true {α : Type} (a : Except Failure α) : Post a (fun _ => True) :=
  fun _ _ => True.intro

theorem Post.fail {α : Type} {e : Failure} {P : α → Prop} :
    Post (.error e : Except Failure α) P := by
  intro r hr
  cases hr

theorem Post.parserError {α : Type} {lr : LineReader} {m : String} {P : α → Prop} :
    Post (parserError lr m : Except Failure α) P := by
  intro r hr
  cases hr

theorem Post.weaken {α : Type} {a : Except Failure α} {P Q : α → Prop} (h : Post a P)
    (hPQ : ∀ x, P x → Q x) : Post a Q :=
  fun r hr => hPQ r (h r hr)

/-! ## What the parsing functions leave in the node -/

theorem parseOperator_node (p : Program) (lr : LineReader) (o : ParserOptions)
    (c : Option Char) :
    Post (parseOperator p lr o c)
      (fun r => r.1.operation.isArithmetic = true ∧ p.sameLinks r.1) := by
  unfold parseOperator
  split_ifs
  · exact Post.pure ⟨rfl, rfl, rfl, rfl⟩
  · exact Post.pure ⟨rfl, rfl, rfl, rfl⟩
  · exact Post.pure ⟨rfl, rfl, rfl, rfl⟩
  · exact Post.bind (Post.true _) fun _ _ => Post.pure ⟨rfl, rfl, rfl, rfl⟩
  · exact Post.bind (Post.true _) fun _ _ => Post.pure ⟨rfl, rfl, rfl, rfl⟩
  · exact Post.parserError
  · exact Post.parserError
  · exact Post.parserError

theorem parseOperandStart_node (p : Program) (lr : LineReader) (o : ParserOptions) :
    Post (parseOperandStart p lr o)
      (fun r => r.1.operation = p.operation ∧ p.sameLinks r.1) := by
  unfold parseOperandStart
  split_ifs
  · refine Post.bind (Post.true _) fun ⟨c2, lr4⟩ _ => ?_
    dsimp only
    split_ifs
    · exact Post.pure ⟨rfl, rfl, rfl, rfl⟩
    · exact Post.pure ⟨rfl, rfl, rfl, rfl⟩
    · exact Post.parserError
  · exact Post.pure ⟨rfl, rfl, rfl, rfl⟩

theorem parseAssignmentOperation_node (fuel : Nat) (p : Program) (lr : LineReader)
    (o : ParserOptions) :
    Post (parseAssignmentOperation fuel p lr o)
      (fun r => r.1.operation.isArithmetic = true ∧ p.sameLinks r.1) := by
  unfold parseAssignmentOperation
  refine Post.bind (Post.true _) fun ⟨c, lr1⟩ _ => ?_
  refine Post.bind (parseOperator_node p lr1 o c) ?_
  rintro ⟨p1, lr2⟩ ⟨hop, h1, h2, h3⟩
  refine Post.bind (Post.true _) fun ⟨_, lr3⟩ _ => ?_
  refine Post.bind (parseOperandStart_node p1 lr3 o) ?_
  rintro ⟨p2, lr5⟩ ⟨hop2, g1, g2, g3⟩
  refine Post.bind (Post.true _) fun ⟨x, lr6⟩ _ => ?_
  refine Post.bind (Post.true _) fun ⟨cnt, lr7⟩ _ => ?_
  exact Post.pure ⟨hop2 ▸ hop, g1.trans h1, g2.trans h2, g3.trans h3⟩

theorem parseAssignmentSource_node (fuel : Nat) (p : Program) (lr : LineReader)
    (o : ParserOptions) (hi : Int) :
    Post (parseAssignmentSource fuel p lr o hi)
      (fun r => r.1.operation.isArithmetic = true ∧ p.sameLinks r.1) := by
  unfold parseAssignmentSource
  refine Post.bind (Post.true _) fun lr1 _ => ?_
  refine Post.bind (Post.true _) fun ⟨x, lr2⟩ _ => ?_
  dsimp only
  split_ifs
  · refine Post.bind (Post.true _) fun ⟨cnt, lr3⟩ _ => ?_
    refine Post.bind (Post.true _) fun ⟨c, lr4⟩ _ => ?_
    dsimp only
    split_ifs
    · exact Post.parserError
    · exact Post.pure ⟨rfl, rfl, rfl, rfl⟩
    · refine Post.bind (parseAssignmentOperation_node fuel _ _ o) ?_
      rintro ⟨p1, lr5, cnt2⟩ ⟨hop, hl⟩
      exact Post.pure ⟨hop, hl⟩
  · refine Post.bind (Post.true _) fun ⟨_, lr3⟩ _ => ?_
    refine Post.bind (parseAssignmentOperation_node fuel _ _ o) ?_
    rintro ⟨p1, lr5, cnt2⟩ ⟨hop, hl⟩
    exact Post.pure ⟨hop, hl⟩

theorem parseAssignment_node (fuel : Nat) (p : Program) (lr : LineReader)
    (o : ParserOptions) (hi : Int) :
    Post (parseAssignment fuel p lr o hi)
      (fun r => r.1.instructionType = .assignment ∧ r.1.operation.isArithmetic = true
        ∧ r.1.innerProgram = p.innerProgram ∧ r.1.nextProgram = p.nextProgram) := by
  unfold parseAssignment
  refine Post.bind (Post.true _) fun ⟨x, lr1⟩ _ => ?_
  refine Post.bind (Post.true _) fun ⟨_, lr2⟩ _ => ?_
  refine Post.bind (Post.true _) fun lr3 _ => ?_
  refine Post.bind (Post.true _) fun ⟨_, lr4⟩ _ => ?_
  dsimp only
  split_ifs
  · refine Post.bind (Post.true _) fun ⟨c, lr5⟩ _ => ?_
    dsimp only
    split_ifs
    · refine Post.bind (Post.true _) fun ⟨x2, lr6⟩ _ => ?_
      refine Post.bind (Post.true _) fun ⟨cnt, lr7⟩ _ => ?_
      exact Post.pure ⟨rfl, rfl, rfl, rfl⟩
    · exact (parseAssignmentSource_node fuel _ _ o _).weaken
        fun r ⟨hop, ht, hin, hn⟩ => ⟨ht, hop, hin, hn⟩
  · exact (parseAssignmentSource_node fuel _ _ o _).weaken
      fun r ⟨hop, ht, hin, hn⟩ => ⟨ht, hop, hin, hn⟩

theorem parseLoop_node (fuel : Nat) (p : Program) (lr : LineReader) (o : ParserOptions) :
    Post (parseLoop fuel p lr o)
      (fun r => r.1.instructionType = .loopInstruction
        ∧ r.1.innerProgram = p.innerProgram ∧ r.1.nextProgram = p.nextProgram) := by
  unfold parseLoop
  refine Post.bind (Post.true _) fun lr1 _ => ?_
  refine Post.bind (Post.true _) fun ⟨_, lr2⟩ _ => ?_
  refine Post.bind (Post.true _) fun lr3 _ => ?_
  refine Post.bind (Post.true _) fun ⟨x, lr4⟩ _ => ?_
  refine Post.bind (Post.true _) fun ⟨_, lr5⟩ _ => ?_
  refine Post.bind (Post.true _) fun lr6 _ => ?_
  refine Post.bind (Post.true _) fun ⟨_, lr7⟩ _ => ?_
  exact Post.pure ⟨rfl, rfl, rfl⟩

theorem parseOrEqual_node (p : Program) (lr : LineReader) (a b : Operation)
    (ha : a.isRelation = true) (hb : b.isRelation = true) :
    Post (parseOrEqual p lr a b)
      (fun r => r.1.operation.isRelation = true ∧ p.sameLinks r.1) := by
  unfold parseOrEqual
  refine Post.bind (Post.true _) fun ⟨c, lr1⟩ _ => ?_
  dsimp only
  split_ifs
  · exact Post.pure ⟨hb, rfl, rfl, rfl⟩
  · exact Post.pure ⟨ha, rfl, rfl, rfl⟩

theorem parseOperand_node (fuel : Nat) (p : Program) (lr : LineReader) :
    Post (parseOperand fuel p lr)
      (fun r => r.1.operation = p.operation ∧ p.sameLinks r.1) := by
  unfold parseOperand
  refine Post.bind (Post.true _) fun ⟨c, lr1⟩ _ => ?_
  dsimp only
  split_ifs
  · refine Post.bind (Post.true _) fun ⟨x, lr2⟩ _ => ?_
    exact Post.pure ⟨rfl, rfl, rfl, rfl⟩
  · refine Post.bind (Post.true _) fun ⟨x, lr2⟩ _ => ?_
    exact Post.pure ⟨rfl, rfl, rfl, rfl⟩

theorem parseComparand_node (fuel : Nat) (p : Program) (lr : LineReader) (e : Bool) :
    Post (parseComparand fuel p lr e)
      (fun r => r.1.operation = p.operation ∧ p.sameLinks r.1) := by
  unfold parseComparand
  split_ifs
  · exact parseOperand_node fuel p lr
  · exact Post.bind (Post.true _) fun _ _ => Post.pure ⟨rfl, rfl, rfl, rfl⟩

theorem parseWhileRelation_node (p : Program) (lr : LineReader) (o : ParserOptions)
    (c : Option Char) :
    Post (parseWhileRelation p lr o c)
      (fun r => r.1.operation.isRelation = true ∧ p.sameLinks r.1) := by
  unfold parseWhileRelation
  split_ifs
  · exact Post.bind (Post.true _) fun _ _ => Post.pure ⟨rfl, rfl, rfl, rfl⟩
  · exact Post.pure ⟨rfl, rfl, rfl, rfl⟩
  · exact parseOrEqual_node _ _ _ _ rfl rfl
  · exact parseOrEqual_node _ _ _ _ rfl rfl
  · exact Post.parserError
  · exact Post.parserError

theorem parseIfRelation_node (p : Program) (lr : LineReader) (o : ParserOptions)
    (c : Option Char) :
    Post (parseIfRelation p lr o c)
      (fun r => r.1.operation.isRelation = true ∧ p.sameLinks r.1) := by
  unfold parseIfRelation
  split_ifs
  · exact Post.pure ⟨rfl, rfl, rfl, rfl⟩
  · exact Post.bind (Post.true _) fun _ _ => Post.pure ⟨rfl, rfl, rfl, rfl⟩
  · exact parseOrEqual_node _ _ _ _ rfl rfl
  · exact parseOrEqual_node _ _ _ _ rfl rfl
  · exact Post.parserError
  · exact Post.parserError

theorem parseWhile_node (fuel : Nat) (p : Program) (lr : LineReader) (o : ParserOptions) :
    Post (parseWhile fuel p lr o)
      (fun r => r.1.instructionType = .whileInstruction ∧ r.1.operation.isRelation = true
        ∧ r.1.innerProgram = p.innerProgram ∧ r.1.nextProgram = p.nextProgram) := by
  unfold parseWhile
  refine Post.bind (Post.true _) fun lr1 _ => ?_
  refine Post.bind (Post.true _) fun ⟨_, lr2⟩ _ => ?_
  refine Post.bind (Post.true _) fun lr3 _ => ?_
  refine Post.bind (Post.true _) fun ⟨x, lr4⟩ _ => ?_
  refine Post.bind (Post.true _) fun ⟨_, lr5⟩ _ => ?_
  refine Post.bind (Post.true _) fun ⟨c, lr6⟩ _ => ?_
  refine Post.bind (parseWhileRelation_node _ lr6 o c) ?_
  rintro ⟨p1, lr7⟩ ⟨hop, h1, h2, h3⟩
  refine Post.bind (Post.true _) fun ⟨_, lr8⟩ _ => ?_
  refine Post.bind (parseComparand_node fuel p1 lr8 _) ?_
  rintro ⟨p2, lr9⟩ ⟨hop2, g1, g2, g3⟩
  refine Post.bind (Post.true _) fun ⟨_, lr10⟩ _ => ?_
  refine Post.bind (Post.true _) fun lr11 _ => ?_
  refine Post.bind (Post.true _) fun ⟨_, lr12⟩ _ => ?_
  exact Post.pure ⟨g1.trans h1, hop2 ▸ hop, g2.trans h2, g3.trans h3⟩

theorem parseIf_node (fuel : Nat) (p : Program) (lr : LineReader) (o : ParserOptions) :
    Post (parseIf fuel p lr o)
      (fun r => r.1.instructionType = .ifInstructionStart ∧ r.1.operation.isRelation = true
        ∧ r.1.innerProgram = p.innerProgram ∧ r.1.nextProgram = p.nextProgram) := by
  unfold parseIf
  refine Post.bind (Post.true _) fun lr1 _ => ?_
  refine Post.bind (Post.true _) fun ⟨_, lr2⟩ _ => ?_
  refine Post.bind (Post.true _) fun lr3 _ => ?_
  refine Post.bind (Post.true _) fun ⟨x, lr4⟩ _ => ?_
  refine Post.bind (Post.true _) fun ⟨_, lr5⟩ _ => ?_
  refine Post.bind (Post.true _) fun ⟨c, lr6⟩ _ => ?_
  refine Post.bind (parseIfRelation_node _ lr6 o c) ?_
  rintro ⟨p1, lr7⟩ ⟨hop, h1, h2, h3⟩
  refine Post.bind (Post.true _) fun ⟨_, lr8⟩ _ => ?_
  refine Post.bind (parseComparand_node fuel p1 lr8 _) ?_
  rintro ⟨p2, lr9⟩ ⟨hop2, g1, g2, g3⟩
  refine Post.bind (Post.true _) fun ⟨_, lr10⟩ _ => ?_
  refine Post.bind (Post.true _) fun lr11 _ => ?_
  refine Post.bind (Post.true _) fun ⟨_, lr12⟩ _ => ?_
  exact Post.pure ⟨g1.trans h1, hop2 ▸ hop, g2.trans h2, g3.trans h3⟩

/-! ## The nodes while `parse` runs -/

theorem heap_set_append (heap : List Program) (k : Nat) (v : Program) (extra : List Program)
    (j : Nat) (p : Program) (h : (heap.set k v ++ extra)[j]? = some p) :
    (j = k ∧ p = v ∧ j < heap.length) ∨ (j ≠ k ∧ heap[j]? = some p)
      ∨ (heap.length ≤ j ∧ extra[j - heap.length]? = some p) := by
  by_cases hj : j < heap.length
  · rw [List.getElem?_append_left (by simpa using hj)] at h
    by_cases hk : j = k
    · subst hk
      left
      simp [List.getElem?_set, hj] at h
      exact ⟨rfl, h.symm, hj⟩
    · right; left
      rw [List.getElem?_set_ne (Ne.symm hk)] at h
      exact ⟨hk, h⟩
  · right; right
    have hj2 : heap.length ≤ j := Nat.le_of_not_lt hj
    rw [List.getElem?_append_right (by simpa using hj2)] at h
    simp at h
    exact ⟨hj2, h⟩

theorem heap_getD_of_lt (heap : List Program) (k : Nat) (hk : k < heap.length) :
    heap[k]? = some (heap.getD k Program.zero) := by
  simp [List.getD_eq_getElem?_getD, List.getElem?_eq_getElem hk]

theorem Program.good_of_links {p q : Program} (hp : p.good)
    (ht : q.instructionType = p.instructionType) (ho : q.operation = p.operation)
    (hi : q.innerProgram = p.innerProgram) : q.good := by
  unfold Program.good Program.defined at *
  rw [ht, ho, hi]
  exact hp

theorem openBlock_wellFormed (state : ParserState) (p : Program) (lr : LineReader)
    (hst : state.wellFormed .instruction) (hdef : p.defined)
    (hop : p.instructionType.isOpener = true) :
    (openBlock state p lr).wellFormed .instruction := by
  refine ⟨?_, ?_, ?_⟩
  · intro k q hq hk
    rcases heap_set_append _ _ _ _ _ _ hq with ⟨_, rfl, _⟩ | ⟨h1, h2⟩ | ⟨h1, h2⟩
    · refine ⟨?_, ?_⟩
      · unfold Program.defined at *
        exact hdef
      · simp [hop]
    · exact hst.1 k q h2 h1
    · exfalso
      have : k - state.heap.length = 0 := by
        by_contra hne
        have : 1 ≤ k - state.heap.length := Nat.one_le_iff_ne_zero.mpr hne
        simp [List.getElem?_eq_none (l := [Program.zero]) (by simpa using this)] at h2
      exact hk (by simp only [openBlock]; omega)
  · intro _
    simp [openBlock, List.getD_eq_getElem?_getD, List.getElem?_append_right]
  · intro h
    cases h

theorem nextInstruction_wellFormed (state : ParserState) (lr : LineReader)
    (hst : state.wellFormed .end_of_instruction) :
    (nextInstruction state lr).wellFormed .instruction := by
  have hall := hst.2.2 rfl
  refine ⟨?_, ?_, ?_⟩
  · intro k q hq hk
    rcases heap_set_append _ _ _ _ _ _ hq with ⟨rfl, rfl, hlt⟩ | ⟨h1, h2⟩ | ⟨h1, h2⟩
    · exact Program.good_of_links (hall _ _ (heap_getD_of_lt _ _ hlt)) rfl rfl rfl
    · exact hall k q h2
    · exfalso
      have : k - state.heap.length = 0 := by
        by_contra hne
        have : 1 ≤ k - state.heap.length := Nat.one_le_iff_ne_zero.mpr hne
        simp [List.getElem?_eq_none (l := [Program.zero]) (by simpa using this)] at h2
      exact hk (by simp only [nextInstruction]; omega)
  · intro _
    simp [nextInstruction, List.getD_eq_getElem?_getD, List.getElem?_append_right]
  · intro h
    cases h

theorem openElse_wellFormed (state : ParserState) (program : Nat) (programStack : List Nat)
    (lr : LineReader) (hst : state.wellFormed .end_of_instruction) :
    (openElse state program programStack lr).wellFormed .instruction := by
  have hall := hst.2.2 rfl
  refine ⟨?_, ?_, ?_⟩
  · intro k q hq hk
    rcases heap_set_append _ _ _ _ _ _ hq with ⟨rfl, rfl, hlt⟩ | ⟨h1, h2⟩ | ⟨h1, h2⟩
    · exact Program.good_of_links (hall _ _ (heap_getD_of_lt _ _ hlt)) rfl rfl rfl
    · exact hall k q h2
    · have hk2 : k - state.heap.length ≠ 1 := by
        intro h1'
        exact hk (by simp only [openElse]; omega)
      match hm : k - state.heap.length, h2 with
      | 0, h2 =>
        simp at h2
        subst h2
        refine ⟨?_, ?_⟩
        · simp [Program.defined, Program.zero]
        · simp [Program.zero, InstructionType.isOpener]
      | 1, _ => exact absurd hm hk2
      | n + 2, h2 => simp at h2
  · intro _
    simp [openElse, List.getD_eq_getElem?_getD, List.getElem?_append_right,
      List.getElem_append_right]
  · intro h
    cases h

theorem parseInstruction_wellFormed (o : ParserOptions) (fuel : Nat) (state : ParserState)
    (hst : state.wellFormed .instruction) :
    Post (parseInstruction o fuel state) (fun r =>
      match r with
      | .goOn label state => state.wellFormed label
      | .break state => state.wellFormed .end_of_instruction) := by
  have hzero := hst.2.1 rfl
  unfold parseInstruction
  refine Post.bind (Post.true _) fun ⟨_, lr1⟩ _ => ?_
  refine Post.bind (Post.true _) fun ⟨c, lr2⟩ _ => ?_
  dsimp only
  split_ifs
  · exact Post.parserError
  · refine Post.bind (parseAssignment_node fuel _ _ o _) ?_
    rintro ⟨p, lr3, cnt, hi⟩ ⟨ht, hop, hin, hn⟩
    refine Post.pure ?_
    rw [hzero] at hin hn
    have hgood : p.good := by
      refine ⟨?_, ?_⟩
      · unfold Program.defined
        rw [ht]
        exact hop
      · rw [ht, hin]
        simp [InstructionType.isOpener, Program.zero]
    have hall : ∀ (k : Nat) (q : Program),
        (state.heap.set state.program p)[k]? = some q → q.good := by
      intro k q hq
      have hq2 : (state.heap.set state.program p ++ [])[k]? = some q := by simpa using hq
      rcases heap_set_append _ _ _ _ _ _ hq2 with ⟨_, rfl, _⟩ | ⟨h1, h2⟩ | ⟨h1, h2⟩
      · exact hgood
      · exact hst.1 k q h2 h1
      · simp at h2
    exact ⟨fun k q hq _ => hall k q hq, fun h => Label.noConfusion h, fun _ => hall⟩
  · refine Post.bind (parseLoop_node fuel _ _ o) ?_
    rintro ⟨p, lr3⟩ ⟨ht, hin, hn⟩
    refine Post.pure (openBlock_wellFormed state p lr3 hst ?_ ?_)
    · unfold Program.defined
      rw [ht]
      trivial
    · rw [ht]
      rfl
  · refine Post.bind (parseWhile_node fuel _ _ o) ?_
    rintro ⟨p, lr3⟩ ⟨ht, hop, hin, hn⟩
    refine Post.pure (openBlock_wellFormed state p lr3 hst ?_ ?_)
    · unfold Program.defined
      rw [ht]
      exact hop
    · rw [ht]
      rfl
  · refine Post.bind (parseIf_node fuel _ _ o) ?_
    rintro ⟨p, lr3⟩ ⟨ht, hop, hin, hn⟩
    refine Post.pure (openBlock_wellFormed state p lr3 hst ?_ ?_)
    · unfold Program.defined
      rw [ht]
      exact hop
    · rw [ht]
      rfl
  · exact Post.parserError

theorem wellFormed_end_of_all (state : ParserState)
    (hall : ∀ (k : Nat) (p : Program), state.heap[k]? = some p → p.good) :
    state.wellFormed .end_of_instruction :=
  ⟨fun k p hp _ => hall k p hp, fun h => Label.noConfusion h, fun _ => hall⟩

theorem parseEndOfInstruction_wellFormed (o : ParserOptions) (fuel : Nat)
    (state : ParserState) (hst : state.wellFormed .end_of_instruction) :
    Post (parseEndOfInstruction o fuel state) (fun r =>
      match r with
      | .goOn label state => state.wellFormed label
      | .break state => state.wellFormed .end_of_instruction) := by
  have hall := hst.2.2 rfl
  unfold parseEndOfInstruction
  refine Post.bind (Post.true _) fun ⟨c, lr1⟩ _ => ?_
  dsimp only
  split
  · exact Post.pure (nextInstruction_wellFormed state lr1 hst)
  split
  · split
    · exact Post.parserError
    · refine Post.bind (Post.true _) fun ⟨c2, lr2⟩ _ => ?_
      dsimp only
      split
      · refine Post.bind (Post.true _) fun lr3 _ => ?_
        split
        · exact Post.parserError
        · refine Post.bind (Post.true _) fun ⟨cnt, lr4⟩ _ => ?_
          exact Post.pure (wellFormed_end_of_all _ hall)
      split
      · split
        · refine Post.bind (Post.true _) fun lr3 _ => ?_
          split
          · exact Post.fail
          · split
            · exact Post.parserError
            · refine Post.bind (Post.true _) fun ⟨cnt, lr4⟩ _ => ?_
              exact Post.pure (openElse_wellFormed state _ _ lr4 hst)
        · exact Post.parserError
      · exact Post.parserError
  split
  · split
    · exact Post.parserError
    · exact Post.pure (wellFormed_end_of_all _ hall)
  · split
    · exact Post.parserError
    · exact Post.parserError

theorem parseRun_wellFormed (o : ParserOptions) (fuel : Nat) :
    ∀ (steps : Nat) (label : Label) (state : ParserState), state.wellFormed label →
      Post (parseRun o fuel steps label state) (fun final =>
        ∀ (k : Nat) (p : Program), final.heap[k]? = some p → p.good) := by
  intro steps
  induction steps with
  | zero =>
    intro label state _
    exact Post.fail
  | succ n ih =>
    intro label state hst
    have hstep : Post (parseStep o fuel label state) (fun r =>
        match r with
        | .goOn label state => state.wellFormed label
        | .break state => state.wellFormed .end_of_instruction) := by
      cases label with
      | instruction => exact parseInstruction_wellFormed o fuel state hst
      | end_of_instruction => exact parseEndOfInstruction_wellFormed o fuel state hst
    unfold parseRun
    cases hres : parseStep o fuel label state with
    | error e => exact Post.fail
    | ok ctl =>
      have hctl := hstep ctl hres
      cases ctl with
      | goOn l2 s2 => exact ih l2 s2 hctl
      | «break» s2 => exact Post.ok (hctl.2.2 rfl)

theorem parseStart_wellFormed (o : ParserOptions) (input : List Char) :
    (parseStart o input).wellFormed .instruction := by
  refine ⟨?_, ?_, ?_⟩
  · intro k p hp hk
    have : k = 0 := by
      by_contra hne
      have h1 : 1 ≤ k := Nat.one_le_iff_ne_zero.mpr hne
      simp [parseStart, List.getElem?_eq_none (l := [Program.zero]) (by simpa using h1)] at hp
    exact absurd this hk
  · intro _
    rfl
  · intro h
    cases h

/-! ## The loop of `writeProgram` and the recursive emitter -/

theorem writeProgramClose_node (p : Program) (a b : Tree) (S : List Tree) (d : Nat) (out : String) :
    writeProgramClose (.node p a b) S d out
      = { program := .node p a b, programStack := S, indentation := d, output := out } := by
  cases S <;> rfl

theorem writeProgramFinish_cons (fuel : Nat) (p : Program) (a b : Tree) (S : List Tree)
    (d : Nat) (out : String) :
    writeProgramFinish fuel (.node p a b :: S) (d + 1) out
      = (match writeProgramClose b S d (out ++ closer d) with
         | { program := .null, output := output, .. } => .ok output
         | state => writeProgramLoop fuel state) := by
  simp only [writeProgramFinish, writeProgramClose, closer, Nat.add_sub_cancel, String.append_assoc]

theorem String.append_ite (c : Prop) [Decidable c] (out a b : String) :
    (if c then out ++ a else out ++ b) = out ++ (if c then a else b) := by
  split <;> rfl

theorem writeProgramLoop_emit (t : Tree) : t ≠ .null →
    ∀ (fuel : Nat) (S : List Tree) (d : Nat) (out : String),
      writeProgramLoop (t.size + fuel)
          { program := t, programStack := S, indentation := d, output := out }
        = (match emit t d with
           | .error e => .error e
           | .ok text => writeProgramFinish fuel S d (out ++ text)) := by
  induction t with
  | null => intro h; exact absurd rfl h
  | node p inner next ihi ihn =>
    intro _ fuel S d out
    have h0 : Tree.null.size = 0 := rfl
    have hsize : (Tree.node p inner next).size + fuel
        = (inner.size + (next.size + fuel)) + 1 := by
      simp only [Tree.size]; omega
    rw [hsize, writeProgramLoop]
    simp only [emit, line]
    cases hw : writeInstruction p with
    | error e => rfl
    | ok text =>
      dsimp only
      rw [String.append_ite]
      generalize (if p.instructionType = InstructionType.ifInstructionEnd then " "
        else writeIndentation d) = pre
      cases inner with
      | null =>
        cases next with
        | null =>
          simp only [h0, emit, writeProgramFinish, Nat.zero_add, String.append_assoc,
            String.append_empty]
        | node q a b =>
          simp only [writeProgramClose_node, h0, Nat.zero_add]
          rw [ihn (by simp)]
          cases emit (Tree.node q a b) d with
          | error e => rfl
          | ok rest => simp only [String.append_assoc, String.append_empty]
      | node q a b =>
        dsimp only
        rw [ihi (by simp)]
        cases emit (Tree.node q a b) (d + 1) with
        | error e => rfl
        | ok body =>
          dsimp only
          rw [writeProgramFinish_cons]
          cases next with
          | null =>
            simp only [h0, emit, writeProgramFinish, Nat.zero_add, String.append_assoc,
              String.append_empty]
          | node q2 a2 b2 =>
            simp only [writeProgramClose_node]
            rw [ihn (by simp)]
            cases emit (Tree.node q2 a2 b2) d with
            | error e => rfl
            | ok rest => simp only [String.append_assoc, String.append_empty]

/-! ## Braces in the emitted text -/

theorem countChar_append (c : Char) (a b : String) :
    countChar c (a ++ b) = countChar c a + countChar c b := by
  simp [countChar, String.data_append, List.count_append]

theorem digitChar_no_brace : ∀ d, d < 10 →
    Nat.digitChar d ≠ openingBrace ∧ Nat.digitChar d ≠ closingBrace := by
  decide

theorem toDigitsCore_no_brace (f : Nat) : ∀ (n : Nat) (ds : List Char),
    (∀ c ∈ ds, c ≠ openingBrace ∧ c ≠ closingBrace) →
    ∀ c ∈ Nat.toDigitsCore 10 f n ds, c ≠ openingBrace ∧ c ≠ closingBrace := by
  induction f with
  | zero => intro n ds h; simpa [Nat.toDigitsCore] using h
  | succ f ih =>
    intro n ds h
    have hd := digitChar_no_brace (n % 10) (Nat.mod_lt _ (by decide))
    have h2 : ∀ c ∈ Nat.digitChar (n % 10) :: ds, c ≠ openingBrace ∧ c ≠ closingBrace := by
      intro c hc
      rcases List.mem_cons.mp hc with rfl | hc
      · exact hd
      · exact h c hc
    simp only [Nat.toDigitsCore]
    split
    · exact h2
    · exact ih _ _ h2

theorem repr_no_brace (n : Nat) :
    countChar openingBrace (Nat.repr n) = 0 ∧ countChar closingBrace (Nat.repr n) = 0 := by
  have h := toDigitsCore_no_brace (n + 1) n [] (by simp)
  simp only [countChar, Nat.repr, Nat.toDigits, List.asString]
  constructor
  · exact List.count_eq_zero.mpr fun hmem => (h _ hmem).1 rfl
  · exact List.count_eq_zero.mpr fun hmem => (h _ hmem).2 rfl

theorem formatInt_no_brace (v : Int) :
    countChar openingBrace (formatInt v) = 0 ∧ countChar closingBrace (formatInt v) = 0 := by
  unfold formatInt
  split
  · simp only [countChar_append, (repr_no_brace _).1, (repr_no_brace _).2]
    exact ⟨rfl, rfl⟩
  · exact repr_no_brace _

theorem countChar_formatD_open (v : Nat) : countChar openingBrace (formatD v) = 0 :=
  (formatInt_no_brace _).1

theorem countChar_formatD_close (v : Nat) : countChar closingBrace (formatD v) = 0 :=
  (formatInt_no_brace _).2

theorem count_formatD_open (v : Nat) : List.count (Char.ofNat 123) (formatD v).data = 0 :=
  countChar_formatD_open v

theorem count_formatD_close (v : Nat) : List.count (Char.ofNat 125) (formatD v).data = 0 :=
  countChar_formatD_close v

theorem countChar_writeIndentation (c : Char) (hc : c ≠ Char.ofNat 10) (ht : c ≠ Char.ofNat 9)
    (d : Nat) : countChar c (writeIndentation d) = 0 := by
  simp only [writeIndentation, countChar_append]
  have h1 : countChar c "\n" = 0 := by
    simp only [countChar]
    exact List.count_eq_zero.mpr (by simpa using hc)
  have h2 : countChar c (String.mk (List.replicate d (Char.ofNat 9))) = 0 := by
    simp only [countChar]
    exact List.count_eq_zero.mpr (by
      intro hmem
      exact ht (List.eq_of_mem_replicate hmem))
  omega

theorem writeAssignment_braces (p : Program) (h : p.operation.isArithmetic = true) :
    ∃ text, writeAssignment p = .ok text ∧ countChar closingBrace text = 0
      ∧ countChar openingBrace text = 0 := by
  unfold writeAssignment
  split
  all_goals first
    | (refine ⟨_, rfl, ?_, ?_⟩ <;>
        simp only [countChar_append, countChar_formatD_open, countChar_formatD_close] <;>
        simp [countChar, closingBrace, openingBrace])
    | (refine ⟨_, rfl, ?_, ?_⟩ <;> split <;>
        simp only [countChar_append, countChar_formatD_open, countChar_formatD_close] <;>
        simp [countChar, closingBrace, openingBrace])
    | skip
  rename_i hne1 hne2 hne3 hne4 hne5 hne6 hne7
  exfalso
  cases hop : p.operation <;> simp_all [Operation.isArithmetic]

theorem relation_text (op : Operation) (h : op.isRelation = true) :
    ∃ text, relation op = some text ∧ countChar closingBrace text = 0
      ∧ countChar openingBrace text = 0 := by
  cases op <;> first
    | (refine ⟨_, rfl, ?_, ?_⟩ <;> simp [countChar, closingBrace, openingBrace])
    | simp [Operation.isRelation] at h

theorem writeWhile_braces (p : Program) (h : p.operation.isRelation = true) :
    ∃ text, writeWhile p = .ok text ∧ countChar closingBrace text = 0
      ∧ countChar openingBrace text = 1 := by
  obtain ⟨rel, hrel, h1, h2⟩ := relation_text p.operation h
  unfold writeWhile
  rw [hrel]
  refine ⟨_, rfl, ?_, ?_⟩ <;> split <;>
    simp only [countChar_append, countChar_formatD_open, countChar_formatD_close, h1, h2] <;>
    simp [countChar, closingBrace, openingBrace]

theorem writeIfStart_braces (p : Program) (h : p.operation.isRelation = true) :
    ∃ text, writeIfStart p = .ok text ∧ countChar closingBrace text = 0
      ∧ countChar openingBrace text = 1 := by
  obtain ⟨rel, hrel, h1, h2⟩ := relation_text p.operation h
  unfold writeIfStart
  rw [hrel]
  refine ⟨_, rfl, ?_, ?_⟩ <;> split <;>
    simp only [countChar_append, countChar_formatD_open, countChar_formatD_close, h1, h2] <;>
    simp [countChar, closingBrace, openingBrace]

theorem writeLoop_braces (p : Program) :
    countChar closingBrace (writeLoop p) = 0 ∧ countChar openingBrace (writeLoop p) = 1 := by
  unfold writeLoop
  constructor <;>
    simp only [countChar_append, countChar_formatD_open, countChar_formatD_close] <;>
    simp [countChar, closingBrace, openingBrace]

theorem writeInstruction_braces (p : Program) (h : p.defined) :
    ∃ text, writeInstruction p = .ok text ∧ countChar closingBrace text = 0
      ∧ countChar openingBrace text = (if p.instructionType.isOpener then 1 else 0) := by
  unfold Program.defined at h
  unfold writeInstruction
  cases hty : p.instructionType <;> rw [hty] at h <;> dsimp only at h ⊢
  · simpa [InstructionType.isOpener] using writeAssignment_braces p h
  · exact ⟨_, rfl, (writeLoop_braces p).1, by simpa [InstructionType.isOpener] using (writeLoop_braces p).2⟩
  · simpa [InstructionType.isOpener] using writeWhile_braces p h
  · simpa [InstructionType.isOpener] using writeIfStart_braces p h
  · refine ⟨_, rfl, ?_, ?_⟩ <;>
      simp [writeIfEnd, InstructionType.isOpener, countChar, closingBrace, openingBrace]

theorem line_braces (p : Program) (d : Nat) (h : p.defined) :
    ∃ text, line p d = .ok text ∧ countChar closingBrace text = 0
      ∧ countChar openingBrace text = (if p.instructionType.isOpener then 1 else 0) := by
  obtain ⟨text, hw, hc, ho⟩ := writeInstruction_braces p h
  unfold line
  rw [hw]
  refine ⟨_, rfl, ?_, ?_⟩
  · rw [countChar_append, hc]
    split
    · simp [countChar, closingBrace]
    · rw [countChar_writeIndentation _ (by decide) (by decide)]
  · rw [countChar_append, ho]
    split
    · simp [countChar, openingBrace]
    · rw [countChar_writeIndentation _ (by decide) (by decide)]
      omega

theorem closer_braces (d : Nat) :
    countChar closingBrace (closer d) = 1 ∧ countChar openingBrace (closer d) = 0 := by
  unfold closer
  rw [countChar_append, countChar_append, countChar_writeIndentation _ (by decide) (by decide),
    countChar_writeIndentation _ (by decide) (by decide)]
  constructor <;> simp [writeLoopEnd, countChar, closingBrace, openingBrace]

theorem emit_node (p : Program) (inner next : Tree) (d : Nat) :
    emit (.node p inner next) d
      = (match line p d with
         | .error e => .error e
         | .ok first =>
           match (match inner with
                  | .null => (.ok "" : Except Failure String)
                  | .node _ _ _ =>
                    match emit inner (d + 1) with
                    | .error e => .error e
                    | .ok body => .ok (body ++ closer d)) with
           | .error e => .error e
           | .ok block =>
             match emit next d with
             | .error e => .error e
             | .ok rest => .ok (first ++ block ++ rest)) := rfl

theorem emit_braces (t : Tree) : ∀ (d : Nat), t.Forall Program.good → t.linked →
    ∃ text, emit t d = .ok text ∧ countChar closingBrace text = t.openers
      ∧ countChar openingBrace text = t.openers := by
  induction t with
  | null =>
    intro d _ _
    exact ⟨"", rfl, rfl, rfl⟩
  | node p inner next ihi ihn =>
    intro d hgood hlinked
    obtain ⟨⟨hdef, hopen⟩, hgi, hgn⟩ := hgood
    obtain ⟨hli, _, hlinkedi, hlinkedn⟩ := hlinked
    obtain ⟨first, hfirst, hfc, hfo⟩ := line_braces p d hdef
    obtain ⟨rest, hrest, hrc, hro⟩ := ihn d hgn hlinkedn
    cases inner with
    | null =>
      have hnot : ¬ (p.instructionType.isOpener = true) := fun h => hopen.mp h (hli.mp rfl)
      refine ⟨first ++ "" ++ rest, ?_, ?_, ?_⟩
      · rw [emit_node]
        simp only [hfirst, hrest]
      · simp only [countChar_append, hfc, hrc, Tree.openers, if_neg hnot]
        simp [countChar]
      · simp only [countChar_append, hfo, hro, Tree.openers, if_neg hnot]
        simp [countChar]
    | node q a b =>
      have hyes : p.instructionType.isOpener = true :=
        hopen.mpr fun hnone => Tree.noConfusion (hli.mpr hnone)
      obtain ⟨body, hbody, hbc, hbo⟩ := ihi (d + 1) hgi hlinkedi
      refine ⟨first ++ (body ++ closer d) ++ rest, ?_, ?_, ?_⟩
      · rw [emit_node]
        simp only [hfirst, hrest, hbody]
      · simp only [countChar_append, hfc, hrc, hbc, (closer_braces d).1, Tree.openers,
          if_pos hyes]
        omega
      · simp only [countChar_append, hfo, hro, hbo, (closer_braces d).2, Tree.openers,
          if_pos hyes]
        omega

theorem writeProgramBody_eq_emit (t : Tree) (h : t ≠ .null) : writeProgramBody t = emit t 1 := by
  unfold writeProgramBody
  rw [writeProgramLoop_emit t h 1 [] 1 ""]
  cases emit t 1 with
  | error e => rfl
  | ok text =>
    simp only [writeProgramFinish, writeProgramClose, String.empty_append]

theorem toTree_of_heap (heap : List Program) (P : Program → Prop)
    (hall : ∀ (k : Nat) (p : Program), heap[k]? = some p → P p) :
    ∀ (fuel : Nat) (pointer : Option Nat) (t : Tree), toTree heap fuel pointer = some t →
      t.Forall P ∧ t.linked ∧ (t = .null ↔ pointer = none) := by
  intro fuel
  induction fuel with
  | zero =>
    intro pointer t h
    cases pointer with
    | none =>
      simp only [toTree, Option.some.injEq] at h
      subst h
      exact ⟨trivial, trivial, by simp⟩
    | some k => simp [toTree] at h
  | succ n ih =>
    intro pointer t h
    cases pointer with
    | none =>
      simp only [toTree, Option.some.injEq] at h
      subst h
      exact ⟨trivial, trivial, by simp⟩
    | some k =>
      simp only [toTree] at h
      cases hk : heap[k]? with
      | none => simp [hk] at h
      | some p =>
        rw [hk] at h
        dsimp only at h
        cases hi : toTree heap n p.innerProgram with
        | none => simp [hi] at h
        | some a =>
          cases hn : toTree heap n p.nextProgram with
          | none => simp [hi, hn] at h
          | some b =>
            simp only [hi, hn, Option.some.injEq] at h
            subst h
            obtain ⟨ha1, ha2, ha3⟩ := ih _ _ hi
            obtain ⟨hb1, hb2, hb3⟩ := ih _ _ hn
            exact ⟨⟨hall k p hk, ha1, hb1⟩, ⟨ha3, hb3, ha2, hb2⟩, by simp⟩

theorem parse_good (o : ParserOptions) (input : List Char) (parsed : Parsed)
    (h : parse o input = .ok parsed) :
    parsed.program.Forall Program.good ∧ parsed.program.linked ∧ parsed.program ≠ .null := by
  unfold parse at h
  cases hrun : parseRun o (parseStart o input).lineReader.fuel
      (parseStart o input).lineReader.fuel .instruction (parseStart o input) with
  | error e => simp [hrun] at h
  | ok state =>
    rw [hrun] at h
    dsimp only at h
    have hall := parseRun_wellFormed o _ _ _ _ (parseStart_wellFormed o input) state hrun
    cases ht : toTree state.heap state.heap.length (some 0) with
    | none => simp [ht] at h
    | some t =>
      simp only [ht, Except.ok.injEq] at h
      subst h
      obtain ⟨h1, h2, h3⟩ := toTree_of_heap state.heap Program.good hall _ _ _ ht
      exact ⟨h1, h2, fun hnull => by simpa using h3.mp hnull⟩

theorem Tree.Forall.imp {P Q : Program → Prop} (hPQ : ∀ p, P p → Q p) :
    ∀ (t : Tree), t.Forall P → t.Forall Q
  | .null, _ => trivial
  | .node _ a b, ⟨hp, ha, hb⟩ => ⟨hPQ _ hp, Tree.Forall.imp hPQ a ha, Tree.Forall.imp hPQ b hb⟩


/-! ## Reading a character again after `lineReader->position--` -/

theorem getCharLoop_last (fuel : Nat) : ∀ (lr : LineReader) (c : Option Char) (lr1 : LineReader),
    getCharLoop fuel lr = .ok (c, lr1) →
      1 ≤ lr1.position ∧ lr1.position ≤ lr1.size
        ∧ lr1.buf.getD (lr1.position - 1) NUL = c.getD NUL
        ∧ (∀ ch, c = some ch → ch ≠ NUL) ∧ (c = none → lr1.input = []) := by
  induction fuel with
  | zero => intro lr c lr1 h; simp [getCharLoop] at h
  | succ n ih =>
    intro lr c lr1 h
    rw [getCharLoop] at h
    split at h
    · simp [error] at h
    · rename_i hpos
      dsimp only at h
      split at h
      · rename_i hc
        simp only [Except.ok.injEq, Prod.mk.injEq] at h
        obtain ⟨rfl, rfl⟩ := h
        refine ⟨by simp, by simp; omega, by simp, ?_, by simp⟩
        intro ch hch
        simp only [Option.some.injEq] at hch
        exact hch ▸ hc
      · rename_i hc
        split at h
        · rename_i hin
          simp only [Except.ok.injEq, Prod.mk.injEq] at h
          obtain ⟨rfl, rfl⟩ := h
          refine ⟨by simp, by simp; omega, ?_, by simp, fun _ => hin⟩
          simpa using hc
        · exact ih _ _ _ h

theorem getChar_unread (lr : LineReader) (c : Option Char) (lr1 : LineReader)
    (h : getChar lr = .ok (c, lr1)) : getChar (unread lr1) = .ok (c, lr1) := by
  obtain ⟨h1, h2, h3, h4, h5⟩ := getCharLoop_last _ lr c lr1 h
  obtain ⟨name, input, buf, size, line, segment, position, endOfLine⟩ := lr1
  simp only at h1 h2 h3 h5
  unfold getChar
  simp only [unread]
  rw [getCharLoop]
  have hpos : ¬ (position - 1 ≥ size) := by omega
  have hback : position - 1 + 1 = position := by omega
  simp only [hpos, if_false, hback, h3]
  cases c with
  | some ch =>
    have := h4 ch rfl
    simp [this]
  | none =>
    have := h5 rfl
    simp [this]

/-! ## A larger profile accepts what a smaller one accepts -/

theorem bind_ok_inv {α β : Type} {a : Except Failure α} {f : α → Except Failure β} {r : β}
    (h : (a >>= f) = .ok r) : ∃ x, a = .ok x ∧ f x = .ok r := by
  cases a with
  | error e => cases h
  | ok x => exact ⟨x, rfl, h⟩

theorem ok_bind {α β : Type} (x : α) (f : α → Except Failure β) :
    ((Except.ok x : Except Failure α) >>= f) = f x := rfl

theorem Sim.same {α : Type} (a : Except Failure α) : Sim a a := fun _ h => h

theorem Sim.of_error {α : Type} (e : Failure) (b : Except Failure α) : Sim (.error e) b := by
  intro r h
  cases h

theorem Sim.seq {α β : Type} {a b : Except Failure α} {f g : α → Except Failure β}
    (hab : Sim a b) (hfg : ∀ x, a = .ok x → Sim (f x) (g x)) : Sim (a >>= f) (b >>= g) := by
  intro r h
  obtain ⟨x, hx, hf⟩ := bind_ok_inv h
  rw [hab x hx, ok_bind]
  exact hfg x hx r hf

theorem consumeWhitespaceLoop_unread (fuel : Nat) (lr : LineReader) (c : Option Char)
    (lr1 : LineReader) (h : getChar lr = .ok (c, lr1)) (count : Nat) :
    consumeWhitespaceLoop fuel (unread lr1) count = consumeWhitespaceLoop fuel lr count := by
  cases fuel with
  | zero => rfl
  | succ n => rw [consumeWhitespaceLoop, consumeWhitespaceLoop, getChar_unread lr c lr1 h, h]

theorem consumeWhitespace_unread (fuel : Nat) (lr : LineReader) (c : Option Char)
    (lr1 : LineReader) (h : getChar lr = .ok (c, lr1)) (m : Nat) (o : ParserOptions) :
    consumeWhitespace fuel (unread lr1) m o = consumeWhitespace fuel lr m o := by
  unfold consumeWhitespace
  rw [consumeWhitespaceLoop_unread fuel lr c lr1 h]

theorem parseNumber_unread (fuel : Nat) (lr : LineReader) (c : Option Char)
    (lr1 : LineReader) (h : getChar lr = .ok (c, lr1)) :
    parseNumber fuel (unread lr1) = parseNumber fuel lr := by
  unfold parseNumber
  cases fuel with
  | zero => rfl
  | succ n => rw [parseNumberLoop, parseNumberLoop, getChar_unread lr c lr1 h, h]

theorem consumeStringLoop_unread (lr : LineReader) (c : Option Char) (lr1 : LineReader)
    (h : getChar lr = .ok (c, lr1)) (ch : Char) (rest : List Char) :
    consumeStringLoop (ch :: rest) (unread lr1) = consumeStringLoop (ch :: rest) lr := by
  rw [consumeStringLoop, consumeStringLoop, getChar_unread lr c lr1 h, h]

theorem consumeStringLoop_cons_inv (ch : Char) (rest : List Char) (lr lr2 : LineReader)
    (h : consumeStringLoop (ch :: rest) lr = .ok lr2) :
    ∃ lr1, getChar lr = .ok (some ch, lr1) ∧ consumeStringLoop rest lr1 = .ok lr2 := by
  rw [consumeStringLoop] at h
  cases hg : getChar lr with
  | error e => simp [hg] at h
  | ok r =>
    obtain ⟨c, lr1⟩ := r
    rw [hg] at h
    dsimp only at h
    split at h
    · split at h <;> cases h
    · rename_i hc
      have hc2 : c = some ch := by simpa using hc
      subst hc2
      exact ⟨lr1, rfl, h⟩

theorem parseNumber_first (fuel : Nat) (lr : LineReader) (r : Int × LineReader)
    (h : parseNumber fuel lr = .ok r) :
    ∃ c lr1, getChar lr = .ok (c, lr1) ∧ isDigit c = true := by
  unfold parseNumber at h
  cases fuel with
  | zero => simp [parseNumberLoop] at h
  | succ n =>
    rw [parseNumberLoop] at h
    cases hg : getChar lr with
    | error e => simp [hg] at h
    | ok r1 =>
      obtain ⟨c, lr1⟩ := r1
      refine ⟨c, lr1, rfl, ?_⟩
      rw [hg] at h
      dsimp only at h
      by_contra hd
      rw [if_neg hd] at h
      dsimp only at h
      rw [if_pos (by decide)] at h
      split at h <;> cases h

theorem consumeWhitespace_sim (fuel : Nat) (lr : LineReader) (m n : Nat) (hnm : n ≤ m)
    (F G : ParserOptions) (hFG : F.subset G) :
    Sim (consumeWhitespace fuel lr m F) (consumeWhitespace fuel lr n G) := by
  intro r h
  unfold consumeWhitespace at h ⊢
  cases hl : consumeWhitespaceLoop fuel lr 0 with
  | error e => simp [hl] at h
  | ok r1 =>
    obtain ⟨c, count, lr1⟩ := r1
    rw [hl] at h
    dsimp only at h ⊢
    split at h
    · split at h <;> cases h
    · rename_i hcond
      have hcond2 : ¬ (count < n ∧ G.noWhitespace = false) := by
        intro ⟨h1, h2⟩
        apply hcond
        refine ⟨by omega, ?_⟩
        cases hF : F.noWhitespace with
        | false => rfl
        | true => rw [hFG.2.2.2.2.1 hF] at h2; cases h2
      rw [if_neg hcond2]
      exact h

theorem pure_bind_ok {α β : Type} (x : α) (f : α → Except Failure β) :
    ((pure x : Except Failure α) >>= f) = f x := rfl

theorem parseOperator_sim (p : Program) (lr : LineReader) (c : Option Char)
    (F G : ParserOptions) (hFG : F.subset G) :
    Sim (parseOperator p lr F c) (parseOperator p lr G c) := by
  intro r h
  unfold parseOperator at h ⊢
  by_cases h1 : c = some '+'
  · simpa [h1] using h
  by_cases h2 : c = some '-'
  · simpa [h1, h2] using h
  cases hF : F.extensionOperations with
  | true =>
    have hG := hFG.2.2.1 hF
    simpa [hF, hG] using h
  | false =>
    exfalso
    simp only [h1, h2, hF, if_false, Bool.false_eq_true, false_and] at h
    split at h <;> cases h

theorem parseOperandStart_eq (p : Program) (lr : LineReader) (F G : ParserOptions)
    (h : F.extensionAssignment = G.extensionAssignment) :
    parseOperandStart p lr F = parseOperandStart p lr G := by
  unfold parseOperandStart
  rw [h]

theorem isDigit_x : isDigit (some 'x') = false := by decide

theorem parseAssignmentOperation_sim (fuel : Nat) (p : Program) (lr : LineReader)
    (F G : ParserOptions) (hFG : F.subset G) :
    Sim (parseAssignmentOperation fuel p lr F) (parseAssignmentOperation fuel p lr G) := by
  unfold parseAssignmentOperation
  refine Sim.seq (Sim.same _) fun ⟨c, lr1⟩ _ => ?_
  refine Sim.seq (parseOperator_sim p lr1 c F G hFG) fun ⟨p1, lr2⟩ _ => ?_
  refine Sim.seq (consumeWhitespace_sim fuel lr2 1 1 (Nat.le_refl _) F G hFG) fun ⟨_, lr3⟩ _ => ?_
  dsimp only
  have htail : ∀ (lr4 : LineReader) (p2 : Program),
      Sim (parseNumber fuel lr4 >>= fun r => match r with
            | (x, lineReader) =>
              let program := { p2 with c := toUInt64 x }
              consumeWhitespace fuel lineReader 0 F >>= fun r => match r with
                | (count, lineReader) => (pure (program, lineReader, count) :
                    Except Failure (Program × LineReader × Nat)))
          (parseNumber fuel lr4 >>= fun r => match r with
            | (x, lineReader) =>
              let program := { p2 with c := toUInt64 x }
              consumeWhitespace fuel lineReader 0 G >>= fun r => match r with
                | (count, lineReader) => (pure (program, lineReader, count) :
                    Except Failure (Program × LineReader × Nat))) := by
    intro lr4 p2
    refine Sim.seq (Sim.same _) fun ⟨x, lr5⟩ _ => ?_
    refine Sim.seq (consumeWhitespace_sim fuel lr5 0 0 (Nat.le_refl _) F G hFG)
      fun ⟨cnt, lr6⟩ _ => ?_
    exact Sim.same _
  cases hF : F.extensionAssignment with
  | true =>
    have hG := hFG.2.2.2.1 hF
    rw [parseOperandStart_eq p1 lr3 F G (by rw [hF, hG])]
    refine Sim.seq (Sim.same _) fun ⟨p2, lr4⟩ _ => ?_
    exact htail lr4 p2
  | false =>
    cases hG : G.extensionAssignment with
    | false =>
      rw [parseOperandStart_eq p1 lr3 F G (by rw [hF, hG])]
      refine Sim.seq (Sim.same _) fun ⟨p2, lr4⟩ _ => ?_
      exact htail lr4 p2
    | true =>
      intro r h
      have hF4 : parseOperandStart p1 lr3 F = pure (p1, lr3) := by
        unfold parseOperandStart
        simp [hF]
      rw [hF4, pure_bind_ok] at h
      dsimp only at h
      obtain ⟨xr, hnum, _⟩ := bind_ok_inv h
      obtain ⟨c2, lr4, hget, hdig⟩ := parseNumber_first fuel lr3 xr hnum
      have hnx : c2 ≠ some 'x' := by
        intro hx
        rw [hx, isDigit_x] at hdig
        cases hdig
      have hG4 : parseOperandStart p1 lr3 G = .ok (p1, unread lr4) := by
        unfold parseOperandStart
        rw [if_pos hG, hget, ok_bind]
        dsimp only
        rw [if_neg hnx, if_pos hdig]
        rfl
      rw [hG4, ok_bind]
      dsimp only
      rw [parseNumber_unread fuel lr3 c2 lr4 hget]
      exact htail lr3 p1 r h


theorem parseAssignmentOperation_unread (fuel : Nat) (p : Program) (lr : LineReader)
    (c : Option Char) (lr1 : LineReader) (h : getChar lr = .ok (c, lr1)) (o : ParserOptions) :
    parseAssignmentOperation fuel p (unread lr1) o = parseAssignmentOperation fuel p lr o := by
  unfold parseAssignmentOperation
  rw [getChar_unread lr c lr1 h, h]

theorem parseOperator_char (p : Program) (lr : LineReader) (o : ParserOptions)
    (c : Option Char) (r : Program × LineReader) (h : parseOperator p lr o c = .ok r) :
    c ≠ some ';' ∧ c ≠ some 'E' ∧ c ≠ none := by
  unfold parseOperator at h
  split at h
  · rename_i hc; subst hc; decide
  split at h
  · rename_i hc; subst hc; decide
  split at h
  · rename_i hc; rw [hc.2]; decide
  split at h
  · rename_i hc; rw [hc.2]; decide
  split at h
  · rename_i hc; rw [hc.2]; decide
  split at h
  · cases h
  split at h <;> cases h

theorem parseAssignmentOperation_first (fuel : Nat) (p : Program) (lr : LineReader)
    (o : ParserOptions) (r : Program × LineReader × Nat)
    (h : parseAssignmentOperation fuel p lr o = .ok r) :
    ∃ c lr1, getChar lr = .ok (c, lr1) ∧ c ≠ some ';' ∧ c ≠ some 'E' ∧ c ≠ none := by
  unfold parseAssignmentOperation at h
  obtain ⟨⟨c, lr1⟩, hget, h⟩ := bind_ok_inv h
  obtain ⟨r2, hop, _⟩ := bind_ok_inv h
  exact ⟨c, lr1, hget, parseOperator_char p lr1 o c r2 hop⟩

theorem parseAssignmentSource_sim (fuel : Nat) (p : Program) (lr : LineReader)
    (hi : Int) (F G : ParserOptions) (hFG : F.subset G) :
    Sim (parseAssignmentSource fuel p lr F hi) (parseAssignmentSource fuel p lr G hi) := by
  unfold parseAssignmentSource
  refine Sim.seq (Sim.same _) fun lr1 _ => ?_
  refine Sim.seq (Sim.same _) fun ⟨x, lr2⟩ _ => ?_
  dsimp only
  cases hF : F.extensionAssignment with
  | true =>
    have hG := hFG.2.2.2.1 hF
    simp only [hG, if_true]
    refine Sim.seq (consumeWhitespace_sim fuel lr2 0 0 (Nat.le_refl _) F G hFG)
      fun ⟨cnt, lr3⟩ _ => ?_
    refine Sim.seq (Sim.same _) fun ⟨c, lr4⟩ _ => ?_
    dsimp only
    split
    · intro r h
      split at h
      · cases h
      · rename_i hcond
        have hcond2 : ¬ (G.noWhitespace = false ∧ c = some 'E' ∧ cnt = 0) := by
          intro ⟨h1, h2⟩
          apply hcond
          refine ⟨?_, h2⟩
          cases hFn : F.noWhitespace with
          | false => rfl
          | true => rw [hFG.2.2.2.2.1 hFn] at h1; cases h1
        rw [if_neg hcond2]
        exact h
    · refine Sim.seq (parseAssignmentOperation_sim fuel _ _ F G hFG) fun ⟨p1, lr5, cnt2⟩ _ => ?_
      exact Sim.same _
  | false =>
    cases hG : G.extensionAssignment with
    | false =>
      simp only [Bool.false_eq_true, if_false]
      refine Sim.seq (consumeWhitespace_sim fuel lr2 1 1 (Nat.le_refl _) F G hFG)
        fun ⟨cnt, lr3⟩ _ => ?_
      refine Sim.seq (parseAssignmentOperation_sim fuel _ _ F G hFG) fun ⟨p1, lr5, cnt2⟩ _ => ?_
      exact Sim.same _
    | true =>
      simp only [Bool.false_eq_true, if_false, if_true]
      intro r h
      obtain ⟨⟨cnt, lr3⟩, hw, h⟩ := bind_ok_inv h
      dsimp only at h
      obtain ⟨⟨p1, lr5, cnt2⟩, hop, h⟩ := bind_ok_inv h
      obtain ⟨c, lr4, hget, hc1, hc2, hc3⟩ := parseAssignmentOperation_first fuel _ _ F _ hop
      rw [consumeWhitespace_sim fuel lr2 1 0 (Nat.zero_le _) F G hFG _ hw, ok_bind]
      dsimp only
      rw [hget, ok_bind]
      dsimp only
      rw [if_neg (by simp [hc1, hc2, hc3]), parseAssignmentOperation_unread fuel _ lr3 c lr4 hget,
        parseAssignmentOperation_sim fuel _ _ F G hFG _ hop, ok_bind]
      exact h

theorem parseAssignmentSource_unread (fuel : Nat) (p : Program) (lr : LineReader)
    (c : Option Char) (lr1 : LineReader) (h : getChar lr = .ok (c, lr1)) (o : ParserOptions)
    (hi : Int) :
    parseAssignmentSource fuel p (unread lr1) o hi = parseAssignmentSource fuel p lr o hi := by
  unfold parseAssignmentSource
  have hs : consumeString (unread lr1) "x" = consumeString lr "x" :=
    consumeStringLoop_unread lr c lr1 h 'x' []
  rw [hs]

theorem parseAssignmentSource_first (fuel : Nat) (p : Program) (lr : LineReader)
    (o : ParserOptions) (hi : Int) (r : Program × LineReader × Nat × Int)
    (h : parseAssignmentSource fuel p lr o hi = .ok r) :
    ∃ lr1, getChar lr = .ok (some 'x', lr1) := by
  unfold parseAssignmentSource at h
  obtain ⟨lr1, hs, _⟩ := bind_ok_inv h
  obtain ⟨lr2, hget, _⟩ := consumeStringLoop_cons_inv 'x' [] lr lr1 hs
  exact ⟨lr2, hget⟩

theorem parseAssignment_sim (fuel : Nat) (p : Program) (lr : LineReader)
    (hi : Int) (F G : ParserOptions) (hFG : F.subset G) :
    Sim (parseAssignment fuel p lr F hi) (parseAssignment fuel p lr G hi) := by
  unfold parseAssignment
  dsimp only
  refine Sim.seq (Sim.same _) fun ⟨x, lr1⟩ _ => ?_
  refine Sim.seq (consumeWhitespace_sim fuel lr1 1 1 (Nat.le_refl _) F G hFG) fun ⟨_, lr2⟩ _ => ?_
  refine Sim.seq (Sim.same _) fun lr3 _ => ?_
  refine Sim.seq (consumeWhitespace_sim fuel lr3 1 1 (Nat.le_refl _) F G hFG) fun ⟨_, lr4⟩ _ => ?_
  dsimp only
  cases hF : F.extensionAssignment with
  | true =>
    have hG := hFG.2.2.2.1 hF
    simp only [hG, if_true]
    refine Sim.seq (Sim.same _) fun ⟨c, lr5⟩ _ => ?_
    dsimp only
    split
    · refine Sim.seq (Sim.same _) fun ⟨x2, lr6⟩ _ => ?_
      refine Sim.seq (consumeWhitespace_sim fuel lr6 0 0 (Nat.le_refl _) F G hFG)
        fun ⟨cnt, lr7⟩ _ => ?_
      exact Sim.same _
    · exact parseAssignmentSource_sim fuel _ _ _ F G hFG
  | false =>
    simp only [Bool.false_eq_true, if_false]
    cases hG : G.extensionAssignment with
    | false =>
      simp only [Bool.false_eq_true, if_false]
      exact parseAssignmentSource_sim fuel _ _ _ F G hFG
    | true =>
      simp only [if_true]
      intro r h
      obtain ⟨lr5, hget⟩ := parseAssignmentSource_first fuel _ _ F _ _ h
      rw [hget, ok_bind]
      dsimp only
      rw [if_neg (by rw [isDigit_x]; simp), parseAssignmentSource_unread fuel _ lr4 _ lr5 hget]
      exact parseAssignmentSource_sim fuel _ _ _ F G hFG r h

theorem parseLoop_sim (fuel : Nat) (p : Program) (lr : LineReader)
    (F G : ParserOptions) (hFG : F.subset G) :
    Sim (parseLoop fuel p lr F) (parseLoop fuel p lr G) := by
  unfold parseLoop
  dsimp only
  refine Sim.seq (Sim.same _) fun lr1 _ => ?_
  refine Sim.seq (consumeWhitespace_sim fuel lr1 1 1 (Nat.le_refl _) F G hFG) fun ⟨_, lr2⟩ _ => ?_
  refine Sim.seq (Sim.same _) fun lr3 _ => ?_
  refine Sim.seq (Sim.same _) fun ⟨x, lr4⟩ _ => ?_
  refine Sim.seq (consumeWhitespace_sim fuel lr4 1 1 (Nat.le_refl _) F G hFG) fun ⟨_, lr5⟩ _ => ?_
  refine Sim.seq (Sim.same _) fun lr6 _ => ?_
  refine Sim.seq (consumeWhitespace_sim fuel lr6 1 1 (Nat.le_refl _) F G hFG) fun ⟨_, lr7⟩ _ => ?_
  exact Sim.same _


theorem parseWhileRelation_sim (p : Program) (lr : LineReader) (c : Option Char)
    (F G : ParserOptions) (hFG : F.subset G) :
    Sim (parseWhileRelation p lr F c) (parseWhileRelation p lr G c) := by
  intro r h
  unfold parseWhileRelation at h ⊢
  by_cases h1 : c = some '!'
  · simpa [h1] using h
  cases hF : F.extensionWhileExtended with
  | true =>
    have hG := hFG.2.2.2.2.2.2.2 hF
    simpa [hF, hG] using h
  | false =>
    exfalso
    simp only [h1, hF, if_false, Bool.false_eq_true] at h
    cases h

theorem parseIfRelation_sim (p : Program) (lr : LineReader) (c : Option Char)
    (F G : ParserOptions) (hFG : F.subset G) :
    Sim (parseIfRelation p lr F c) (parseIfRelation p lr G c) := by
  intro r h
  unfold parseIfRelation at h ⊢
  by_cases h1 : c = some '='
  · simpa [h1] using h
  cases hF : F.extensionIfExtended with
  | true =>
    have hG := hFG.2.2.2.2.2.2.1 hF
    simpa [hF, hG] using h
  | false =>
    exfalso
    simp only [h1, hF, if_false, Bool.false_eq_true] at h
    cases h

theorem parseOrEqual_c (p : Program) (lr : LineReader) (a b : Operation) :
    Post (parseOrEqual p lr a b) (fun r => r.1.c = p.c) := by
  unfold parseOrEqual
  refine Post.bind (Post.true _) fun ⟨c, lr1⟩ _ => ?_
  dsimp only
  split
  · exact Post.pure rfl
  · exact Post.pure rfl

theorem parseWhileRelation_c (p : Program) (lr : LineReader) (o : ParserOptions)
    (c : Option Char) : Post (parseWhileRelation p lr o c) (fun r => r.1.c = p.c) := by
  unfold parseWhileRelation
  split
  · exact Post.bind (Post.true _) fun _ _ => Post.pure rfl
  split
  · split
    · exact Post.pure rfl
    split
    · exact parseOrEqual_c _ _ _ _
    split
    · exact parseOrEqual_c _ _ _ _
    · exact Post.parserError
  · exact Post.parserError

theorem parseIfRelation_c (p : Program) (lr : LineReader) (o : ParserOptions)
    (c : Option Char) : Post (parseIfRelation p lr o c) (fun r => r.1.c = p.c) := by
  unfold parseIfRelation
  split
  · exact Post.pure rfl
  split
  · split
    · exact Post.bind (Post.true _) fun _ _ => Post.pure rfl
    split
    · exact parseOrEqual_c _ _ _ _
    split
    · exact parseOrEqual_c _ _ _ _
    · exact Post.parserError
  · exact Post.parserError

theorem isDigit_of_isWhitespace (c : Option Char) (h : isWhitespace c = true) :
    isDigit c = false := by
  cases c with
  | none => rfl
  | some ch =>
    simp only [isWhitespace, Bool.or_eq_true, decide_eq_true_eq] at h
    rcases h with (((h | h) | h) | h) | h <;> subst h <;> decide

/-- The character after a `0` that is followed by blanks or by the keyword is not a digit. -/
theorem not_digit_after (fuel : Nat) (lr1 : LineReader) (o : ParserOptions)
    (ch : Char) (rest : List Char) (hch : isDigit (some ch) = false)
    (cnt : Nat) (lrW lrK : LineReader)
    (hw : consumeWhitespace fuel lr1 1 o = .ok (cnt, lrW))
    (hk : consumeStringLoop (ch :: rest) lrW = .ok lrK) :
    ∃ c2 lr2, getChar lr1 = .ok (c2, lr2) ∧ isDigit c2 = false := by
  unfold consumeWhitespace at hw
  cases fuel with
  | zero => simp [consumeWhitespaceLoop] at hw
  | succ n =>
    rw [consumeWhitespaceLoop] at hw
    cases hg : getChar lr1 with
    | error e => simp [hg] at hw
    | ok r1 =>
      obtain ⟨c2, lr2⟩ := r1
      refine ⟨c2, lr2, rfl, ?_⟩
      rw [hg] at hw
      dsimp only at hw
      cases hws : isWhitespace c2 with
      | true => exact isDigit_of_isWhitespace c2 hws
      | false =>
        rw [hws] at hw
        simp only [Bool.false_eq_true, if_false] at hw
        split at hw
        · split at hw <;> cases hw
        · simp only [Except.ok.injEq, Prod.mk.injEq] at hw
          obtain ⟨_, hlr⟩ := hw
          rw [← hlr, consumeStringLoop_unread lr1 c2 lr2 hg] at hk
          obtain ⟨lr3, hget, _⟩ := consumeStringLoop_cons_inv ch rest lr1 lrK hk
          rw [hg] at hget
          simp only [Except.ok.injEq, Prod.mk.injEq] at hget
          rw [hget.1]
          exact hch

theorem parseNumber_zero (fuel : Nat) (lr lr1 lr2 : LineReader) (c2 : Option Char)
    (h0 : getChar lr = .ok (some '0', lr1)) (h1 : getChar lr1 = .ok (c2, lr2))
    (hd : isDigit c2 = false) :
    parseNumber (fuel + 2) lr = .ok (0, unread lr2) := by
  unfold parseNumber
  rw [parseNumberLoop, h0]
  dsimp only
  rw [if_pos (by decide), parseNumberLoop, h1]
  dsimp only
  rw [if_neg (by simp [hd])]
  dsimp only
  rw [if_neg (by decide)]
  rfl

theorem comparandTail_sim (fuel : Nat) (p : Program) (hc : p.c = 0) (lr : LineReader)
    (kw : String) (ch : Char) (rest : List Char) (hkw : kw.toList = ch :: rest)
    (hch : isDigit (some ch) = false) (eF eG : Bool) (he : eF = true → eG = true)
    (F G : ParserOptions) (hFG : F.subset G) :
    Sim (parseComparand (fuel + 2) p lr eF >>= fun r => match r with
          | (program, lineReader) =>
            consumeWhitespace (fuel + 2) lineReader 1 F >>= fun r => match r with
              | (_, lineReader) =>
                consumeString lineReader kw >>= fun lineReader =>
                  consumeWhitespace (fuel + 2) lineReader 1 F >>= fun r => match r with
                    | (_, lineReader) =>
                      (pure (program, lineReader) : Except Failure (Program × LineReader)))
        (parseComparand (fuel + 2) p lr eG >>= fun r => match r with
          | (program, lineReader) =>
            consumeWhitespace (fuel + 2) lineReader 1 G >>= fun r => match r with
              | (_, lineReader) =>
                consumeString lineReader kw >>= fun lineReader =>
                  consumeWhitespace (fuel + 2) lineReader 1 G >>= fun r => match r with
                    | (_, lineReader) =>
                      (pure (program, lineReader) : Except Failure (Program × LineReader))) := by
  have htail : ∀ (q : Program) (lr1 : LineReader),
      Sim (consumeWhitespace (fuel + 2) lr1 1 F >>= fun r => match r with
              | (_, lineReader) =>
                consumeString lineReader kw >>= fun lineReader =>
                  consumeWhitespace (fuel + 2) lineReader 1 F >>= fun r => match r with
                    | (_, lineReader) =>
                      (pure (q, lineReader) : Except Failure (Program × LineReader)))
          (consumeWhitespace (fuel + 2) lr1 1 G >>= fun r => match r with
              | (_, lineReader) =>
                consumeString lineReader kw >>= fun lineReader =>
                  consumeWhitespace (fuel + 2) lineReader 1 G >>= fun r => match r with
                    | (_, lineReader) =>
                      (pure (q, lineReader) : Except Failure (Program × LineReader))) := by
    intro q lr1
    refine Sim.seq (consumeWhitespace_sim _ lr1 1 1 (Nat.le_refl _) F G hFG) fun ⟨_, lr2⟩ _ => ?_
    refine Sim.seq (Sim.same _) fun lr3 _ => ?_
    refine Sim.seq (consumeWhitespace_sim _ lr3 1 1 (Nat.le_refl _) F G hFG) fun ⟨_, lr4⟩ _ => ?_
    exact Sim.same _
  cases heF : eF with
  | true =>
    rw [he heF]
    exact Sim.seq (Sim.same _) fun ⟨q, lr1⟩ _ => htail q lr1
  | false =>
    cases heG : eG with
    | false => exact Sim.seq (Sim.same _) fun ⟨q, lr1⟩ _ => htail q lr1
    | true =>
      intro r h
      obtain ⟨⟨q, lr1⟩, hcmp, h⟩ := bind_ok_inv h
      dsimp only at h
      unfold parseComparand at hcmp
      simp only [Bool.false_eq_true, if_false] at hcmp
      obtain ⟨lr1', hs, hq⟩ := bind_ok_inv hcmp
      cases hq
      obtain ⟨lr0, hget0, hnil⟩ := consumeStringLoop_cons_inv '0' [] lr lr1 hs
      cases hnil
      obtain ⟨⟨cnt, lrW⟩, hw, h2⟩ := bind_ok_inv h
      dsimp only at h2
      obtain ⟨lrK, hk, _⟩ := bind_ok_inv h2
      have hk2 : consumeStringLoop (ch :: rest) lrW = .ok lrK := by
        rw [← hkw]
        exact hk
      obtain ⟨c2, lr2, hget1, hd⟩ := not_digit_after _ lr1 F ch rest hch cnt lrW lrK hw hk2
      have hG : parseComparand (fuel + 2) p lr true = .ok (p, unread lr2) := by
        unfold parseComparand parseOperand
        rw [if_pos rfl, hget0, ok_bind]
        dsimp only
        rw [if_neg (by decide)]
        dsimp only
        rw [parseNumber_unread _ lr _ lr1 hget0, parseNumber_zero fuel lr lr1 lr2 c2 hget0 hget1 hd,
          ok_bind]
        dsimp only
        have : toUInt64 0 = 0 := by decide
        rw [this, ← hc]
        rfl
      rw [hG, ok_bind]
      dsimp only
      rw [consumeWhitespace_unread _ lr1 c2 lr2 hget1]
      exact htail p lr1 r h


theorem parseWhile_sim (fuel : Nat) (p : Program) (hc : p.c = 0) (lr : LineReader)
    (F G : ParserOptions) (hFG : F.subset G) :
    Sim (parseWhile (fuel + 2) p lr F) (parseWhile (fuel + 2) p lr G) := by
  unfold parseWhile
  dsimp only
  refine Sim.seq (Sim.same _) fun lr1 _ => ?_
  refine Sim.seq (consumeWhitespace_sim _ lr1 1 1 (Nat.le_refl _) F G hFG) fun ⟨_, lr2⟩ _ => ?_
  refine Sim.seq (Sim.same _) fun lr3 _ => ?_
  refine Sim.seq (Sim.same _) fun ⟨x, lr4⟩ _ => ?_
  refine Sim.seq (consumeWhitespace_sim _ lr4 1 1 (Nat.le_refl _) F G hFG) fun ⟨_, lr5⟩ _ => ?_
  refine Sim.seq (Sim.same _) fun ⟨c, lr6⟩ _ => ?_
  refine Sim.seq (parseWhileRelation_sim _ lr6 c F G hFG) fun ⟨p1, lr7⟩ hrel => ?_
  have hc1 : p1.c = 0 := (parseWhileRelation_c _ lr6 F c _ hrel).trans hc
  refine Sim.seq (consumeWhitespace_sim _ lr7 1 1 (Nat.le_refl _) F G hFG) fun ⟨_, lr8⟩ _ => ?_
  exact comparandTail_sim fuel p1 hc1 lr8 "DO" 'D' ['O'] rfl (by decide) _ _
    hFG.2.2.2.2.2.2.2 F G hFG

theorem parseIf_sim (fuel : Nat) (p : Program) (hc : p.c = 0) (lr : LineReader)
    (F G : ParserOptions) (hFG : F.subset G) :
    Sim (parseIf (fuel + 2) p lr F) (parseIf (fuel + 2) p lr G) := by
  unfold parseIf
  dsimp only
  refine Sim.seq (Sim.same _) fun lr1 _ => ?_
  refine Sim.seq (consumeWhitespace_sim _ lr1 1 1 (Nat.le_refl _) F G hFG) fun ⟨_, lr2⟩ _ => ?_
  refine Sim.seq (Sim.same _) fun lr3 _ => ?_
  refine Sim.seq (Sim.same _) fun ⟨x, lr4⟩ _ => ?_
  refine Sim.seq (consumeWhitespace_sim _ lr4 1 1 (Nat.le_refl _) F G hFG) fun ⟨_, lr5⟩ _ => ?_
  refine Sim.seq (Sim.same _) fun ⟨c, lr6⟩ _ => ?_
  refine Sim.seq (parseIfRelation_sim _ lr6 c F G hFG) fun ⟨p1, lr7⟩ hrel => ?_
  have hc1 : p1.c = 0 := (parseIfRelation_c _ lr6 F c _ hrel).trans hc
  refine Sim.seq (consumeWhitespace_sim _ lr7 1 1 (Nat.le_refl _) F G hFG) fun ⟨_, lr8⟩ _ => ?_
  exact comparandTail_sim fuel p1 hc1 lr8 "THEN" 'T' ['H', 'E', 'N'] rfl (by decide) _ _
    hFG.2.2.2.2.2.2.1 F G hFG

theorem parseInstruction_sim (fuel : Nat) (state : ParserState)
    (hz : state.heap.getD state.program Program.zero = Program.zero)
    (F G : ParserOptions) (hFG : F.subset G) :
    Sim (parseInstruction F (fuel + 2) state) (parseInstruction G (fuel + 2) state) := by
  unfold parseInstruction
  refine Sim.seq (consumeWhitespace_sim _ _ 0 0 (Nat.le_refl _) F G hFG) fun ⟨_, lr1⟩ _ => ?_
  refine Sim.seq (Sim.same _) fun ⟨c, lr2⟩ _ => ?_
  dsimp only
  rw [hz]
  by_cases h0 : c = none
  · rw [if_pos h0]
    exact Sim.of_error _ _
  rw [if_neg h0, if_neg h0]
  by_cases hx : c = some 'x'
  · rw [if_pos hx, if_pos hx]
    refine Sim.seq (parseAssignment_sim _ _ _ _ F G hFG) fun ⟨p, lr3, cnt, hi⟩ _ => ?_
    exact Sim.same _
  rw [if_neg hx, if_neg hx]
  by_cases hL : c = some 'L'
  · rw [if_pos hL, if_pos hL]
    refine Sim.seq (parseLoop_sim _ _ _ F G hFG) fun ⟨p, lr3⟩ _ => ?_
    exact Sim.same _
  rw [if_neg hL, if_neg hL]
  by_cases hW : c = some 'W' ∧ F.extensionWhile = true
  · rw [if_pos hW, if_pos ⟨hW.1, hFG.2.1 hW.2⟩]
    refine Sim.seq (parseWhile_sim fuel _ rfl _ F G hFG) fun ⟨p, lr3⟩ _ => ?_
    exact Sim.same _
  rw [if_neg hW]
  by_cases hI : c = some 'I' ∧ F.extensionIf = true
  · rw [if_pos hI]
    have hnW : ¬ (c = some 'W' ∧ G.extensionWhile = true) := by
      rw [hI.1]
      simp
    rw [if_neg hnW, if_pos ⟨hI.1, hFG.2.2.2.2.2.1 hI.2⟩]
    refine Sim.seq (parseIf_sim fuel _ rfl _ F G hFG) fun ⟨p, lr3⟩ _ => ?_
    exact Sim.same _
  rw [if_neg hI]
  exact Sim.of_error _ _

theorem parseEndOfInstruction_sim (fuel : Nat) (state : ParserState)
    (F G : ParserOptions) (hFG : F.subset G) :
    Sim (parseEndOfInstruction F fuel state) (parseEndOfInstruction G fuel state) := by
  unfold parseEndOfInstruction
  refine Sim.seq (Sim.same _) fun ⟨c, lr1⟩ _ => ?_
  dsimp only
  split
  · exact Sim.same _
  split
  · by_cases hcnt : state.count = 0 ∧ F.noWhitespace = false
    · rw [if_pos hcnt]
      exact Sim.of_error _ _
    · have hcnt2 : ¬ (state.count = 0 ∧ G.noWhitespace = false) := by
        intro ⟨h1, h2⟩
        apply hcnt
        refine ⟨h1, ?_⟩
        cases hFn : F.noWhitespace with
        | false => rfl
        | true => rw [hFG.2.2.2.2.1 hFn] at h2; cases h2
      rw [if_neg hcnt, if_neg hcnt2]
      refine Sim.seq (Sim.same _) fun ⟨c2, lr2⟩ _ => ?_
      dsimp only
      split
      · refine Sim.seq (Sim.same _) fun lr3 _ => ?_
        split
        · exact Sim.of_error _ _
        · refine Sim.seq (consumeWhitespace_sim _ _ 0 0 (Nat.le_refl _) F G hFG)
            fun ⟨cnt, lr4⟩ _ => ?_
          exact Sim.same _
      · cases hF : F.extensionIfExtended with
        | false =>
          simp only [Bool.false_eq_true, if_false]
          exact Sim.of_error _ _
        | true =>
          rw [hFG.2.2.2.2.2.2.1 hF]
          simp only [if_true]
          split
          · refine Sim.seq (Sim.same _) fun lr3 _ => ?_
            split
            · exact Sim.same _
            · split
              · exact Sim.same _
              · refine Sim.seq (consumeWhitespace_sim _ _ 1 1 (Nat.le_refl _) F G hFG)
                  fun ⟨cnt, lr4⟩ _ => ?_
                exact Sim.same _
          · exact Sim.same _
  · exact Sim.same _

theorem parseRun_sim (fuel : Nat) (F G : ParserOptions) (hFG : F.subset G) :
    ∀ (steps : Nat) (label : Label) (state : ParserState), state.wellFormed label →
      Sim (parseRun F (fuel + 2) steps label state) (parseRun G (fuel + 2) steps label state) := by
  intro steps
  induction steps with
  | zero =>
    intro label state _
    exact Sim.of_error _ _
  | succ n ih =>
    intro label state hst r h
    have hstep : Sim (parseStep F (fuel + 2) label state) (parseStep G (fuel + 2) label state) := by
      cases label with
      | instruction => exact parseInstruction_sim fuel state (hst.2.1 rfl) F G hFG
      | end_of_instruction => exact parseEndOfInstruction_sim _ state F G hFG
    have hinv : Post (parseStep F (fuel + 2) label state) (fun r =>
        match r with
        | .goOn label state => state.wellFormed label
        | .break state => state.wellFormed .end_of_instruction) := by
      cases label with
      | instruction => exact parseInstruction_wellFormed F _ state hst
      | end_of_instruction => exact parseEndOfInstruction_wellFormed F _ state hst
    rw [parseRun] at h ⊢
    cases hres : parseStep F (fuel + 2) label state with
    | error e => simp [hres] at h
    | ok ctl =>
      rw [hres] at h
      rw [hstep ctl hres]
      have hctl := hinv ctl hres
      cases ctl with
      | goOn l2 s2 => exact ih l2 s2 hctl r h
      | «break» s2 => exact h

theorem parse_sim (F G : ParserOptions) (hFG : F.subset G) (input : List Char) :
    Sim (parse F input) (parse G input) := by
  intro r h
  have hstart : parseStart G input = parseStart F input := by
    simp only [parseStart, hFG.1]
  have hfuel : (parseStart F input).lineReader.fuel
      = (input.length * (LINE_BUF_SIZE + 1) + 255) + 2 := by
    simp only [parseStart, newLineReader, LineReader.fuel, LINE_BUF_SIZE]
  unfold parse at h ⊢
  rw [hstart]
  rw [hfuel] at h ⊢
  cases hrun : parseRun F (input.length * (LINE_BUF_SIZE + 1) + 255 + 2)
      (input.length * (LINE_BUF_SIZE + 1) + 255 + 2) .instruction (parseStart F input) with
  | error e => simp [hrun] at h
  | ok state =>
    rw [hrun] at h
    rw [parseRun_sim _ F G hFG _ _ _ (parseStart_wellFormed F input) state hrun]
    exact h


/-! ## The loop of `parse` consumes input -/

theorem fgets_length (n : Nat) : ∀ (input : List Char),
    (fgets n input).2.length ≤ input.length
      ∧ (1 ≤ n → input ≠ [] → (fgets n input).2.length + 1 ≤ input.length) := by
  induction n with
  | zero =>
    intro input
    simp [fgets]
  | succ n ih =>
    intro input
    cases input with
    | nil => simp [fgets]
    | cons c cs =>
      simp only [fgets]
      split
      · simp
      · have := (ih cs).1
        simp only [List.length_cons]
        constructor
        · omega
        · intro _ _
          omega

theorem getCharLoop_remaining (fuel : Nat) : ∀ (lr : LineReader) (c : Option Char)
    (lr1 : LineReader), getCharLoop fuel lr = .ok (c, lr1) →
      lr1.remaining + 1 ≤ lr.remaining ∧ lr1.size = lr.size := by
  induction fuel with
  | zero => intro lr c lr1 h; simp [getCharLoop] at h
  | succ n ih =>
    intro lr c lr1 h
    rw [getCharLoop] at h
    split at h
    · simp [error] at h
    · rename_i hpos
      dsimp only at h
      split at h
      · simp only [Except.ok.injEq, Prod.mk.injEq] at h
        obtain ⟨_, rfl⟩ := h
        simp only [LineReader.remaining]
        constructor
        · omega
        · trivial
      · split at h
        · simp only [Except.ok.injEq, Prod.mk.injEq] at h
          obtain ⟨_, rfl⟩ := h
          simp only [LineReader.remaining]
          constructor
          · omega
          · trivial
        · rename_i hin
          obtain ⟨h1, h2⟩ := ih _ _ _ h
          have hlen := fgets_length (lr.size - 1) lr.input
          have hsize : lr1.size = lr.size := by
            rw [h2]
            split <;> split <;> rfl
          refine ⟨?_, hsize⟩
          have hrem : ∀ (lrR : LineReader), lrR.input = (fgets (lr.size - 1) lr.input).2 →
              lrR.size = lr.size → lrR.position = 0 → lrR.remaining ≤ lr.remaining := by
            intro lrR hi hs hp
            simp only [LineReader.remaining, hi, hs, hp]
            by_cases hs1 : 1 ≤ lr.size - 1
            · have hlt := hlen.2 hs1 hin
              have hmul := Nat.mul_le_mul_right (lr.size + 1) hlt
              rw [Nat.add_mul, Nat.one_mul] at hmul
              omega
            · have hmul := Nat.mul_le_mul_right (lr.size + 1) hlen.1
              have : lr.position = 0 := by omega
              omega
          have hR := hrem _ (by split <;> split <;> rfl) (by split <;> split <;> rfl)
            (by split <;> split <;> rfl) |>.trans' h1
          exact hR

theorem getChar_remaining (lr : LineReader) (c : Option Char) (lr1 : LineReader)
    (h : getChar lr = .ok (c, lr1)) : lr1.remaining + 1 ≤ lr.remaining :=
  (getCharLoop_remaining _ lr c lr1 h).1

theorem unread_remaining (lr : LineReader) : (unread lr).remaining ≤ lr.remaining + 1 := by
  simp only [unread, LineReader.remaining]
  omega

theorem getChar_post (lr : LineReader) :
    Post (getChar lr) (fun r => r.2.remaining + 1 ≤ lr.remaining) :=
  fun r h => getChar_remaining lr r.1 r.2 h


theorem consumeWhitespaceLoop_remaining (fuel : Nat) : ∀ (lr : LineReader) (count : Nat),
    Post (consumeWhitespaceLoop fuel lr count) (fun r => r.2.2.remaining + 1 ≤ lr.remaining) := by
  induction fuel with
  | zero => intro lr count; exact Post.fail
  | succ n ih =>
    intro lr count r h
    rw [consumeWhitespaceLoop] at h
    cases hg : getChar lr with
    | error e => simp [hg] at h
    | ok r1 =>
      obtain ⟨c, lr1⟩ := r1
      have h1 := getChar_remaining lr c lr1 hg
      rw [hg] at h
      dsimp only at h
      split at h
      · have := ih lr1 (count + 1) r h
        omega
      · cases h
        exact h1

theorem consumeWhitespace_remaining (fuel : Nat) (lr : LineReader) (m : Nat)
    (o : ParserOptions) :
    Post (consumeWhitespace fuel lr m o) (fun r => r.2.remaining ≤ lr.remaining) := by
  intro r h
  unfold consumeWhitespace at h
  cases hl : consumeWhitespaceLoop fuel lr 0 with
  | error e => simp [hl] at h
  | ok r1 =>
    have h1 := consumeWhitespaceLoop_remaining fuel lr 0 r1 hl
    obtain ⟨c, count, lr1⟩ := r1
    rw [hl] at h
    dsimp only at h h1
    split at h
    · split at h <;> cases h
    · cases h
      have := unread_remaining lr1
      dsimp only
      omega

theorem parseNumberLoop_remaining (fuel : Nat) : ∀ (lr : LineReader) (count : Nat) (x : Int),
    Post (parseNumberLoop fuel lr count x)
      (fun r => r.2.2.2.remaining + 1 ≤ lr.remaining) := by
  induction fuel with
  | zero => intro lr count x; exact Post.fail
  | succ n ih =>
    intro lr count x r h
    rw [parseNumberLoop] at h
    cases hg : getChar lr with
    | error e => simp [hg] at h
    | ok r1 =>
      obtain ⟨c, lr1⟩ := r1
      have h1 := getChar_remaining lr c lr1 hg
      rw [hg] at h
      dsimp only at h
      split at h
      · have := ih lr1 _ _ r h
        omega
      · cases h
        exact h1

theorem parseNumber_remaining (fuel : Nat) (lr : LineReader) :
    Post (parseNumber fuel lr) (fun r => r.2.remaining ≤ lr.remaining) := by
  intro r h
  unfold parseNumber at h
  cases hl : parseNumberLoop fuel lr 0 0 with
  | error e => simp [hl] at h
  | ok r1 =>
    have h1 := parseNumberLoop_remaining fuel lr 0 0 r1 hl
    obtain ⟨c, count, x, lr1⟩ := r1
    rw [hl] at h
    dsimp only at h h1
    split at h
    · split at h <;> cases h
    · cases h
      have := unread_remaining lr1
      dsimp only
      omega

theorem consumeStringLoop_remaining (s : List Char) : ∀ (lr : LineReader),
    Post (consumeStringLoop s lr) (fun r => r.remaining ≤ lr.remaining) := by
  induction s with
  | nil =>
    intro lr r h
    cases h
    exact Nat.le_refl _
  | cons ch rest ih =>
    intro lr r h
    obtain ⟨lr1, hg, hrest⟩ := consumeStringLoop_cons_inv ch rest lr r h
    have h1 := getChar_remaining lr _ lr1 hg
    have h2 := ih lr1 r hrest
    omega

theorem consumeString_remaining (lr : LineReader) (s : String) :
    Post (consumeString lr s) (fun r => r.remaining ≤ lr.remaining) :=
  consumeStringLoop_remaining _ lr

theorem parseOperator_remaining (p : Program) (lr : LineReader) (o : ParserOptions)
    (c : Option Char) :
    Post (parseOperator p lr o c) (fun r => r.2.remaining ≤ lr.remaining) := by
  unfold parseOperator
  split
  · exact Post.pure (Nat.le_refl _)
  split
  · exact Post.pure (Nat.le_refl _)
  split
  · exact Post.pure (Nat.le_refl _)
  split
  · exact Post.bind (consumeString_remaining lr _) fun _ h => Post.pure h
  split
  · exact Post.bind (consumeString_remaining lr _) fun _ h => Post.pure h
  split
  · exact Post.parserError
  split
  · exact Post.parserError
  · exact Post.parserError

theorem parseOperandStart_remaining (p : Program) (lr : LineReader) (o : ParserOptions) :
    Post (parseOperandStart p lr o) (fun r => r.2.remaining ≤ lr.remaining) := by
  unfold parseOperandStart
  split
  · refine Post.bind (getChar_post lr) fun ⟨c, lr1⟩ h1 => ?_
    dsimp only at h1 ⊢
    split
    · exact Post.pure (by dsimp only; omega)
    split
    · exact Post.pure (by have := unread_remaining lr1; dsimp only; omega)
    · exact Post.parserError
  · exact Post.pure (Nat.le_refl _)

theorem parseAssignmentOperation_remaining (fuel : Nat) (p : Program) (lr : LineReader)
    (o : ParserOptions) :
    Post (parseAssignmentOperation fuel p lr o)
      (fun r => r.2.1.remaining + 1 ≤ lr.remaining) := by
  unfold parseAssignmentOperation
  refine Post.bind (getChar_post lr) fun ⟨c, lr1⟩ h1 => ?_
  refine Post.bind (parseOperator_remaining p lr1 o c) fun ⟨p1, lr2⟩ h2 => ?_
  refine Post.bind (consumeWhitespace_remaining fuel lr2 1 o) fun ⟨_, lr3⟩ h3 => ?_
  refine Post.bind (parseOperandStart_remaining p1 lr3 o) fun ⟨p2, lr4⟩ h4 => ?_
  refine Post.bind (parseNumber_remaining fuel lr4) fun ⟨x, lr5⟩ h5 => ?_
  refine Post.bind (consumeWhitespace_remaining fuel lr5 0 o) fun ⟨cnt, lr6⟩ h6 => ?_
  exact Post.pure (by dsimp only at *; omega)

theorem parseAssignmentSource_remaining (fuel : Nat) (p : Program) (lr : LineReader)
    (o : ParserOptions) (hi : Int) :
    Post (parseAssignmentSource fuel p lr o hi)
      (fun r => r.2.1.remaining ≤ lr.remaining) := by
  unfold parseAssignmentSource
  refine Post.bind (consumeString_remaining lr _) fun lr1 h1 => ?_
  refine Post.bind (parseNumber_remaining fuel lr1) fun ⟨x, lr2⟩ h2 => ?_
  dsimp only at h2 ⊢
  split
  · refine Post.bind (consumeWhitespace_remaining fuel lr2 0 o) fun ⟨cnt, lr3⟩ h3 => ?_
    refine Post.bind (getChar_post lr3) fun ⟨c, lr4⟩ h4 => ?_
    have hu := unread_remaining lr4
    dsimp only at h3 h4 ⊢
    split
    · split
      · exact Post.parserError
      · exact Post.pure (by dsimp only; omega)
    · refine Post.bind (parseAssignmentOperation_remaining fuel _ _ o) fun ⟨p1, lr5, c2⟩ h5 => ?_
      exact Post.pure (by dsimp only at *; omega)
  · refine Post.bind (consumeWhitespace_remaining fuel lr2 1 o) fun ⟨cnt, lr3⟩ h3 => ?_
    refine Post.bind (parseAssignmentOperation_remaining fuel _ _ o) fun ⟨p1, lr5, c2⟩ h5 => ?_
    exact Post.pure (by dsimp only at *; omega)

theorem parseAssignment_remaining (fuel : Nat) (p : Program) (lr : LineReader)
    (o : ParserOptions) (hi : Int) :
    Post (parseAssignment fuel p lr o hi) (fun r => r.2.1.remaining ≤ lr.remaining) := by
  unfold parseAssignment
  dsimp only
  refine Post.bind (parseNumber_remaining fuel lr) fun ⟨x, lr1⟩ h1 => ?_
  refine Post.bind (consumeWhitespace_remaining fuel lr1 1 o) fun ⟨_, lr2⟩ h2 => ?_
  refine Post.bind (consumeString_remaining lr2 _) fun lr3 h3 => ?_
  refine Post.bind (consumeWhitespace_remaining fuel lr3 1 o) fun ⟨_, lr4⟩ h4 => ?_
  dsimp only at h1 h2 h3 h4 ⊢
  split
  · refine Post.bind (getChar_post lr4) fun ⟨c, lr5⟩ h5 => ?_
    have hu := unread_remaining lr5
    dsimp only at h5 ⊢
    split
    · refine Post.bind (parseNumber_remaining fuel _) fun ⟨x2, lr6⟩ h6 => ?_
      refine Post.bind (consumeWhitespace_remaining fuel lr6 0 o) fun ⟨cnt, lr7⟩ h7 => ?_
      exact Post.pure (by dsimp only at *; omega)
    · exact (parseAssignmentSource_remaining fuel _ _ o _).weaken
        fun r hr => by omega
  · exact (parseAssignmentSource_remaining fuel _ _ o _).weaken
      fun r hr => by omega

theorem parseLoop_remaining (fuel : Nat) (p : Program) (lr : LineReader) (o : ParserOptions) :
    Post (parseLoop fuel p lr o) (fun r => r.2.remaining ≤ lr.remaining) := by
  unfold parseLoop
  dsimp only
  refine Post.bind (consumeString_remaining lr _) fun lr1 h1 => ?_
  refine Post.bind (consumeWhitespace_remaining fuel lr1 1 o) fun ⟨_, lr2⟩ h2 => ?_
  refine Post.bind (consumeString_remaining lr2 _) fun lr3 h3 => ?_
  refine Post.bind (parseNumber_remaining fuel lr3) fun ⟨x, lr4⟩ h4 => ?_
  refine Post.bind (consumeWhitespace_remaining fuel lr4 1 o) fun ⟨_, lr5⟩ h5 => ?_
  refine Post.bind (consumeString_remaining lr5 _) fun lr6 h6 => ?_
  refine Post.bind (consumeWhitespace_remaining fuel lr6 1 o) fun ⟨_, lr7⟩ h7 => ?_
  exact Post.pure (by dsimp only at *; omega)

theorem parseOrEqual_remaining (p : Program) (lr : LineReader) (a b : Operation) :
    Post (parseOrEqual p lr a b) (fun r => r.2.remaining ≤ lr.remaining) := by
  unfold parseOrEqual
  refine Post.bind (getChar_post lr) fun ⟨c, lr1⟩ h1 => ?_
  have hu := unread_remaining lr1
  dsimp only at h1 ⊢
  split
  · exact Post.pure (by dsimp only; omega)
  · exact Post.pure (by dsimp only; omega)

theorem parseOperand_remaining (fuel : Nat) (p : Program) (lr : LineReader) :
    Post (parseOperand fuel p lr) (fun r => r.2.remaining ≤ lr.remaining) := by
  unfold parseOperand
  refine Post.bind (getChar_post lr) fun ⟨c, lr1⟩ h1 => ?_
  have hu := unread_remaining lr1
  dsimp only at h1 ⊢
  split
  · refine Post.bind (parseNumber_remaining fuel _) fun ⟨x, lr2⟩ h2 => ?_
    exact Post.pure (by dsimp only at *; omega)
  · refine Post.bind (parseNumber_remaining fuel _) fun ⟨x, lr2⟩ h2 => ?_
    exact Post.pure (by dsimp only at *; omega)

theorem parseComparand_remaining (fuel : Nat) (p : Program) (lr : LineReader) (e : Bool) :
    Post (parseComparand fuel p lr e) (fun r => r.2.remaining ≤ lr.remaining) := by
  unfold parseComparand
  split
  · exact parseOperand_remaining fuel p lr
  · exact Post.bind (consumeString_remaining lr _) fun _ h => Post.pure h

theorem parseWhileRelation_remaining (p : Program) (lr : LineReader) (o : ParserOptions)
    (c : Option Char) :
    Post (parseWhileRelation p lr o c) (fun r => r.2.remaining ≤ lr.remaining) := by
  unfold parseWhileRelation
  split
  · exact Post.bind (consumeString_remaining lr _) fun _ h => Post.pure h
  split
  · split
    · exact Post.pure (Nat.le_refl _)
    split
    · exact parseOrEqual_remaining _ _ _ _
    split
    · exact parseOrEqual_remaining _ _ _ _
    · exact Post.parserError
  · exact Post.parserError

theorem parseIfRelation_remaining (p : Program) (lr : LineReader) (o : ParserOptions)
    (c : Option Char) :
    Post (parseIfRelation p lr o c) (fun r => r.2.remaining ≤ lr.remaining) := by
  unfold parseIfRelation
  split
  · exact Post.pure (Nat.le_refl _)
  split
  · split
    · exact Post.bind (consumeString_remaining lr _) fun _ h => Post.pure h
    split
    · exact parseOrEqual_remaining _ _ _ _
    split
    · exact parseOrEqual_remaining _ _ _ _
    · exact Post.parserError
  · exact Post.parserError

theorem parseWhile_remaining (fuel : Nat) (p : Program) (lr : LineReader) (o : ParserOptions) :
    Post (parseWhile fuel p lr o) (fun r => r.2.remaining ≤ lr.remaining) := by
  unfold parseWhile
  dsimp only
  refine Post.bind (consumeString_remaining lr _) fun lr1 h1 => ?_
  refine Post.bind (consumeWhitespace_remaining fuel lr1 1 o) fun ⟨_, lr2⟩ h2 => ?_
  refine Post.bind (consumeString_remaining lr2 _) fun lr3 h3 => ?_
  refine Post.bind (parseNumber_remaining fuel lr3) fun ⟨x, lr4⟩ h4 => ?_
  refine Post.bind (consumeWhitespace_remaining fuel lr4 1 o) fun ⟨_, lr5⟩ h5 => ?_
  refine Post.bind (getChar_post lr5) fun ⟨c, lr6⟩ h6 => ?_
  refine Post.bind (parseWhileRelation_remaining _ lr6 o c) fun ⟨p1, lr7⟩ h7 => ?_
  refine Post.bind (consumeWhitespace_remaining fuel lr7 1 o) fun ⟨_, lr8⟩ h8 => ?_
  refine Post.bind (parseComparand_remaining fuel p1 lr8 _) fun ⟨p2, lr9⟩ h9 => ?_
  refine Post.bind (consumeWhitespace_remaining fuel lr9 1 o) fun ⟨_, lr10⟩ h10 => ?_
  refine Post.bind (consumeString_remaining lr10 _) fun lr11 h11 => ?_
  refine Post.bind (consumeWhitespace_remaining fuel lr11 1 o) fun ⟨_, lr12⟩ h12 => ?_
  exact Post.pure (by dsimp only at *; omega)

theorem parseIf_remaining (fuel : Nat) (p : Program) (lr : LineReader) (o : ParserOptions) :
    Post (parseIf fuel p lr o) (fun r => r.2.remaining ≤ lr.remaining) := by
  unfold parseIf
  dsimp only
  refine Post.bind (consumeString_remaining lr _) fun lr1 h1 => ?_
  refine Post.bind (consumeWhitespace_remaining fuel lr1 1 o) fun ⟨_, lr2⟩ h2 => ?_
  refine Post.bind (consumeString_remaining lr2 _) fun lr3 h3 => ?_
  refine Post.bind (parseNumber_remaining fuel lr3) fun ⟨x, lr4⟩ h4 => ?_
  refine Post.bind (consumeWhitespace_remaining fuel lr4 1 o) fun ⟨_, lr5⟩ h5 => ?_
  refine Post.bind (getChar_post lr5) fun ⟨c, lr6⟩ h6 => ?_
  refine Post.bind (parseIfRelation_remaining _ lr6 o c) fun ⟨p1, lr7⟩ h7 => ?_
  refine Post.bind (consumeWhitespace_remaining fuel lr7 1 o) fun ⟨_, lr8⟩ h8 => ?_
  refine Post.bind (parseComparand_remaining fuel p1 lr8 _) fun ⟨p2, lr9⟩ h9 => ?_
  refine Post.bind (consumeWhitespace_remaining fuel lr9 1 o) fun ⟨_, lr10⟩ h10 => ?_
  refine Post.bind (consumeString_remaining lr10 _) fun lr11 h11 => ?_
  refine Post.bind (consumeWhitespace_remaining fuel lr11 1 o) fun ⟨_, lr12⟩ h12 => ?_
  exact Post.pure (by dsimp only at *; omega)

/-- The reader of the state a pass of the loop hands on. -/
theorem parseInstruction_remaining (o : ParserOptions) (fuel : Nat) (state : ParserState) :
    Post (parseInstruction o fuel state) (fun r =>
      match r with
      | .goOn _ next => next.lineReader.remaining + 1 ≤ state.lineReader.remaining
      | .break next => next.lineReader.remaining + 1 ≤ state.lineReader.remaining) := by
  unfold parseInstruction
  refine Post.bind (consumeWhitespace_remaining fuel _ 0 o) fun ⟨_, lr1⟩ h1 => ?_
  refine Post.bind (getChar_post lr1) fun ⟨c, lr2⟩ h2 => ?_
  dsimp only at h1 h2 ⊢
  split
  · exact Post.parserError
  split
  · refine Post.bind (parseAssignment_remaining fuel _ lr2 o _) fun ⟨p, lr3, cnt, hi⟩ h3 => ?_
    exact Post.pure (by dsimp only at *; omega)
  split
  · refine Post.bind (parseLoop_remaining fuel _ lr2 o) fun ⟨p, lr3⟩ h3 => ?_
    exact Post.pure (by dsimp only [openBlock] at *; omega)
  split
  · refine Post.bind (parseWhile_remaining fuel _ lr2 o) fun ⟨p, lr3⟩ h3 => ?_
    exact Post.pure (by dsimp only [openBlock] at *; omega)
  split
  · refine Post.bind (parseIf_remaining fuel _ lr2 o) fun ⟨p, lr3⟩ h3 => ?_
    exact Post.pure (by dsimp only [openBlock] at *; omega)
  · exact Post.parserError

theorem parseEndOfInstruction_remaining (o : ParserOptions) (fuel : Nat)
    (state : ParserState) :
    Post (parseEndOfInstruction o fuel state) (fun r =>
      match r with
      | .goOn _ next => next.lineReader.remaining + 1 ≤ state.lineReader.remaining
      | .break next => next.lineReader.remaining + 1 ≤ state.lineReader.remaining) := by
  unfold parseEndOfInstruction
  refine Post.bind (getChar_post _) fun ⟨c, lr1⟩ h1 => ?_
  dsimp only at h1 ⊢
  split
  · exact Post.pure (by dsimp only [nextInstruction]; omega)
  split
  · split
    · exact Post.parserError
    · refine Post.bind (getChar_post lr1) fun ⟨c2, lr2⟩ h2 => ?_
      dsimp only at h2 ⊢
      split
      · refine Post.bind (consumeString_remaining lr2 _) fun lr3 h3 => ?_
        split
        · exact Post.parserError
        · refine Post.bind (consumeWhitespace_remaining fuel lr3 0 o) fun ⟨cnt, lr4⟩ h4 => ?_
          exact Post.pure (by dsimp only at *; omega)
      split
      · split
        · refine Post.bind (consumeString_remaining lr2 _) fun lr3 h3 => ?_
          split
          · exact Post.fail
          · split
            · exact Post.parserError
            · refine Post.bind (consumeWhitespace_remaining fuel lr3 1 o)
                fun ⟨cnt, lr4⟩ h4 => ?_
              exact Post.pure (by dsimp only [openElse] at *; omega)
        · exact Post.parserError
      · exact Post.parserError
  split
  · split
    · exact Post.parserError
    · exact Post.pure (by dsimp only; omega)
  · split
    · exact Post.parserError
    · exact Post.parserError

theorem parseStep_remaining (o : ParserOptions) (fuel : Nat) (label : Label)
    (state : ParserState) (label2 : Label) (state2 : ParserState)
    (h : parseStep o fuel label state = .ok (.goOn label2 state2)) :
    state2.lineReader.remaining + 1 ≤ state.lineReader.remaining := by
  cases label with
  | instruction => exact parseInstruction_remaining o fuel state _ h
  | end_of_instruction => exact parseEndOfInstruction_remaining o fuel state _ h

theorem parseReach_remaining (o : ParserOptions) (fuel : Nat) :
    ∀ (passes : Nat) (label : Label) (state : ParserState) (label2 : Label)
      (state2 : ParserState),
      parseReach o fuel passes label state = some (label2, state2) →
        state2.lineReader.remaining + passes ≤ state.lineReader.remaining := by
  intro passes
  induction passes with
  | zero =>
    intro label state label2 state2 h
    simp only [parseReach, Option.some.injEq, Prod.mk.injEq] at h
    rw [h.2]
    omega
  | succ n ih =>
    intro label state label2 state2 h
    rw [parseReach] at h
    cases hs : parseStep o fuel label state with
    | error e => simp [hs] at h
    | ok ctl =>
      cases ctl with
      | goOn l1 s1 =>
        rw [hs] at h
        have h1 := parseStep_remaining o fuel label state l1 s1 hs
        have h2 := ih l1 s1 label2 state2 h
        omega
      | «break» s1 => simp [hs] at h

theorem parseRun_of_reach (o : ParserOptions) (fuel : Nat) :
    ∀ (passes : Nat) (label : Label) (state : ParserState) (label2 : Label)
      (state2 : ParserState) (steps : Nat),
      parseReach o fuel passes label state = some (label2, state2) →
        parseRun o fuel (passes + steps) label state = parseRun o fuel steps label2 state2 := by
  intro passes
  induction passes with
  | zero =>
    intro label state label2 state2 steps h
    simp only [parseReach, Option.some.injEq, Prod.mk.injEq] at h
    rw [h.1, h.2, Nat.zero_add]
  | succ n ih =>
    intro label state label2 state2 steps h
    rw [parseReach] at h
    have hadd : n + 1 + steps = (n + steps) + 1 := by omega
    rw [hadd, parseRun]
    cases hs : parseStep o fuel label state with
    | error e => simp [hs] at h
    | ok ctl =>
      cases ctl with
      | goOn l1 s1 =>
        rw [hs] at h
        exact ih l1 s1 label2 state2 steps h
      | «break» s1 => simp [hs] at h


/-! ## Where `parse` leaves its loop -/

/-- The loop of `parse` is left by `break` only at `end_of_instruction`, when `getChar`
returned `EOF` and the stack was empty. -/
theorem break_only_at_end_of_input (o : ParserOptions) (fuel : Nat) (label : Label)
    (state final : ParserState) (h : parseStep o fuel label state = .ok (.break final)) :
    label = .end_of_instruction ∧ state.programStack = []
      ∧ ∃ lr, getChar state.lineReader = .ok (none, lr) := by
  cases label with
  | instruction =>
    exfalso
    simp only [parseStep, parseInstruction] at h
    obtain ⟨⟨_, lr1⟩, _, h⟩ := bind_ok_inv h
    obtain ⟨⟨c, lr2⟩, _, h⟩ := bind_ok_inv h
    dsimp only at h
    split at h
    · cases h
    split at h
    · obtain ⟨_, _, h⟩ := bind_ok_inv h
      cases h
    split at h
    · obtain ⟨_, _, h⟩ := bind_ok_inv h
      cases h
    split at h
    · obtain ⟨_, _, h⟩ := bind_ok_inv h
      cases h
    split at h
    · obtain ⟨_, _, h⟩ := bind_ok_inv h
      cases h
    · cases h
  | end_of_instruction =>
    refine ⟨rfl, ?_⟩
    simp only [parseStep, parseEndOfInstruction] at h
    obtain ⟨⟨c, lr1⟩, hget, h⟩ := bind_ok_inv h
    dsimp only at h
    split at h
    · cases h
    split at h
    · split at h
      · cases h
      · obtain ⟨⟨c2, lr2⟩, _, h⟩ := bind_ok_inv h
        dsimp only at h
        split at h
        · obtain ⟨lr3, _, h⟩ := bind_ok_inv h
          split at h
          · cases h
          · obtain ⟨_, _, h⟩ := bind_ok_inv h
            cases h
        split at h
        · split at h
          · obtain ⟨lr3, _, h⟩ := bind_ok_inv h
            split at h
            · cases h
            · split at h
              · cases h
              · obtain ⟨_, _, h⟩ := bind_ok_inv h
                cases h
          · cases h
        · cases h
    split at h
    · rename_i hnone
      subst hnone
      split at h
      · cases h
      · rename_i heq
        refine ⟨?_, lr1, hget⟩
        cases hs : state.programStack with
        | nil => rfl
        | cons a rest => rw [hs] at heq; simp [pop] at heq
    · split at h <;> cases h

/-- A failure of the pass the loop of `parse` has reached is the failure of `parse`: the
passes before it consumed input, so the loop has a pass left. -/
theorem parse_fails_of_reach (o : ParserOptions) (input : List Char) (passes : Nat)
    (label : Label) (state : ParserState) (e : Failure)
    (hreach : parseReach o (parseStart o input).lineReader.fuel passes .instruction
      (parseStart o input) = some (label, state))
    (hstep : parseStep o (parseStart o input).lineReader.fuel label state = .error e) :
    parse o input = .error e := by
  have hrem := parseReach_remaining _ _ _ _ _ _ _ hreach
  have hfuel : (parseStart o input).lineReader.fuel
      = passes + ((parseStart o input).lineReader.remaining - passes + 1) := by
    simp only [LineReader.fuel, LineReader.remaining] at hrem ⊢
    omega
  have hrun : ∀ steps, steps = passes + ((parseStart o input).lineReader.remaining - passes + 1) →
      parseRun o (parseStart o input).lineReader.fuel steps .instruction (parseStart o input)
        = .error e := by
    intro steps hsteps
    rw [hsteps, parseRun_of_reach _ _ _ _ _ _ _ _ hreach, parseRun, hstep]
  unfold parse
  rw [hrun _ hfuel]

/-- End of input at `end_of_instruction` while a block is open: "Unexpected end of file". -/
theorem end_of_input_with_open_block (o : ParserOptions) (input : List Char) (passes : Nat)
    (state : ParserState) (lr1 : LineReader)
    (hreach : parseReach o (parseStart o input).lineReader.fuel passes .instruction
      (parseStart o input) = some (.end_of_instruction, state))
    (hstack : state.programStack ≠ [])
    (hEOF : getChar state.lineReader = .ok (none, lr1)) :
    parse o input = .error (.parserError "Unexpected end of file" lr1) := by
  refine parse_fails_of_reach o input passes _ state _ hreach ?_
  simp only [parseStep, parseEndOfInstruction]
  rw [hEOF, ok_bind]
  dsimp only
  rw [if_neg (by decide), if_neg (by decide), if_pos rfl]
  cases hs : state.programStack with
  | nil => exact absurd hs hstack
  | cons a rest => rfl

/-- End of input where an instruction has to begin: "Unexpected end of file". -/
theorem end_of_input_before_instruction (o : ParserOptions) (input : List Char) (passes : Nat)
    (state : ParserState) (count : Nat) (lr1 lr2 : LineReader)
    (hreach : parseReach o (parseStart o input).lineReader.fuel passes .instruction
      (parseStart o input) = some (.instruction, state))
    (hblank : consumeWhitespace (parseStart o input).lineReader.fuel state.lineReader 0 o
      = .ok (count, lr1))
    (hEOF : getChar lr1 = .ok (none, lr2)) :
    parse o input = .error (.parserError "Unexpected end of file" lr2) := by
  refine parse_fails_of_reach o input passes _ state _ hreach ?_
  simp only [parseStep, parseInstruction]
  rw [hblank, ok_bind]
  dsimp only
  rw [hEOF, ok_bind]
  dsimp only
  rw [if_pos rfl]
  rfl

/-! ## The reader and the text of the file -/

theorem fgets_spec (n : Nat) : ∀ (input : List Char),
    (fgets n input).1 ++ (fgets n input).2 = input
      ∧ (fgets n input).1.length ≤ n
      ∧ (1 ≤ n → input ≠ [] → (fgets n input).1 ≠ [])
      ∧ (∀ c ∈ (fgets n input).1.dropLast, c ≠ Char.ofNat 10)
      ∧ ((fgets n input).1.getLast? ≠ some (Char.ofNat 10) → (fgets n input).2 ≠ [] →
          (fgets n input).1.length = n) := by
  induction n with
  | zero =>
    intro input
    simp [fgets]
  | succ n ih =>
    intro input
    cases input with
    | nil => simp [fgets]
    | cons c cs =>
      obtain ⟨h1, h2, h3, h4, h5⟩ := ih cs
      simp only [fgets]
      split
      · rename_i hc
        subst hc
        simp
      · rename_i hc
        refine ⟨by simp [h1], by simp; omega, by simp, ?_, ?_⟩
        · intro d hd
          cases ha : (fgets n cs).1 with
          | nil => simp [ha] at hd
          | cons a as =>
            rw [ha] at hd h4
            simp only [List.dropLast_cons₂, List.mem_cons] at hd
            rcases hd with rfl | hd
            · exact hc
            · exact h4 d hd
        · intro hl hb
          cases ha : (fgets n cs).1 with
          | nil =>
            rw [ha] at h1 h3
            simp only [List.nil_append] at h1
            have hn : n = 0 := by
              by_contra hne
              have := h3 (Nat.one_le_iff_ne_zero.mpr hne) (by rw [← h1]; exact hb)
              exact this rfl
            simp [hn]
          | cons a as =>
            rw [ha] at hl h5
            simp only [List.getLast?_cons_cons] at hl
            simp only [List.length_cons]
            have := h5 hl hb
            simp only [List.length_cons] at this
            omega

theorem strlen_chunk (chunk garbage : List Char) (h : ∀ c ∈ chunk, c ≠ NUL) :
    strlen (chunk ++ NUL :: garbage) = chunk.length := by
  unfold strlen
  induction chunk with
  | nil => simp [List.takeWhile]
  | cons c cs ih =>
    have hc : (c != NUL) = true := by simpa using h c (by simp)
    rw [List.cons_append, List.takeWhile_cons, hc]
    simp only [if_true, List.length_cons]
    rw [ih (fun d hd => h d (by simp [hd]))]

theorem getD_chunk (chunk garbage : List Char) (k : Nat) (hk : k < chunk.length) :
    (chunk ++ NUL :: garbage).getD k NUL = chunk.getD k NUL := by
  simp [List.getD_eq_getElem?_getD, List.getElem?_append_left hk]

theorem getD_chunk_end (chunk garbage : List Char) :
    (chunk ++ NUL :: garbage).getD chunk.length NUL = NUL := by
  rw [List.getD_eq_getElem?_getD, List.getElem?_append_right (Nat.le_refl _)]
  simp

theorem lineOf_append (before s : List Char) (h : ∀ c ∈ s, c ≠ Char.ofNat 10) :
    lineOf (before ++ s) = lineOf before := by
  unfold lineOf
  rw [List.count_append, List.count_eq_zero_of_not_mem (fun hm => h _ hm rfl)]

theorem columnOf_append (before s : List Char) (h : ∀ c ∈ s, c ≠ Char.ofNat 10) :
    columnOf (before ++ s) = columnOf before + s.length := by
  unfold columnOf
  rw [List.reverse_append, List.takeWhile_append_of_pos, List.length_append, List.length_reverse]
  · omega
  · intro c hc
    simpa using h c (List.mem_reverse.mp hc)

theorem lineOf_append_newline (before s : List Char) (h : ∀ c ∈ s, c ≠ Char.ofNat 10) :
    lineOf (before ++ (s ++ [Char.ofNat 10])) = lineOf before + 1 := by
  unfold lineOf
  rw [List.count_append, List.count_append,
    List.count_eq_zero_of_not_mem (fun hm => h _ hm rfl)]
  simp

theorem columnOf_append_newline (before s : List Char) :
    columnOf (before ++ (s ++ [Char.ofNat 10])) = 1 := by
  unfold columnOf
  simp [List.takeWhile]

theorem chunk_split (chunk : List Char) (h : chunk.getLast? = some (Char.ofNat 10)) :
    chunk = chunk.dropLast ++ [Char.ofNat 10] := by
  have := List.dropLast_append_getLast? (Char.ofNat 10) h
  exact this.symm

theorem chunk_no_newline (chunk : List Char) (hne : chunk ≠ [])
    (hone : ∀ c ∈ chunk.dropLast, c ≠ Char.ofNat 10)
    (hlast : chunk.getLast? ≠ some (Char.ofNat 10)) : ∀ c ∈ chunk, c ≠ Char.ofNat 10 := by
  intro c hc
  have hsplit := List.dropLast_append_getLast hne
  rw [← hsplit] at hc
  rcases List.mem_append.mp hc with h1 | h1
  · exact hone c h1
  · simp only [List.mem_singleton] at h1
    intro hcn
    apply hlast
    rw [List.getLast?_eq_getLast _ hne, ← h1, hcn]

/-- Inside the chunk `getChar` returns the character at `position` and moves on. -/
theorem getCharLoop_inside (fuel : Nat) (lr : LineReader) (before chunk : List Char)
    (h : lr.Holds before chunk) (hp : lr.position < chunk.length) :
    getCharLoop (fuel + 1) lr
        = .ok (some (chunk.getD lr.position NUL), { lr with position := lr.position + 1 })
      ∧ LineReader.Holds { lr with position := lr.position + 1 } before chunk := by
  obtain ⟨garbage, hbuf⟩ := h.buf
  have hmem : chunk.getD lr.position NUL ∈ chunk := by
    rw [List.getD_eq_getElem?_getD, List.getElem?_eq_getElem hp]
    exact List.getElem_mem _
  have hne : chunk.getD lr.position NUL ≠ NUL := h.noNul _ (List.mem_append_left _ (List.mem_append_right _ hmem))
  constructor
  · rw [getCharLoop]
    have hsz : ¬ lr.position ≥ lr.size := by have := h.fits; omega
    rw [if_neg hsz]
    dsimp only
    rw [hbuf, getD_chunk _ _ _ hp, if_pos hne]
  · exact { size := h.size, buf := h.buf, fits := h.fits, position := hp, noNul := h.noNul,
            oneLine := h.oneLine, endOfLine := h.endOfLine, full := h.full, start := h.start,
            line := h.line, segment := h.segment }

theorem getCharLoop_refill (fuel : Nat) (lr : LineReader) (hp : lr.position < lr.size)
    (hc : lr.buf.getD lr.position NUL = NUL) (hin : lr.input ≠ []) :
    getCharLoop (fuel + 1) lr = getCharLoop fuel (refill lr) := by
  rw [getCharLoop]
  rw [if_neg (by omega)]
  dsimp only
  rw [if_neg (fun hne => hne hc), if_neg hin]
  congr 1
  unfold refill
  cases hE : lr.endOfLine <;> simp only [hE, if_true, if_false, Bool.false_eq_true]
  · split <;> simp_all
  · split <;> simp_all

theorem getD_last (a : List Char) (ha : a ≠ []) :
    a.getD (a.length - 1) NUL = Char.ofNat 10 ↔ a.getLast? = some (Char.ofNat 10) := by
  have hlen : a.length - 1 < a.length := by
    have := List.length_pos.mpr ha
    omega
  rw [List.getD_eq_getElem?_getD, List.getElem?_eq_getElem hlen, List.getLast?_eq_getLast _ ha,
    List.getLast_eq_getElem]
  simp

theorem refill_holds (lr : LineReader) (before chunk : List Char) (h : lr.Holds before chunk)
    (hin : lr.input ≠ []) :
    (refill lr).Holds (before ++ chunk) (fgets (lr.size - 1) lr.input).1
      ∧ (fgets (lr.size - 1) lr.input).1 ++ (refill lr).input = lr.input
      ∧ (fgets (lr.size - 1) lr.input).1 ≠ [] := by
  obtain ⟨h1, h2, h3, h4, h5⟩ := fgets_spec (lr.size - 1) lr.input
  have hsize := h.size
  have hne : (fgets (lr.size - 1) lr.input).1 ≠ [] := h3 (by omega) hin
  generalize ha : (fgets (lr.size - 1) lr.input).1 = a at *
  generalize hb : (fgets (lr.size - 1) lr.input).2 = b at *
  have hanul : ∀ c ∈ a, c ≠ NUL := by
    intro c hc
    apply h.noNul
    rw [← h1]
    simp [hc]
  have hbuf : (refill lr).buf = a ++ NUL :: lr.buf.drop (a.length + 1) := by
    simp [refill, ha]
  have hinput : (refill lr).input = b := by simp [refill, hb]
  have hend : (refill lr).endOfLine = true ↔ a.getLast? = some (Char.ofNat 10) := by
    have hpos : 0 < a.length := List.length_pos.mpr hne
    have : (refill lr).endOfLine
        = decide (strlen (a ++ NUL :: lr.buf.drop (a.length + 1)) > 0
            ∧ (a ++ NUL :: lr.buf.drop (a.length + 1)).getD
                (strlen (a ++ NUL :: lr.buf.drop (a.length + 1)) - 1) NUL = Char.ofNat 10) := by
      simp [refill, ha]
    rw [this, strlen_chunk _ _ hanul, getD_chunk _ _ _ (by omega), decide_eq_true_iff,
      getD_last a hne]
    exact ⟨fun hh => hh.2, fun hh => ⟨hpos, hh⟩⟩
  refine ⟨?_, by rw [hinput]; exact h1, hne⟩
  refine { size := h.size, buf := ⟨_, hbuf⟩, fits := ?_, position := Nat.zero_le _,
           noNul := ?_, oneLine := h4, endOfLine := ?_, full := ?_, start := ?_, line := ?_,
           segment := ?_ }
  · show a.length + 1 ≤ lr.size
    omega
  · intro c hc
    apply h.noNul
    rw [hinput] at hc
    rw [← h1]
    simpa [List.append_assoc] using hc
  · rw [hend]
    simp [hne]
  · intro hfalse hbne
    rw [hinput] at hbne
    have hlast : a.getLast? ≠ some (Char.ofNat 10) := by
      intro hl
      rw [hend.mpr hl] at hfalse
      cases hfalse
    have := h5 hlast hbne
    show a.length + 1 = lr.size
    omega
  · intro hnil
    exact absurd hnil hne
  · intro _
    show (if lr.endOfLine = true then lr.line + 1 else lr.line) = lineOf (before ++ chunk)
    by_cases hE : lr.endOfLine = true
    · rw [if_pos hE]
      rcases h.endOfLine.mp hE with hnil | hlast
      · obtain ⟨hb0, hl0⟩ := h.start hnil
        rw [hnil, hb0, hl0]
        rfl
      · have hcne : chunk ≠ [] := by
          intro hnil
          rw [hnil] at hlast
          cases hlast
        rw [h.line hcne, chunk_split chunk hlast, lineOf_append_newline _ _ h.oneLine]
    · rw [if_neg hE]
      have hcne : chunk ≠ [] := fun hnil => hE (h.endOfLine.mpr (Or.inl hnil))
      have hlast : chunk.getLast? ≠ some (Char.ofNat 10) :=
        fun hl => hE (h.endOfLine.mpr (Or.inr hl))
      rw [h.line hcne, lineOf_append _ _ (chunk_no_newline chunk hcne h.oneLine hlast)]
  · intro _
    show (if lr.endOfLine = true then 0 else lr.segment + 1) * (lr.size - 1) + 1
      = columnOf (before ++ chunk)
    by_cases hE : lr.endOfLine = true
    · rw [if_pos hE]
      rcases h.endOfLine.mp hE with hnil | hlast
      · obtain ⟨hb0, hl0⟩ := h.start hnil
        rw [hnil, hb0, Nat.zero_mul]
        rfl
      · rw [chunk_split chunk hlast, columnOf_append_newline]
        omega
    · rw [if_neg hE]
      have hcne : chunk ≠ [] := fun hnil => hE (h.endOfLine.mpr (Or.inl hnil))
      have hlast : chunk.getLast? ≠ some (Char.ofNat 10) :=
        fun hl => hE (h.endOfLine.mpr (Or.inr hl))
      rw [columnOf_append _ _ (chunk_no_newline chunk hcne h.oneLine hlast), ← h.segment hcne]
      have hfull := h.full (by simpa using hE) hin
      have : chunk.length = lr.size - 1 := by omega
      rw [this, Nat.add_mul]
      omega

theorem at_drop {text : List Char} {n : Nat} {lr : LineReader} {before chunk : List Char}
    (h : lr.Holds before chunk) (ht : before ++ chunk ++ lr.input = text)
    (hn : before.length + lr.position = n) :
    text.drop n = chunk.drop lr.position ++ lr.input := by
  rw [← ht, ← hn, List.append_assoc, List.drop_append, List.drop_append_of_le_length h.position]

/-- With a character left in the file, `getChar` returns it and the reader has one character
more behind it. -/
theorem getChar_at (text : List Char) (n : Nat) (lr : LineReader) (c : Char) (rest : List Char)
    (h : lr.At text n) (hc : text.drop n = c :: rest) :
    ∃ lr1, getChar lr = .ok (some c, lr1) ∧ lr1.At text (n + 1) ∧ 1 ≤ lr1.position := by
  obtain ⟨before, chunk, hH, ht, hn⟩ := h
  rw [at_drop hH ht hn] at hc
  unfold getChar
  by_cases hp : lr.position < chunk.length
  · obtain ⟨h1, h2⟩ := getCharLoop_inside lr.input.length lr before chunk hH hp
    have hcc : chunk.getD lr.position NUL = c := by
      have : (chunk.drop lr.position ++ lr.input)[0]? = some c := by rw [hc]; simp
      rw [List.getElem?_append_left (by simp; omega), List.getElem?_drop] at this
      rw [List.getD_eq_getElem?_getD]
      simp only [Nat.add_zero] at this
      rw [this]
      rfl
    rw [hcc] at h1
    exact ⟨_, h1, ⟨before, chunk, h2, ht, by simp only; omega⟩, by simp⟩
  · have hpe : lr.position = chunk.length := by have := hH.position; omega
    rw [hpe, List.drop_length, List.nil_append] at hc
    obtain ⟨garbage, hbuf⟩ := hH.buf
    have hfits := hH.fits
    have hnul : lr.buf.getD lr.position NUL = NUL := by
      rw [hbuf, hpe]
      exact getD_chunk_end _ _
    have hin : lr.input ≠ [] := by rw [hc]; simp
    obtain ⟨hR, hsplit, hane⟩ := refill_holds lr before chunk hH hin
    have hlen : lr.input.length + 1 = rest.length + 1 + 1 := by rw [hc]; rfl
    rw [hlen, getCharLoop_refill _ lr (by omega) hnul hin]
    have hpos0 : (refill lr).position < (fgets (lr.size - 1) lr.input).1.length :=
      List.length_pos.mpr hane
    obtain ⟨h1, h2⟩ := getCharLoop_inside rest.length (refill lr) _ _ hR hpos0
    have hcc : (fgets (lr.size - 1) lr.input).1.getD (refill lr).position NUL = c := by
      have h0 : (refill lr).position = 0 := rfl
      rw [h0]
      cases ha : (fgets (lr.size - 1) lr.input).1 with
      | nil => exact absurd ha hane
      | cons a as =>
        rw [ha, hc] at hsplit
        simp only [List.cons_append, List.cons.injEq] at hsplit
        rw [← hsplit.1]
        rfl
    rw [hcc] at h1
    refine ⟨_, h1, ⟨before ++ chunk, _, h2, ?_, ?_⟩, by simp⟩
    · show before ++ chunk ++ (fgets (lr.size - 1) lr.input).1 ++ (refill lr).input = text
      rw [List.append_assoc (before ++ chunk), hsplit]
      exact ht
    · show (before ++ chunk).length + ((refill lr).position + 1) = n + 1
      have h0 : (refill lr).position = 0 := rfl
      rw [h0, List.length_append]
      omega

/-- At the end of the file `getChar` returns `EOF`; `position` has moved past the terminator. -/
theorem getChar_at_end (text : List Char) (n : Nat) (lr : LineReader)
    (h : lr.At text n) (hc : text.drop n = []) :
    getChar lr = .ok (none, { lr with position := lr.position + 1 }) := by
  obtain ⟨before, chunk, hH, ht, hn⟩ := h
  rw [at_drop hH ht hn] at hc
  obtain ⟨hd, hin⟩ := List.append_eq_nil.mp hc
  have hpe : lr.position = chunk.length := by
    have := hH.position
    have := List.drop_eq_nil_iff.mp hd
    omega
  obtain ⟨garbage, hbuf⟩ := hH.buf
  have hfits := hH.fits
  have hnul : lr.buf.getD lr.position NUL = NUL := by
    rw [hbuf, hpe]
    exact getD_chunk_end _ _
  unfold getChar
  have hlen : lr.input.length + 1 = 0 + 1 := by rw [hin]; rfl
  rw [hlen, getCharLoop, if_neg (by omega)]
  dsimp only
  rw [if_neg (fun hne => hne hnul), if_pos hin]

theorem unread_at (text : List Char) (n : Nat) (lr : LineReader)
    (h : lr.At text (n + 1)) (hp : 1 ≤ lr.position) : (unread lr).At text n := by
  obtain ⟨before, chunk, hH, ht, hn⟩ := h
  refine ⟨before, chunk, ?_, ht, ?_⟩
  · exact { size := hH.size, buf := hH.buf, fits := hH.fits,
            position := by have := hH.position; simp only [unread]; omega,
            noNul := hH.noNul, oneLine := hH.oneLine, endOfLine := hH.endOfLine,
            full := hH.full, start := hH.start, line := hH.line, segment := hH.segment }
  · simp only [unread]
    omega

theorem unread_at_end (text : List Char) (n : Nat) (lr : LineReader) (h : lr.At text n) :
    (unread { lr with position := lr.position + 1 }).At text n := by
  have : unread { lr with position := lr.position + 1 } = lr := by
    simp [unread]
  rw [this]
  exact h

/-- The line and the column of the reader right after `getChar` returned a character. -/
theorem at_line_column (text : List Char) (n : Nat) (lr : LineReader)
    (h : lr.At text (n + 1)) (hp : 1 ≤ lr.position) :
    lr.line = lineOf (text.take n) ∧ column lr = columnOf (text.take n) := by
  obtain ⟨before, chunk, hH, ht, hn⟩ := h
  have hpos := hH.position
  have hcne : chunk ≠ [] := by
    intro hnil
    rw [hnil] at hpos
    simp at hpos
    omega
  have htake : text.take n = before ++ chunk.take (lr.position - 1) := by
    rw [← ht, List.append_assoc, List.take_append_eq_append_take, List.take_append_eq_append_take]
    have h1 : n - before.length = lr.position - 1 := by omega
    have h2 : lr.position - 1 - chunk.length = 0 := by omega
    rw [List.take_of_length_le (by omega), h1, h2]
    simp
  have hno : ∀ c ∈ chunk.take (lr.position - 1), c ≠ Char.ofNat 10 := by
    intro c hc
    apply hH.oneLine
    rw [List.dropLast_eq_take]
    exact List.mem_of_mem_take (l := List.take (chunk.length - 1) chunk) (by
      rw [List.take_take]
      have : min (lr.position - 1) (chunk.length - 1) = lr.position - 1 := by omega
      rw [this]
      exact hc)
  rw [htake, lineOf_append _ _ hno, columnOf_append _ _ hno, ← hH.line hcne]
  refine ⟨rfl, ?_⟩
  unfold column
  rw [← hH.segment hcne, List.length_take]
  omega

theorem newLineReader_at (name : String) (input : List Char) (size : Nat) (hsize : 2 ≤ size)
    (hnul : ∀ c ∈ input, c ≠ NUL) : (newLineReader name input size).At input 0 := by
  refine ⟨[], [], ?_, rfl, rfl⟩
  refine { size := hsize, buf := ?_, fits := ?_, position := Nat.le_refl _, noNul := ?_,
           oneLine := ?_, endOfLine := ?_, full := ?_, start := ?_, line := ?_, segment := ?_ }
  · refine ⟨List.replicate (size - 1) NUL, ?_⟩
    show List.replicate size NUL = [] ++ NUL :: List.replicate (size - 1) NUL
    have : size = (size - 1) + 1 := by omega
    conv_lhs => rw [this]
    rfl
  · show 0 + 1 ≤ size
    omega
  · intro c hc
    exact hnul c (by simpa using hc)
  · intro c hc
    simp at hc
  · simp [newLineReader]
  · intro hfalse
    simp [newLineReader] at hfalse
  · intro _
    exact ⟨rfl, rfl⟩
  · intro hne
    exact absurd rfl hne
  · intro hne
    exact absurd rfl hne

/-! ## The token functions on the text that is left -/

theorem getChar_pending_cons (lr : LineReader) (c : Char) (rest : List Char)
    (h : lr.Pending (c :: rest)) :
    ∃ lr1, getChar lr = .ok (some c, lr1) ∧ lr1.Pending rest
      ∧ (unread lr1).Pending (c :: rest) := by
  obtain ⟨text, n, hat, hd⟩ := h
  obtain ⟨lr1, h1, h2, h3⟩ := getChar_at text n lr c rest hat hd
  refine ⟨lr1, h1, ⟨text, n + 1, h2, ?_⟩, ⟨text, n, unread_at text n lr1 h2 h3, hd⟩⟩
  rw [← List.drop_drop, hd]
  rfl

theorem getChar_pending_nil (lr : LineReader) (h : lr.Pending []) :
    ∃ lr1, getChar lr = .ok (none, lr1) ∧ (unread lr1).Pending [] := by
  obtain ⟨text, n, hat, hd⟩ := h
  exact ⟨_, getChar_at_end text n lr hat hd, ⟨text, n, unread_at_end text n lr hat, hd⟩⟩

theorem consumeStringLoop_pending (s : List Char) : ∀ (lr : LineReader) (rest : List Char),
    lr.Pending (s ++ rest) → ∃ lr1, consumeStringLoop s lr = .ok lr1 ∧ lr1.Pending rest := by
  induction s with
  | nil =>
    intro lr rest h
    exact ⟨lr, rfl, h⟩
  | cons c s ih =>
    intro lr rest h
    obtain ⟨lr1, h1, h2, _⟩ := getChar_pending_cons lr c (s ++ rest) h
    obtain ⟨lr2, h3, h4⟩ := ih lr1 rest h2
    refine ⟨lr2, ?_, h4⟩
    rw [consumeStringLoop, h1]
    dsimp only
    rw [if_neg (by simp)]
    exact h3

theorem consumeStringLoop_mismatch (d : Char) (s : List Char) (lr : LineReader)
    (pending : List Char) (h : lr.Pending pending) (hd : pending.head? ≠ some d) :
    ∃ e, consumeStringLoop (d :: s) lr = .error e := by
  cases pending with
  | nil =>
    obtain ⟨lr1, h1, _⟩ := getChar_pending_nil lr h
    rw [consumeStringLoop, h1]
    dsimp only
    rw [if_pos (by simp), if_pos rfl]
    exact ⟨_, rfl⟩
  | cons c rest =>
    obtain ⟨lr1, h1, _⟩ := getChar_pending_cons lr c rest h
    rw [consumeStringLoop, h1]
    dsimp only
    have hcd : some c ≠ some d := by simpa using hd
    rw [if_pos hcd, if_neg (by simp)]
    exact ⟨_, rfl⟩

theorem consumeWhitespaceLoop_pending (ws : List Char) : ∀ (lr : LineReader) (rest : List Char)
    (fuel count : Nat), (∀ c ∈ ws, isWhitespace (some c) = true) →
      isWhitespace rest.head? = false → lr.Pending (ws ++ rest) → ws.length < fuel →
      ∃ lr1, consumeWhitespaceLoop fuel lr count = .ok (rest.head?, count + ws.length, lr1)
        ∧ (unread lr1).Pending rest := by
  induction ws with
  | nil =>
    intro lr rest fuel count _ hrest h hfuel
    obtain ⟨fuel, rfl⟩ : ∃ k, fuel = k + 1 := ⟨fuel - 1, by simp at hfuel; omega⟩
    cases rest with
    | nil =>
      obtain ⟨lr1, h1, h2⟩ := getChar_pending_nil lr h
      refine ⟨lr1, ?_, h2⟩
      rw [consumeWhitespaceLoop, h1]
      rfl
    | cons c rest =>
      obtain ⟨lr1, h1, _, h2⟩ := getChar_pending_cons lr c rest h
      refine ⟨lr1, ?_, h2⟩
      rw [consumeWhitespaceLoop, h1]
      dsimp only
      simp only [List.head?_cons] at hrest
      rw [hrest]
      rfl
  | cons w ws ih =>
    intro lr rest fuel count hws hrest h hfuel
    obtain ⟨fuel, rfl⟩ : ∃ k, fuel = k + 1 := ⟨fuel - 1, by simp at hfuel; omega⟩
    obtain ⟨lr1, h1, h2, _⟩ := getChar_pending_cons lr w (ws ++ rest) h
    obtain ⟨lr2, h3, h4⟩ := ih lr1 rest fuel (count + 1)
      (fun c hc => hws c (List.mem_cons_of_mem _ hc)) hrest h2
      (by simp only [List.length_cons] at hfuel; omega)
    refine ⟨lr2, ?_, h4⟩
    rw [consumeWhitespaceLoop, h1]
    dsimp only
    rw [hws w (List.mem_cons_self _ _), if_pos rfl, h3]
    simp only [List.length_cons]
    congr 3
    omega

theorem consumeWhitespace_pending (ws rest : List Char) (lr : LineReader) (fuel minimum : Nat)
    (o : ParserOptions) (hws : ∀ c ∈ ws, isWhitespace (some c) = true)
    (hrest : isWhitespace rest.head? = false) (h : lr.Pending (ws ++ rest))
    (hfuel : ws.length < fuel) (hmin : ¬ (ws.length < minimum ∧ o.noWhitespace = false)) :
    ∃ lr1, consumeWhitespace fuel lr minimum o = .ok (ws.length, lr1) ∧ lr1.Pending rest := by
  obtain ⟨lr1, h1, h2⟩ := consumeWhitespaceLoop_pending ws lr rest fuel 0 hws hrest h hfuel
  refine ⟨unread lr1, ?_, h2⟩
  unfold consumeWhitespace
  rw [h1]
  dsimp only
  rw [Nat.zero_add, if_neg hmin]

theorem consumeWhitespace_missing (ws rest : List Char) (lr : LineReader) (fuel minimum : Nat)
    (o : ParserOptions) (hws : ∀ c ∈ ws, isWhitespace (some c) = true)
    (hrest : isWhitespace rest.head? = false) (h : lr.Pending (ws ++ rest))
    (hfuel : ws.length < fuel) (hmin : ws.length < minimum ∧ o.noWhitespace = false) :
    ∃ e, consumeWhitespace fuel lr minimum o = .error e := by
  obtain ⟨lr1, h1, h2⟩ := consumeWhitespaceLoop_pending ws lr rest fuel 0 hws hrest h hfuel
  unfold consumeWhitespace
  rw [h1]
  dsimp only
  rw [Nat.zero_add, if_pos hmin]
  split <;> exact ⟨_, rfl⟩

theorem parseNumberLoop_pending (ds : List Char) : ∀ (lr : LineReader) (rest : List Char)
    (fuel count : Nat) (x : Int), (∀ c ∈ ds, isDigit (some c) = true) →
      isDigit rest.head? = false → lr.Pending (ds ++ rest) → ds.length < fuel →
      ∃ lr1, parseNumberLoop fuel lr count x
          = .ok (rest.head?, count + ds.length, digitsValue ds x, lr1)
        ∧ (unread lr1).Pending rest := by
  induction ds with
  | nil =>
    intro lr rest fuel count x _ hrest h hfuel
    obtain ⟨fuel, rfl⟩ : ∃ k, fuel = k + 1 := ⟨fuel - 1, by simp at hfuel; omega⟩
    cases rest with
    | nil =>
      obtain ⟨lr1, h1, h2⟩ := getChar_pending_nil lr h
      refine ⟨lr1, ?_, h2⟩
      rw [parseNumberLoop, h1]
      rfl
    | cons c rest =>
      obtain ⟨lr1, h1, _, h2⟩ := getChar_pending_cons lr c rest h
      refine ⟨lr1, ?_, h2⟩
      rw [parseNumberLoop, h1]
      dsimp only
      simp only [List.head?_cons] at hrest
      rw [hrest]
      rfl
  | cons d ds ih =>
    intro lr rest fuel count x hds hrest h hfuel
    obtain ⟨fuel, rfl⟩ : ∃ k, fuel = k + 1 := ⟨fuel - 1, by simp at hfuel; omega⟩
    obtain ⟨lr1, h1, h2, _⟩ := getChar_pending_cons lr d (ds ++ rest) h
    obtain ⟨lr2, h3, h4⟩ := ih lr1 rest fuel (count + 1)
      (wrapInt (wrapInt (x * 10) + ((d.toNat : Int) - 48)))
      (fun c hc => hds c (List.mem_cons_of_mem _ hc)) hrest h2
      (by simp only [List.length_cons] at hfuel; omega)
    refine ⟨lr2, ?_, h4⟩
    rw [parseNumberLoop, h1]
    dsimp only
    rw [hds d (List.mem_cons_self _ _), if_pos rfl]
    simp only [Option.getD_some]
    rw [h3]
    simp only [List.length_cons, digitsValue]
    congr 3
    omega

theorem parseNumber_pending (ds rest : List Char) (lr : LineReader) (fuel : Nat)
    (hds : ∀ c ∈ ds, isDigit (some c) = true) (hne : ds ≠ [])
    (hrest : isDigit rest.head? = false) (h : lr.Pending (ds ++ rest))
    (hfuel : ds.length < fuel) :
    ∃ lr1, parseNumber fuel lr = .ok (digitsValue ds 0, lr1) ∧ lr1.Pending rest := by
  obtain ⟨lr1, h1, h2⟩ := parseNumberLoop_pending ds lr rest fuel 0 0 hds hrest h hfuel
  refine ⟨unread lr1, ?_, h2⟩
  unfold parseNumber
  rw [h1]
  dsimp only
  have hlen : ¬ (0 + ds.length < 1) := by
    have := List.length_pos.mpr hne
    omega
  rw [if_neg hlen]

theorem parseNumber_no_digit (rest : List Char) (lr : LineReader) (fuel : Nat)
    (hrest : isDigit rest.head? = false) (h : lr.Pending rest) (hfuel : 0 < fuel) :
    ∃ e, parseNumber fuel lr = .error e := by
  obtain ⟨lr1, h1, h2⟩ := parseNumberLoop_pending [] lr rest fuel 0 0 (by simp) hrest h hfuel
  unfold parseNumber
  rw [h1]
  dsimp only
  rw [if_pos (by simp)]
  split <;> exact ⟨_, rfl⟩

theorem at_le {text : List Char} {n : Nat} {lr : LineReader} (h : lr.At text n) :
    n ≤ text.length := by
  obtain ⟨before, chunk, hH, ht, hn⟩ := h
  have := hH.position
  rw [← ht, ← hn]
  simp only [List.length_append]
  omega

theorem getChars_at (text : List Char) : ∀ (putBack : List Bool) (lr : LineReader) (k : Nat),
    lr.At text k → k + putBack.count false ≤ text.length →
      ∃ lr0, getChars putBack lr = .ok lr0 ∧ lr0.At text (k + putBack.count false) := by
  intro putBack
  induction putBack with
  | nil =>
    intro lr k h _
    exact ⟨lr, rfl, h⟩
  | cons back putBack ih =>
    intro lr k h hlen
    cases hd : text.drop k with
    | nil =>
      have hk : text.length ≤ k := List.drop_eq_nil_iff.mp hd
      have hcount : (back :: putBack).count false = 0 := by omega
      have hback : back = true := by
        cases back with
        | true => rfl
        | false => simp at hcount
      subst hback
      have hcount2 : putBack.count false = 0 := by simpa using hcount
      obtain ⟨lr0, h1, h2⟩ := ih (unread { lr with position := lr.position + 1 }) k
        (unread_at_end text k lr h) (by omega)
      refine ⟨lr0, ?_, ?_⟩
      · rw [getChars, getChar_at_end text k lr h hd]
        exact h1
      · rw [hcount, ← hcount2]
        exact h2
    | cons c rest =>
      obtain ⟨lr1, h1, h2, h3⟩ := getChar_at text k lr c rest h hd
      cases back with
      | true =>
        have hcount : (true :: putBack).count false = putBack.count false := by simp
        rw [hcount] at hlen ⊢
        obtain ⟨lr0, h4, h5⟩ := ih (unread lr1) k (unread_at text k lr1 h2 h3) hlen
        refine ⟨lr0, ?_, h5⟩
        rw [getChars, h1]
        exact h4
      | false =>
        have hcount : (false :: putBack).count false = putBack.count false + 1 := by simp
        rw [hcount] at hlen ⊢
        obtain ⟨lr0, h4, h5⟩ := ih lr1 (k + 1) h2 (by omega)
        refine ⟨lr0, ?_, ?_⟩
        · rw [getChars, h1]
          exact h4
        · have : k + (putBack.count false + 1) = k + 1 + putBack.count false := by omega
          rw [this]
          exact h5

/-- What is left of the file after calls of `getChar`, some followed by
`lineReader->position--`, on a fresh reader. -/
theorem getChars_pending (name : String) (input : List Char) (size : Nat) (hsize : 2 ≤ size)
    (hnul : ∀ c ∈ input, c ≠ NUL) (putBack : List Bool) (lr : LineReader)
    (hlen : putBack.count false ≤ input.length)
    (h : getChars putBack (newLineReader name input size) = .ok lr) :
    lr.Pending (input.drop (putBack.count false)) := by
  obtain ⟨lr0, h1, h2⟩ := getChars_at input putBack _ 0
    (newLineReader_at name input size hsize hnul) (by omega)
  rw [h1] at h
  cases h
  rw [Nat.zero_add] at h2
  exact ⟨input, _, h2, rfl⟩

theorem decimalValue_le (ds : List Char) : ∀ (x : Nat), x ≤ decimalValue ds x := by
  induction ds with
  | nil => intro x; exact Nat.le_refl _
  | cons c ds ih =>
    intro x
    have := ih (x * 10 + (c.toNat - 48))
    simp only [decimalValue]
    omega

theorem isDigit_toNat (c : Char) (h : isDigit (some c) = true) : 48 ≤ c.toNat ∧ c.toNat ≤ 57 := by
  simp only [isDigit, Bool.and_eq_true, decide_eq_true_eq] at h
  obtain ⟨h1, h2⟩ := h
  have h1' : ('0' : Char).toNat ≤ c.toNat := h1
  have h2' : c.toNat ≤ ('9' : Char).toNat := h2
  exact ⟨h1', h2'⟩

theorem wrapInt_small (v : Int) (h0 : 0 ≤ v) (h : v < 2147483648) : wrapInt v = v := by
  unfold wrapInt
  omega

/-- Below `2^31` the `int` of `parseNumber` is the number the digits denote. -/
theorem digitsValue_small (ds : List Char) : ∀ (x : Nat),
    (∀ c ∈ ds, isDigit (some c) = true) → decimalValue ds x < 2147483648 →
      digitsValue ds (x : Int) = (decimalValue ds x : Int) := by
  induction ds with
  | nil => intro x _ _; rfl
  | cons c ds ih =>
    intro x hds hlt
    rw [decimalValue] at hlt ⊢
    rw [digitsValue]
    obtain ⟨hc1, hc2⟩ := isDigit_toNat c (hds c (List.mem_cons_self _ _))
    have hle := decimalValue_le ds (x * 10 + (c.toNat - 48))
    have h1 : wrapInt ((x : Int) * 10) = (x : Int) * 10 := wrapInt_small _ (by omega) (by omega)
    have h2 : wrapInt ((x : Int) * 10 + ((c.toNat : Int) - 48))
        = ((x * 10 + (c.toNat - 48) : Nat) : Int) := by
      rw [wrapInt_small _ (by omega) (by omega)]
      omega
    rw [h1, h2]
    exact ih _ (fun d hd => hds d (List.mem_cons_of_mem _ hd)) hlt

/-! ## The header of `WHILE` -/

theorem parseOrEqual_pending_equal (P : Program) (lr : LineReader) (strict orEqual : Operation)
    (more : List Char) (h : lr.Pending ('=' :: more)) :
    ∃ lr1, parseOrEqual P lr strict orEqual = .ok ({ P with operation := orEqual }, lr1)
      ∧ lr1.Pending more := by
  obtain ⟨lr1, h1, h2, _⟩ := getChar_pending_cons lr '=' more h
  refine ⟨lr1, ?_, h2⟩
  unfold parseOrEqual
  rw [h1, ok_bind]
  dsimp only
  rw [if_pos rfl]
  rfl

theorem parseOrEqual_pending_other (P : Program) (lr : LineReader) (strict orEqual : Operation)
    (c : Char) (more : List Char) (hc : c ≠ '=') (h : lr.Pending (c :: more)) :
    ∃ lr1, parseOrEqual P lr strict orEqual = .ok ({ P with operation := strict }, lr1)
      ∧ lr1.Pending (c :: more) := by
  obtain ⟨lr1, h1, _, h2⟩ := getChar_pending_cons lr c more h
  refine ⟨unread lr1, ?_, h2⟩
  unfold parseOrEqual
  rw [h1, ok_bind]
  dsimp only
  rw [if_neg (by simpa using hc)]
  rfl

/-- The relation of a `WHILE` header, its first character already read: under
`extensionWhileExtended` each of the six is taken, without it only `!=`. -/
theorem parseWhileRelation_pending (P : Program) (lr : LineReader) (o : ParserOptions)
    (op : Operation) (hop : op.isRelation = true) (more : List Char)
    (h : lr.Pending ((relationToken op).tail ++ ' ' :: more)) :
    ((o.extensionWhileExtended = true ∨ op = .notEqual) →
        ∃ lr1, parseWhileRelation P lr o (relationToken op).head?
            = .ok ({ P with operation := op }, lr1) ∧ lr1.Pending (' ' :: more))
      ∧ (o.extensionWhileExtended = false → op ≠ .notEqual →
          ∃ e, parseWhileRelation P lr o (relationToken op).head? = .error e) := by
  cases op <;> simp only [Operation.isRelation, Bool.false_eq_true] at hop
  · -- equal
    refine ⟨fun hext => ?_, fun hext _ => ?_⟩
    · rcases hext with hext | hext
      · refine ⟨lr, ?_, h⟩
        simp only [parseWhileRelation, relationToken, List.head?_cons, hext]
        rfl
      · cases hext
    · simp only [parseWhileRelation, relationToken, List.head?_cons, hext]
      exact ⟨_, rfl⟩
  · -- notEqual
    refine ⟨fun _ => ?_, fun _ hne => absurd rfl hne⟩
    obtain ⟨lr1, h1, h2⟩ := consumeStringLoop_pending ['='] lr (' ' :: more) h
    refine ⟨lr1, ?_, h2⟩
    simp only [parseWhileRelation, relationToken, List.head?_cons, if_true]
    have : consumeString lr "=" = .ok lr1 := h1
    rw [this]
    rfl
  · -- greater
    refine ⟨fun hext => ?_, fun hext _ => ?_⟩
    · rcases hext with hext | hext
      · obtain ⟨lr1, h1, h2⟩ := parseOrEqual_pending_other P lr .greater .greaterEqual ' ' more
          (by decide) h
        refine ⟨lr1, ?_, h2⟩
        simp only [parseWhileRelation, relationToken, List.head?_cons, hext]
        exact h1
      · cases hext
    · simp only [parseWhileRelation, relationToken, List.head?_cons, hext]
      exact ⟨_, rfl⟩
  · -- greaterEqual
    refine ⟨fun hext => ?_, fun hext _ => ?_⟩
    · rcases hext with hext | hext
      · obtain ⟨lr1, h1, h2⟩ := parseOrEqual_pending_equal P lr .greater .greaterEqual
          (' ' :: more) h
        refine ⟨lr1, ?_, h2⟩
        simp only [parseWhileRelation, relationToken, List.head?_cons, hext]
        exact h1
      · cases hext
    · simp only [parseWhileRelation, relationToken, List.head?_cons, hext]
      exact ⟨_, rfl⟩
  · -- less
    refine ⟨fun hext => ?_, fun hext _ => ?_⟩
    · rcases hext with hext | hext
      · obtain ⟨lr1, h1, h2⟩ := parseOrEqual_pending_other P lr .less .lessEqual ' ' more
          (by decide) h
        refine ⟨lr1, ?_, h2⟩
        simp only [parseWhileRelation, relationToken, List.head?_cons, hext]
        exact h1
      · cases hext
    · simp only [parseWhileRelation, relationToken, List.head?_cons, hext]
      exact ⟨_, rfl⟩
  · -- lessEqual
    refine ⟨fun hext => ?_, fun hext _ => ?_⟩
    · rcases hext with hext | hext
      · obtain ⟨lr1, h1, h2⟩ := parseOrEqual_pending_equal P lr .less .lessEqual
          (' ' :: more) h
        refine ⟨lr1, ?_, h2⟩
        simp only [parseWhileRelation, relationToken, List.head?_cons, hext]
        exact h1
      · cases hext
    · simp only [parseWhileRelation, relationToken, List.head?_cons, hext]
      exact ⟨_, rfl⟩

theorem isDigit_ne_x (c : Char) (h : isDigit (some c) = true) : c ≠ 'x' := by
  intro hx
  rw [hx] at h
  exact absurd h (by decide)

/-- The operand of a relation under the extended flag: `x<k>` or `<k>`. -/
theorem parseOperand_pending (fuel : Nat) (P : Program) (lr : LineReader) (isVariable : Bool)
    (k tail : List Char) (hk : ∀ c ∈ k, isDigit (some c) = true) (hne : k ≠ [])
    (htail : isDigit tail.head? = false) (h : lr.Pending (operandToken isVariable k ++ tail))
    (hfuel : k.length < fuel) :
    ∃ lr1, parseOperand fuel P lr
        = .ok ({ P with treatCAsVariable := isVariable || P.treatCAsVariable,
                        c := toUInt64 (digitsValue k 0) }, lr1)
      ∧ lr1.Pending tail := by
  cases isVariable with
  | true =>
    simp only [operandToken, if_true, List.cons_append] at h
    obtain ⟨lr1, h1, h2, _⟩ := getChar_pending_cons lr 'x' (k ++ tail) h
    obtain ⟨lr2, h3, h4⟩ := parseNumber_pending k tail lr1 fuel hk hne htail h2 hfuel
    refine ⟨lr2, ?_, h4⟩
    unfold parseOperand
    rw [h1, ok_bind]
    dsimp only
    rw [if_pos rfl]
    dsimp only
    rw [h3, ok_bind]
    rfl
  | false =>
    simp only [operandToken, Bool.false_eq_true, if_false] at h
    obtain ⟨d, ks, rfl⟩ : ∃ d ks, k = d :: ks := by
      cases k with
      | nil => exact absurd rfl hne
      | cons d ks => exact ⟨d, ks, rfl⟩
    have hd : d ≠ 'x' := isDigit_ne_x d (hk d (List.mem_cons_self _ _))
    obtain ⟨lr1, h1, _, h2⟩ := getChar_pending_cons lr d (ks ++ tail) h
    obtain ⟨lr2, h3, h4⟩ := parseNumber_pending (d :: ks) tail (unread lr1) fuel hk hne htail h2
      hfuel
    refine ⟨lr2, ?_, h4⟩
    unfold parseOperand
    rw [h1, ok_bind]
    dsimp only
    rw [if_neg (by simpa using hd)]
    dsimp only
    rw [h3, ok_bind]
    cases P
    rfl

theorem relationToken_cons (op : Operation) (hop : op.isRelation = true) :
    ∃ c t, relationToken op = c :: t ∧ isWhitespace (some c) = false := by
  cases op <;> simp only [Operation.isRelation, Bool.false_eq_true] at hop
  · exact ⟨'=', [], rfl, by decide⟩
  · exact ⟨'!', ['='], rfl, by decide⟩
  · exact ⟨'>', [], rfl, by decide⟩
  · exact ⟨'>', ['='], rfl, by decide⟩
  · exact ⟨'<', [], rfl, by decide⟩
  · exact ⟨'<', ['='], rfl, by decide⟩

theorem isWhitespace_of_isDigit (c : Option Char) (h : isDigit c = true) :
    isWhitespace c = false := by
  cases hw : isWhitespace c with
  | false => rfl
  | true =>
    rw [isDigit_of_isWhitespace c hw] at h
    cases h

theorem operandToken_head (isVariable : Bool) (k : List Char)
    (hk : ∀ c ∈ k, isDigit (some c) = true) (hne : k ≠ []) (tail : List Char) :
    isWhitespace (operandToken isVariable k ++ tail).head? = false := by
  cases isVariable with
  | true =>
    simp only [operandToken, if_true, List.cons_append, List.head?_cons]
    decide
  | false =>
    cases k with
    | nil => exact absurd rfl hne
    | cons d ks =>
      simp only [operandToken, Bool.false_eq_true, if_false, List.cons_append, List.head?_cons]
      exact isWhitespace_of_isDigit _ (hk d (List.mem_cons_self _ _))

theorem blank_pending (lr : LineReader) (fuel : Nat) (o : ParserOptions) (rest : List Char)
    (hrest : isWhitespace rest.head? = false) (h : lr.Pending (' ' :: rest)) (hfuel : 2 ≤ fuel) :
    ∃ lr1, consumeWhitespace fuel lr 1 o = .ok (1, lr1) ∧ lr1.Pending rest :=
  consumeWhitespace_pending [' '] rest lr fuel 1 o
    (by intro c hc; simp only [List.mem_singleton] at hc; subst hc; decide) hrest h
    (by simp only [List.length_singleton]; omega) (by simp)

/-- The steps of `parseWhile` up to the relation. -/
theorem parseWhile_pending_start (fuel : Nat) (lr : LineReader) (o : ParserOptions)
    (i : List Char) (c : Char) (more : List Char)
    (hi : ∀ d ∈ i, isDigit (some d) = true) (hine : i ≠ [])
    (hc : isWhitespace (some c) = false) (hfuel : i.length + 2 ≤ fuel)
    (h : lr.Pending ('H' :: 'I' :: 'L' :: 'E' :: ' ' :: 'x' :: (i ++ ' ' :: c :: more))) :
    ∃ lr1 lr2 lr3 lr4 lr5 lr6, consumeString lr "HILE" = .ok lr1
      ∧ consumeWhitespace fuel lr1 1 o = .ok (1, lr2)
      ∧ consumeString lr2 "x" = .ok lr3
      ∧ parseNumber fuel lr3 = .ok (digitsValue i 0, lr4)
      ∧ consumeWhitespace fuel lr4 1 o = .ok (1, lr5)
      ∧ getChar lr5 = .ok (some c, lr6)
      ∧ lr6.Pending more := by
  obtain ⟨lr1, h1, p1⟩ := consumeStringLoop_pending ['H', 'I', 'L', 'E'] lr
    (' ' :: 'x' :: (i ++ ' ' :: c :: more)) h
  obtain ⟨lr2, h2, p2⟩ := blank_pending lr1 fuel o ('x' :: (i ++ ' ' :: c :: more))
    (by show isWhitespace (some 'x') = false; decide) p1 (by omega)
  obtain ⟨lr3, h3, p3⟩ := consumeStringLoop_pending ['x'] lr2 (i ++ ' ' :: c :: more) p2
  obtain ⟨lr4, h4, p4⟩ := parseNumber_pending i (' ' :: c :: more) lr3 fuel hi hine
    (by show isDigit (some ' ') = false; decide) p3 (by omega)
  obtain ⟨lr5, h5, p5⟩ := blank_pending lr4 fuel o (c :: more) hc p4 (by omega)
  obtain ⟨lr6, h6, p6, _⟩ := getChar_pending_cons lr5 c more p5
  exact ⟨lr1, lr2, lr3, lr4, lr5, lr6, h1, h2, h3, h4, h5, h6, p6⟩

/-- The steps of `parseWhile` after the operand. -/
theorem parseWhile_pending_end (fuel : Nat) (lr : LineReader) (o : ParserOptions)
    (rest : List Char) (hrest : isWhitespace rest.head? = false) (hfuel : 2 ≤ fuel)
    (h : lr.Pending (' ' :: 'D' :: 'O' :: ' ' :: rest)) :
    ∃ lr1 lr2 lr3, consumeWhitespace fuel lr 1 o = .ok (1, lr1)
      ∧ consumeString lr1 "DO" = .ok lr2
      ∧ consumeWhitespace fuel lr2 1 o = .ok (1, lr3)
      ∧ lr3.Pending rest := by
  obtain ⟨lr1, h1, p1⟩ := blank_pending lr fuel o ('D' :: 'O' :: ' ' :: rest)
    (by show isWhitespace (some 'D') = false; decide) h hfuel
  obtain ⟨lr2, h2, p2⟩ := consumeStringLoop_pending ['D', 'O'] lr1 (' ' :: rest) p1
  obtain ⟨lr3, h3, p3⟩ := blank_pending lr2 fuel o rest hrest p2 hfuel
  exact ⟨lr1, lr2, lr3, h1, h2, h3, p3⟩

/-- A `WHILE` header that `parseWhile` accepts, and the node it leaves. -/
theorem parseWhile_accepts (fuel : Nat) (P : Program) (lr : LineReader) (o : ParserOptions)
    (i : List Char) (op : Operation) (isVariable : Bool) (k rest : List Char)
    (hi : ∀ d ∈ i, isDigit (some d) = true) (hine : i ≠ []) (hop : op.isRelation = true)
    (hk : ∀ d ∈ k, isDigit (some d) = true) (hkne : k ≠ [])
    (hrest : isWhitespace rest.head? = false) (hfuel : i.length + k.length + 2 ≤ fuel)
    (h : lr.Pending ('H' :: 'I' :: 'L' :: 'E' :: ' ' :: 'x' :: (i ++ ' ' :: (relationToken op
      ++ ' ' :: (operandToken isVariable k ++ ' ' :: 'D' :: 'O' :: ' ' :: rest)))))
    (hacc : o.extensionWhileExtended = true ∨ (op = .notEqual ∧ isVariable = false ∧ k = ['0'])) :
    ∃ lr1, parseWhile fuel P lr o
        = .ok ({ P with instructionType := .whileInstruction, operation := op,
                        i := toUInt64 (digitsValue i 0),
                        treatCAsVariable :=
                          (o.extensionWhileExtended && isVariable) || P.treatCAsVariable,
                        c := if o.extensionWhileExtended = true then toUInt64 (digitsValue k 0)
                             else P.c }, lr1)
      ∧ lr1.Pending rest := by
  obtain ⟨c, t, hct, hcw⟩ := relationToken_cons op hop
  rw [hct] at h
  obtain ⟨lr1, lr2, lr3, lr4, lr5, lr6, h1, h2, h3, h4, h5, h6, p6⟩ :=
    parseWhile_pending_start fuel lr o i c _ hi hine hcw (by omega) h
  have hhead : (relationToken op).head? = some c := by rw [hct]; rfl
  have htail : (relationToken op).tail = t := by rw [hct]; rfl
  obtain ⟨lr7, h7, p7⟩ := (parseWhileRelation_pending
    { P with instructionType := .whileInstruction, i := toUInt64 (digitsValue i 0) } lr6 o op hop
    (operandToken isVariable k ++ ' ' :: 'D' :: 'O' :: ' ' :: rest)
    (by rw [htail]; exact p6)).1
    (by rcases hacc with hacc | hacc
        · exact Or.inl hacc
        · exact Or.inr hacc.1)
  rw [hhead] at h7
  obtain ⟨lr8, h8, p8⟩ := blank_pending lr7 fuel o _
    (operandToken_head isVariable k hk hkne _) p7 (by omega)
  unfold parseWhile
  rw [h1, ok_bind, h2, ok_bind]
  dsimp only
  rw [h3, ok_bind, h4, ok_bind]
  dsimp only
  rw [h5, ok_bind]
  dsimp only
  rw [h6, ok_bind]
  dsimp only
  rw [h7, ok_bind]
  dsimp only
  rw [h8, ok_bind]
  dsimp only
  cases hext : o.extensionWhileExtended with
  | true =>
    obtain ⟨lr9, h9, p9⟩ := parseOperand_pending fuel
      { P with instructionType := .whileInstruction, i := toUInt64 (digitsValue i 0),
               operation := op } lr8 isVariable k
      (' ' :: 'D' :: 'O' :: ' ' :: rest) hk hkne
      (by show isDigit (some ' ') = false; decide) p8 (by omega)
    obtain ⟨lr10, lr11, lr12, h10, h11, h12, p12⟩ :=
      parseWhile_pending_end fuel lr9 o rest hrest (by omega) p9
    refine ⟨lr12, ?_, p12⟩
    simp only [parseComparand, if_true]
    rw [h9, ok_bind]
    dsimp only
    rw [h10, ok_bind]
    dsimp only
    rw [h11, ok_bind, h12, ok_bind]
    simp
    rfl
  | false =>
    rcases hacc with hacc | ⟨rfl, rfl, rfl⟩
    · rw [hext] at hacc
      cases hacc
    · simp only [operandToken, Bool.false_eq_true, if_false, List.cons_append,
        List.nil_append] at p8
      obtain ⟨lr9, h9, p9⟩ := consumeStringLoop_pending ['0'] lr8
        (' ' :: 'D' :: 'O' :: ' ' :: rest) p8
      obtain ⟨lr10, lr11, lr12, h10, h11, h12, p12⟩ :=
        parseWhile_pending_end fuel lr9 o rest hrest (by omega) p9
      refine ⟨lr12, ?_, p12⟩
      simp only [parseComparand, Bool.false_eq_true, if_false]
      have h9s : consumeString lr8 "0" = .ok lr9 := h9
      rw [h9s, ok_bind, pure_bind_ok]
      dsimp only
      rw [h10, ok_bind]
      dsimp only
      rw [h11, ok_bind, h12, ok_bind]
      simp
      rfl

/-- Without `extensionWhileExtended` a relation other than `!=` is rejected. -/
theorem parseWhile_rejects_relation (fuel : Nat) (P : Program) (lr : LineReader)
    (o : ParserOptions) (i : List Char) (op : Operation) (more : List Char)
    (hi : ∀ d ∈ i, isDigit (some d) = true) (hine : i ≠ []) (hop : op.isRelation = true)
    (hfuel : i.length + 2 ≤ fuel)
    (h : lr.Pending ('H' :: 'I' :: 'L' :: 'E' :: ' ' :: 'x' :: (i ++ ' ' :: (relationToken op
      ++ ' ' :: more))))
    (hext : o.extensionWhileExtended = false) (hne : op ≠ .notEqual) :
    ∃ e, parseWhile fuel P lr o = .error e := by
  obtain ⟨c, t, hct, hcw⟩ := relationToken_cons op hop
  rw [hct] at h
  obtain ⟨lr1, lr2, lr3, lr4, lr5, lr6, h1, h2, h3, h4, h5, h6, p6⟩ :=
    parseWhile_pending_start fuel lr o i c _ hi hine hcw (by omega) h
  have hhead : (relationToken op).head? = some c := by rw [hct]; rfl
  have htail : (relationToken op).tail = t := by rw [hct]; rfl
  obtain ⟨e, h7⟩ := (parseWhileRelation_pending
    { P with instructionType := .whileInstruction, i := toUInt64 (digitsValue i 0) } lr6 o op hop
    more (by rw [htail]; exact p6)).2 hext hne
  rw [hhead] at h7
  refine ⟨e, ?_⟩
  unfold parseWhile
  rw [h1, ok_bind, h2, ok_bind]
  dsimp only
  rw [h3, ok_bind, h4, ok_bind]
  dsimp only
  rw [h5, ok_bind]
  dsimp only
  rw [h6, ok_bind]
  dsimp only
  rw [h7]
  rfl

theorem isDigit_ne_D (c : Char) (h : isDigit (some c) = true) : c ≠ 'D' := by
  intro hx
  rw [hx] at h
  exact absurd h (by decide)

/-- Without `extensionWhileExtended` an operand other than the literal `0` is rejected. -/
theorem parseWhile_rejects_operand (fuel : Nat) (P : Program) (lr : LineReader)
    (o : ParserOptions) (i : List Char) (isVariable : Bool) (k rest : List Char)
    (hi : ∀ d ∈ i, isDigit (some d) = true) (hine : i ≠ [])
    (hk : ∀ d ∈ k, isDigit (some d) = true) (hkne : k ≠ [])
    (hfuel : i.length + 2 ≤ fuel)
    (h : lr.Pending ('H' :: 'I' :: 'L' :: 'E' :: ' ' :: 'x' :: (i ++ ' ' :: (relationToken
      .notEqual ++ ' ' :: (operandToken isVariable k ++ ' ' :: 'D' :: 'O' :: ' ' :: rest)))))
    (hext : o.extensionWhileExtended = false) (hne : ¬ (isVariable = false ∧ k = ['0'])) :
    ∃ e, parseWhile fuel P lr o = .error e := by
  obtain ⟨lr1, lr2, lr3, lr4, lr5, lr6, h1, h2, h3, h4, h5, h6, p6⟩ :=
    parseWhile_pending_start fuel lr o i '!' _ hi hine (by decide) (by omega) h
  obtain ⟨lr7, h7, p7⟩ := (parseWhileRelation_pending
    { P with instructionType := .whileInstruction, i := toUInt64 (digitsValue i 0) } lr6 o
    .notEqual rfl (operandToken isVariable k ++ ' ' :: 'D' :: 'O' :: ' ' :: rest) p6).1
    (Or.inr rfl)
  obtain ⟨lr8, h8, p8⟩ := blank_pending lr7 fuel o _
    (operandToken_head isVariable k hk hkne _) p7 (by omega)
  have hrel : (relationToken .notEqual).head? = some '!' := rfl
  rw [hrel] at h7
  unfold parseWhile
  rw [h1, ok_bind, h2, ok_bind]
  dsimp only
  rw [h3, ok_bind, h4, ok_bind]
  dsimp only
  rw [h5, ok_bind]
  dsimp only
  rw [h6, ok_bind]
  dsimp only
  rw [h7, ok_bind]
  dsimp only
  rw [h8, ok_bind]
  dsimp only
  simp only [parseComparand, hext, Bool.false_eq_true, if_false]
  have hfail : ∀ e, consumeString lr8 "0" = .error e → ∃ e2,
      ((consumeString lr8 "0" >>= fun lineReader =>
          (pure ({ P with instructionType := .whileInstruction,
                          i := toUInt64 (digitsValue i 0), operation := .notEqual },
                 lineReader) : Except Failure (Program × LineReader))) >>= fun r =>
        (match r with
         | (program, lineReader) =>
           consumeWhitespace fuel lineReader 1 o >>= fun r2 =>
             match r2 with
             | (_, lineReader) =>
               consumeString lineReader "DO" >>= fun lineReader =>
                 consumeWhitespace fuel lineReader 1 o >>= fun r3 =>
                   match r3 with
                   | (_, lineReader) => pure (program, lineReader)
          : Except Failure (Program × LineReader))) = .error e2 := by
    intro e he
    rw [he]
    exact ⟨e, rfl⟩
  cases isVariable with
  | true =>
    simp only [operandToken, if_true, List.cons_append] at p8
    obtain ⟨e, he⟩ := consumeStringLoop_mismatch '0' [] lr8 _ p8
      (by simp only [List.head?_cons]; decide)
    exact hfail e he
  | false =>
    simp only [operandToken, Bool.false_eq_true, if_false] at p8
    cases k with
    | nil => exact absurd rfl hkne
    | cons d ks =>
      by_cases hd : d = '0'
      · subst hd
        cases ks with
        | nil => exact absurd ⟨rfl, rfl⟩ hne
        | cons d2 ks2 =>
          have hd2 : isDigit (some d2) = true :=
            hk d2 (List.mem_cons_of_mem _ (List.mem_cons_self _ _))
          obtain ⟨lr9, h9, p9⟩ := consumeStringLoop_pending ['0'] lr8
            (d2 :: (ks2 ++ ' ' :: 'D' :: 'O' :: ' ' :: rest)) p8
          have h9s : consumeString lr8 "0" = .ok lr9 := h9
          rw [h9s, ok_bind, pure_bind_ok]
          dsimp only
          cases hnw : o.noWhitespace with
          | false =>
            obtain ⟨e, he⟩ := consumeWhitespace_missing [] _ lr9 fuel 1 o (by simp)
              (by simp only [List.head?_cons]; exact isWhitespace_of_isDigit _ hd2) p9
              (by simp only [List.length_nil]; omega) ⟨by simp, hnw⟩
            rw [he]
            exact ⟨e, rfl⟩
          | true =>
            obtain ⟨lr10, h10, p10⟩ := consumeWhitespace_pending [] _ lr9 fuel 1 o (by simp)
              (by simp only [List.head?_cons]; exact isWhitespace_of_isDigit _ hd2) p9
              (by simp only [List.length_nil]; omega) (by simp [hnw])
            obtain ⟨e, he⟩ := consumeStringLoop_mismatch 'D' ['O'] lr10 _ p10
              (by simp only [List.head?_cons, ne_eq, Option.some.injEq]
                  exact isDigit_ne_D d2 hd2)
            have hes : consumeString lr10 "DO" = .error e := he
            rw [h10, ok_bind]
            dsimp only
            rw [hes]
            exact ⟨e, rfl⟩
      · obtain ⟨e, he⟩ := consumeStringLoop_mismatch '0' [] lr8 _ p8
          (by simp only [List.cons_append, List.head?_cons, ne_eq, Option.some.injEq]
              exact hd)
        exact hfail e he

/-- At `W` under `extensionWhile` the loop of `parse` calls `parseWhile`, on the node
`program` points to, and opens a block with what it returns. -/
theorem parseInstruction_pending_while (o : ParserOptions) (fuel : Nat) (state : ParserState)
    (more : List Char) (hW : o.extensionWhile = true) (hfuel : 1 ≤ fuel)
    (h : state.lineReader.Pending ('W' :: more)) :
    ∃ lr2, lr2.Pending more
      ∧ parseInstruction o fuel state
          = (match parseWhile fuel (state.heap.getD state.program Program.zero) lr2 o with
             | .error e => .error e
             | .ok (p, lr3) => .ok (.goOn .instruction (openBlock state p lr3))) := by
  obtain ⟨lr1, h1, p1⟩ := consumeWhitespace_pending [] ('W' :: more) state.lineReader fuel 0 o
    (by simp) (by show isWhitespace (some 'W') = false; decide) h
    (by simp only [List.length_nil]; omega) (by simp)
  obtain ⟨lr2, h2, p2, _⟩ := getChar_pending_cons lr1 'W' more p1
  refine ⟨lr2, p2, ?_⟩
  unfold parseInstruction
  rw [h1, ok_bind]
  dsimp only
  rw [h2, ok_bind]
  dsimp only
  rw [if_neg (by decide), if_neg (by decide), if_neg (by decide), if_pos ⟨rfl, hW⟩]
  cases parseWhile fuel (state.heap.getD state.program Program.zero) lr2 o with
  | error e => rfl
  | ok r => rfl

/-! ## Where `ifInstructionEnd` nodes stand -/

theorem typeAt_update (heap : List Program) (k : Nat) (v : Program) (extra : List Program)
    (htype : v.instructionType = .ifInstructionEnd → typeAt heap k = .ifInstructionEnd)
    (m : Nat) (hm : m < heap.length)
    (h : typeAt (heap.set k v ++ extra) m = .ifInstructionEnd) :
    typeAt heap m = .ifInstructionEnd := by
  unfold typeAt at *
  rw [List.getD_eq_getElem?_getD, List.getElem?_append_left (by simpa using hm)] at h
  by_cases hk : k = m
  · subst hk
    rw [List.getElem?_set_self hm] at h
    exact htype h
  · rw [List.getElem?_set_ne hk] at h
    rw [List.getD_eq_getElem?_getD]
    exact h

theorem typeAt_extra (heap : List Program) (k : Nat) (v : Program) (extra : List Program)
    (j : Nat) : typeAt (heap.set k v ++ extra) (heap.length + j) = typeAt extra j := by
  unfold typeAt
  rw [List.getD_eq_getElem?_getD, List.getD_eq_getElem?_getD,
    List.getElem?_append_right (by simp)]
  simp

theorem linksPlaced_update (heap : List Program) (k : Nat) (v : Program) (extra : List Program)
    (htype : v.instructionType = .ifInstructionEnd → typeAt heap k = .ifInstructionEnd)
    (p q : Program) (hp : linksPlaced heap p) (ht : q.instructionType = p.instructionType)
    (hi : q.innerProgram = p.innerProgram) (hn : q.nextProgram = p.nextProgram) :
    linksPlaced (heap.set k v ++ extra) q := by
  refine ⟨fun m hm => ?_, fun m hm => ?_⟩
  · rw [hi] at hm
    obtain ⟨h1, h2⟩ := hp.1 m hm
    refine ⟨by simp; omega, fun h => h2 (typeAt_update heap k v extra htype m h1 h)⟩
  · rw [hn] at hm
    obtain ⟨h1, h2⟩ := hp.2 m hm
    refine ⟨by simp; omega, fun h => ?_⟩
    rw [ht]
    exact h2 (typeAt_update heap k v extra htype m h1 h)

/-- Writing a node and allocating nodes keeps `heapPlaced` when the node written does not
become an `ifInstructionEnd` node and the links of the new nodes are placed. -/
theorem heapPlaced_update (heap : List Program) (k : Nat) (v : Program) (extra : List Program)
    (hinv : heapPlaced heap)
    (htype : v.instructionType = .ifInstructionEnd → typeAt heap k = .ifInstructionEnd)
    (hv : linksPlaced (heap.set k v ++ extra) v)
    (hextra : ∀ p ∈ extra, linksPlaced (heap.set k v ++ extra) p) :
    heapPlaced (heap.set k v ++ extra) := by
  obtain ⟨hpos, hall, hroot⟩ := hinv
  refine ⟨by simp; omega, ?_, ?_⟩
  · intro j p hj
    rcases heap_set_append _ _ _ _ _ _ hj with ⟨_, rfl, _⟩ | ⟨h1, h2⟩ | ⟨h1, h2⟩
    · exact hv
    · exact linksPlaced_update heap k v extra htype p p (hall j p h2) rfl rfl rfl
    · exact hextra p (List.getElem?_mem h2)
  · intro h
    exact hroot (typeAt_update heap k v extra htype 0 hpos h)

theorem linksPlaced_getD (heap : List Program) (hinv : heapPlaced heap) (k : Nat) :
    linksPlaced heap (heap.getD k Program.zero) := by
  by_cases hk : k < heap.length
  · exact hinv.2.1 k _ (heap_getD_of_lt heap k hk)
  · rw [List.getD_eq_getElem?_getD, List.getElem?_eq_none (by omega)]
    exact ⟨fun m hm => (by cases hm), fun m hm => (by cases hm)⟩

theorem linksPlaced_zero (heap : List Program) : linksPlaced heap Program.zero :=
  ⟨fun m hm => (by cases hm), fun m hm => (by cases hm)⟩

theorem assignment_placed (heap : List Program) (k : Nat) (p : Program)
    (hinv : heapPlaced heap) (ht : p.instructionType = .assignment)
    (hi : p.innerProgram = none) (hn : p.nextProgram = none) :
    heapPlaced (heap.set k p) := by
  have h := heapPlaced_update heap k p [] hinv (by rw [ht]; intro h; cases h)
    ⟨fun m hm => (by rw [hi] at hm; cases hm), fun m hm => (by rw [hn] at hm; cases hm)⟩
    (fun q hq => by cases hq)
  simpa using h

theorem openBlock_placed (state : ParserState) (p : Program) (lr : LineReader)
    (hinv : heapPlaced state.heap) (ht : p.instructionType ≠ .ifInstructionEnd)
    (hn : p.nextProgram = none) : heapPlaced (openBlock state p lr).heap := by
  refine heapPlaced_update state.heap state.program _ [Program.zero] hinv
    (fun h => absurd h ht) ⟨fun m hm => ?_, fun m hm => ?_⟩ ?_
  · simp only [Option.some.injEq] at hm
    subst hm
    refine ⟨by simp, ?_⟩
    have := typeAt_extra state.heap state.program
      { p with innerProgram := some state.heap.length } [Program.zero] 0
    rw [Nat.add_zero] at this
    rw [this]
    decide
  · simp only at hm
    rw [hn] at hm
    cases hm
  · intro q hq
    simp only [List.mem_singleton] at hq
    subst hq
    exact linksPlaced_zero _

theorem nextInstruction_placed (state : ParserState) (lr : LineReader)
    (hinv : heapPlaced state.heap) : heapPlaced (nextInstruction state lr).heap := by
  have hold := linksPlaced_getD state.heap hinv state.program
  have htype : ({ state.heap.getD state.program Program.zero with
        nextProgram := some state.heap.length } : Program).instructionType = .ifInstructionEnd →
      typeAt state.heap state.program = .ifInstructionEnd := fun h => h
  refine heapPlaced_update state.heap state.program _ [Program.zero] hinv htype
    ⟨fun m hm => ?_, fun m hm => ?_⟩ ?_
  · exact (linksPlaced_update state.heap state.program _ [Program.zero] htype _ _ hold rfl rfl
      rfl).1 m hm
  · simp only [Option.some.injEq] at hm
    subst hm
    refine ⟨by simp, fun h => ?_⟩
    have := typeAt_extra state.heap state.program
      { state.heap.getD state.program Program.zero with
        nextProgram := some state.heap.length } [Program.zero] 0
    rw [Nat.add_zero] at this
    rw [this] at h
    exact absurd h (by decide)
  · intro q hq
    simp only [List.mem_singleton] at hq
    subst hq
    exact linksPlaced_zero _

theorem openElse_placed (state : ParserState) (program : Nat) (programStack : List Nat)
    (lr : LineReader) (hinv : heapPlaced state.heap)
    (hcheck : (state.heap.getD program Program.zero).instructionType = .ifInstructionStart) :
    heapPlaced (openElse state program programStack lr).heap := by
  have hold := linksPlaced_getD state.heap hinv program
  have htype : ({ state.heap.getD program Program.zero with
        nextProgram := some state.heap.length } : Program).instructionType = .ifInstructionEnd →
      typeAt state.heap program = .ifInstructionEnd := fun h => h
  refine heapPlaced_update state.heap program _ _ hinv htype
    ⟨fun m hm => ?_, fun m hm => ?_⟩ ?_
  · exact (linksPlaced_update state.heap program _ _ htype _ _ hold rfl rfl rfl).1 m hm
  · simp only [Option.some.injEq] at hm
    subst hm
    exact ⟨by simp, fun _ => hcheck⟩
  · intro q hq
    simp only [List.mem_cons, List.mem_singleton, List.not_mem_nil, or_false] at hq
    rcases hq with rfl | rfl
    · refine ⟨fun m hm => ?_, fun m hm => (by cases hm)⟩
      simp only [Option.some.injEq] at hm
      subst hm
      refine ⟨by simp, ?_⟩
      rw [typeAt_extra]
      intro h
      cases h
    · exact linksPlaced_zero _

theorem parseInstruction_placed (o : ParserOptions) (fuel : Nat) (state : ParserState)
    (hst : state.wellFormed .instruction) (hinv : heapPlaced state.heap) :
    Post (parseInstruction o fuel state) (fun r =>
      match r with
      | .goOn _ state => heapPlaced state.heap
      | .break state => heapPlaced state.heap) := by
  have hzero := hst.2.1 rfl
  unfold parseInstruction
  refine Post.bind (Post.true _) fun ⟨_, lr1⟩ _ => ?_
  refine Post.bind (Post.true _) fun ⟨c, lr2⟩ _ => ?_
  dsimp only
  split_ifs
  · exact Post.parserError
  · refine Post.bind (parseAssignment_node fuel _ _ o _) ?_
    rintro ⟨p, lr3, cnt, hi⟩ ⟨ht, hop, hin, hn⟩
    refine Post.pure ?_
    rw [hzero] at hin hn
    exact assignment_placed state.heap state.program p hinv ht hin hn
  · refine Post.bind (parseLoop_node fuel _ _ o) ?_
    rintro ⟨p, lr3⟩ ⟨ht, hin, hn⟩
    rw [hzero] at hn
    exact Post.pure (openBlock_placed state p lr3 hinv (by rw [ht]; decide) hn)
  · refine Post.bind (parseWhile_node fuel _ _ o) ?_
    rintro ⟨p, lr3⟩ ⟨ht, hop, hin, hn⟩
    rw [hzero] at hn
    exact Post.pure (openBlock_placed state p lr3 hinv (by rw [ht]; decide) hn)
  · refine Post.bind (parseIf_node fuel _ _ o) ?_
    rintro ⟨p, lr3⟩ ⟨ht, hop, hin, hn⟩
    rw [hzero] at hn
    exact Post.pure (openBlock_placed state p lr3 hinv (by rw [ht]; decide) hn)
  · exact Post.parserError

theorem parseEndOfInstruction_placed (o : ParserOptions) (fuel : Nat) (state : ParserState)
    (hinv : heapPlaced state.heap) :
    Post (parseEndOfInstruction o fuel state) (fun r =>
      match r with
      | .goOn _ state => heapPlaced state.heap
      | .break state => heapPlaced state.heap) := by
  unfold parseEndOfInstruction
  refine Post.bind (Post.true _) fun ⟨c, lr1⟩ _ => ?_
  dsimp only
  split
  · exact Post.pure (nextInstruction_placed state lr1 hinv)
  split
  · split
    · exact Post.parserError
    · refine Post.bind (Post.true _) fun ⟨c2, lr2⟩ _ => ?_
      dsimp only
      split
      · refine Post.bind (Post.true _) fun lr3 _ => ?_
        split
        · exact Post.parserError
        · refine Post.bind (Post.true _) fun ⟨cnt, lr4⟩ _ => ?_
          exact Post.pure hinv
      split
      · split
        · refine Post.bind (Post.true _) fun lr3 _ => ?_
          split
          · exact Post.fail
          · split
            · exact Post.parserError
            · rename_i hcheck
              refine Post.bind (Post.true _) fun ⟨cnt, lr4⟩ _ => ?_
              exact Post.pure (openElse_placed state _ _ lr4 hinv (by simpa using hcheck))
        · exact Post.parserError
      · exact Post.parserError
  split
  · split
    · exact Post.parserError
    · exact Post.pure hinv
  · split
    · exact Post.parserError
    · exact Post.parserError

theorem parseRun_placed (o : ParserOptions) (fuel : Nat) :
    ∀ (steps : Nat) (label : Label) (state : ParserState), state.wellFormed label →
      heapPlaced state.heap →
      Post (parseRun o fuel steps label state) (fun final =>
        (∀ (k : Nat) (p : Program), final.heap[k]? = some p → p.good)
          ∧ heapPlaced final.heap) := by
  intro steps
  induction steps with
  | zero =>
    intro label state _ _
    exact Post.fail
  | succ n ih =>
    intro label state hst hinv
    have hstep : Post (parseStep o fuel label state) (fun r =>
        match r with
        | .goOn label state => state.wellFormed label
        | .break state => state.wellFormed .end_of_instruction) := by
      cases label with
      | instruction => exact parseInstruction_wellFormed o fuel state hst
      | end_of_instruction => exact parseEndOfInstruction_wellFormed o fuel state hst
    have hstep2 : Post (parseStep o fuel label state) (fun r =>
        match r with
        | .goOn _ state => heapPlaced state.heap
        | .break state => heapPlaced state.heap) := by
      cases label with
      | instruction => exact parseInstruction_placed o fuel state hst hinv
      | end_of_instruction => exact parseEndOfInstruction_placed o fuel state hinv
    unfold parseRun
    cases hres : parseStep o fuel label state with
    | error e => exact Post.fail
    | ok ctl =>
      have hctl := hstep ctl hres
      have hctl2 := hstep2 ctl hres
      cases ctl with
      | goOn l2 s2 => exact ih l2 s2 hctl hctl2
      | «break» s2 => exact Post.ok ⟨hctl.2.2 rfl, hctl2⟩

theorem parseStart_placed (o : ParserOptions) (input : List Char) :
    heapPlaced (parseStart o input).heap := by
  refine ⟨by simp [parseStart], ?_, fun h => (by cases h)⟩
  intro k p hp
  have hk : k = 0 := by
    by_contra hne
    have h1 : 1 ≤ k := Nat.one_le_iff_ne_zero.mpr hne
    simp [parseStart, List.getElem?_eq_none (l := [Program.zero]) (by simpa using h1)] at hp
  subst hk
  simp [parseStart] at hp
  subst hp
  exact linksPlaced_zero _

theorem toTree_placed (heap : List Program) (hinv : heapPlaced heap)
    (hall : ∀ (k : Nat) (p : Program), heap[k]? = some p → p.good) :
    ∀ (fuel : Nat) (pointer : Option Nat) (allowed : Bool) (t : Tree),
      toTree heap fuel pointer = some t →
      (∀ k, pointer = some k → typeAt heap k = .ifInstructionEnd → allowed = true) →
      t.elsePlaced allowed := by
  intro fuel
  induction fuel with
  | zero =>
    intro pointer allowed t h _
    cases pointer with
    | none =>
      simp only [toTree, Option.some.injEq] at h
      subst h
      trivial
    | some k => simp [toTree] at h
  | succ n ih =>
    intro pointer allowed t h hallowed
    cases pointer with
    | none =>
      simp only [toTree, Option.some.injEq] at h
      subst h
      trivial
    | some k =>
      simp only [toTree] at h
      cases hk : heap[k]? with
      | none => simp [hk] at h
      | some p =>
        rw [hk] at h
        dsimp only at h
        cases hi : toTree heap n p.innerProgram with
        | none => simp [hi] at h
        | some a =>
          cases hn : toTree heap n p.nextProgram with
          | none => simp [hi, hn] at h
          | some b =>
            simp only [hi, hn, Option.some.injEq] at h
            subst h
            have hlinks := hinv.2.1 k p hk
            have htype : typeAt heap k = p.instructionType := by
              unfold typeAt
              rw [List.getD_eq_getElem?_getD, hk]
              rfl
            refine ⟨fun hp => ⟨hallowed k rfl (by rw [htype]; exact hp), ?_⟩, ?_, ?_⟩
            · have hgood := hall k p hk
              have hinner : p.innerProgram ≠ none := hgood.2.mp (by rw [hp]; rfl)
              intro hnull
              apply hinner
              exact ((toTree_of_heap heap (fun _ => True) (fun _ _ _ => trivial) n _ a hi).2.2).mp
                hnull
            · refine ih p.innerProgram false a hi ?_
              intro m hm hty
              exact absurd hty (hlinks.1 m hm).2
            · refine ih p.nextProgram _ b hn ?_
              intro m hm hty
              simpa using (hlinks.2 m hm).2 hty

/-- In every tree `parse` returns the `ifInstructionEnd` nodes are placed. -/
theorem parse_placed (o : ParserOptions) (input : List Char) (parsed : Parsed)
    (h : parse o input = .ok parsed) : parsed.program.elsePlaced false := by
  unfold parse at h
  cases hrun : parseRun o (parseStart o input).lineReader.fuel
      (parseStart o input).lineReader.fuel .instruction (parseStart o input) with
  | error e => simp [hrun] at h
  | ok state =>
    rw [hrun] at h
    dsimp only at h
    obtain ⟨hall, hinv⟩ := parseRun_placed o _ _ _ _ (parseStart_wellFormed o input)
      (parseStart_placed o input) state hrun
    cases ht : toTree state.heap state.heap.length (some 0) with
    | none => simp [ht] at h
    | some t =>
      simp only [ht, Except.ok.injEq] at h
      subst h
      refine toTree_placed state.heap hinv hall _ _ false t ht ?_
      intro k hk hty
      simp only [Option.some.injEq] at hk
      subst hk
      exact absurd hty hinv.2.2

/-! ## The layout of the emitted text -/

theorem layout_node_null (p : Program) (inner : Tree) (d : Nat) :
    layout (.node p inner .null) d
      = (match writeInstruction p, layout inner (d + 1) with
         | .error e, _ => .error e
         | _, .error e => .error e
         | .ok text, .ok body =>
           if inner.isNull then .ok (writeIndentation d ++ text)
           else .ok (writeIndentation d ++ text ++ body ++ writeIndentation d ++ "\x7d")) := rfl

theorem layout_node_node (p : Program) (inner : Tree) (e : Program) (ei en : Tree) (d : Nat) :
    layout (.node p inner (.node e ei en)) d
      = (match writeInstruction p, layout inner (d + 1) with
         | .error e, _ => .error e
         | _, .error e => .error e
         | .ok text, .ok body =>
           if inner.isNull then
             match layout (.node e ei en) d with
             | .error e => .error e
             | .ok rest => .ok (writeIndentation d ++ text ++ rest)
           else if e.instructionType = .ifInstructionEnd then
             match layout ei (d + 1), layout en d with
             | .error e, _ => .error e
             | _, .error e => .error e
             | .ok elseBody, .ok rest =>
               .ok (writeIndentation d ++ text ++ body ++ writeIndentation d
                 ++ "\x7d else \x7b" ++ elseBody ++ writeIndentation d ++ "\x7d" ++ rest)
           else
             match layout (.node e ei en) d with
             | .error e => .error e
             | .ok rest =>
               .ok (writeIndentation d ++ text ++ body ++ writeIndentation d ++ "\x7d"
                 ++ rest)) := rfl

/-- The recursive emitter and the layout agree on a tree whose nodes are good and whose
`ifInstructionEnd` nodes are placed: on a tree that does not start with an
`ifInstructionEnd` node they give the same text; on one that does, the emitter gives a blank,
`else`, the body, its closing marker and the rest. -/
theorem emit_layout (t : Tree) : ∀ (d : Nat) (allowed : Bool), t.Forall Program.good →
    t.linked → t.elsePlaced allowed →
    (t = .null → layout t d = .ok "" ∧ emit t d = .ok "")
      ∧ (∀ p inner next, t = .node p inner next → p.instructionType ≠ .ifInstructionEnd →
          ∃ text, emit t d = .ok text ∧ layout t d = .ok text)
      ∧ (∀ p inner next, t = .node p inner next → p.instructionType = .ifInstructionEnd →
          ∃ body rest, layout inner (d + 1) = .ok body ∧ layout next d = .ok rest
            ∧ emit t d = .ok (" else \x7b" ++ body ++ closer d ++ rest)) := by
  induction t with
  | null =>
    intro d allowed _ _ _
    exact ⟨fun _ => ⟨rfl, rfl⟩, fun _ _ _ h => Tree.noConfusion h,
      fun _ _ _ h => Tree.noConfusion h⟩
  | node p inner next ihi ihn =>
    intro d allowed hgood hlinked hplaced
    obtain ⟨⟨hdef, hopen⟩, hgi, hgn⟩ := hgood
    obtain ⟨hli, _, hlinkedi, hlinkedn⟩ := hlinked
    obtain ⟨hroot, hpi, hpn⟩ := hplaced
    obtain ⟨text, htext, _, _⟩ := writeInstruction_braces p hdef
    -- the body
    have hI : ∃ body, emit inner (d + 1) = .ok body ∧ layout inner (d + 1) = .ok body := by
      have := ihi (d + 1) false hgi hlinkedi hpi
      cases hin : inner with
      | null => exact ⟨"", rfl, rfl⟩
      | node q a b =>
        rw [hin] at this hpi
        exact this.2.1 q a b rfl (fun hq => by simpa using (hpi.1 hq).1)
    obtain ⟨body, hbodyE, hbodyL⟩ := hI
    refine ⟨fun h => Tree.noConfusion h, ?_, ?_⟩
    · intro p2 inner2 next2 heq hne
      cases heq
      have hline : line p d = .ok (writeIndentation d ++ text) := by
        unfold line
        rw [htext]
        dsimp only
        rw [if_neg hne]
      rw [emit_node, hline]
      dsimp only
      cases hnx : next with
      | null =>
        rw [layout_node_null, htext, hbodyL]
        cases hin : inner with
        | null =>
          exact ⟨_, rfl, by simp [Tree.isNull]⟩
        | node q a b =>
          rw [hin] at hbodyE
          rw [hbodyE]
          refine ⟨_, rfl, ?_⟩
          simp [Tree.isNull, closer, writeLoopEnd, String.append_assoc]
      | node e ei en =>
        rw [hnx] at hpn hgn hlinkedn ihn
        rw [layout_node_node, htext, hbodyL]
        by_cases he : e.instructionType = .ifInstructionEnd
        · have hif : p.instructionType = .ifInstructionStart := by
            simpa using (hpn.1 he).1
          have hinner : inner ≠ .null := by
            intro hnull
            have := hli.mp hnull
            exact (hopen.mp (by rw [hif]; rfl)) this
          obtain ⟨eb, r, h1, h2, h3⟩ := (ihn d _ hgn hlinkedn hpn).2.2 e ei en rfl he
          cases hin : inner with
          | null => exact absurd hin hinner
          | node q a b =>
            rw [hin] at hbodyE
            rw [hbodyE, h3]
            refine ⟨_, rfl, ?_⟩
            simp only [Tree.isNull, Bool.false_eq_true, if_false, he, if_true, h1, h2]
            simp [closer, writeLoopEnd, String.append_assoc]
            rfl
        · obtain ⟨rest, h1, h2⟩ := (ihn d _ hgn hlinkedn hpn).2.1 e ei en rfl he
          rw [h1]
          cases hin : inner with
          | null =>
            refine ⟨_, rfl, ?_⟩
            simp [Tree.isNull, h2, String.append_assoc]
          | node q a b =>
            rw [hin] at hbodyE
            rw [hbodyE]
            refine ⟨_, rfl, ?_⟩
            simp [Tree.isNull, he, h2, closer, writeLoopEnd, String.append_assoc]
    · intro p2 inner2 next2 heq he
      cases heq
      have hinner : inner ≠ .null := (hroot he).2
      have hR : ∃ rest, emit next d = .ok rest ∧ layout next d = .ok rest := by
        have := ihn d _ hgn hlinkedn hpn
        cases hnx : next with
        | null => exact ⟨"", rfl, rfl⟩
        | node q a b =>
          rw [hnx] at this hpn
          refine this.2.1 q a b rfl (fun hq => ?_)
          have := (hpn.1 hq).1
          rw [he] at this
          simp at this
      obtain ⟨rest, hrestE, hrestL⟩ := hR
      have htext2 : text = writeIfEnd := by
        unfold writeInstruction at htext
        rw [he] at htext
        exact (Except.ok.inj htext).symm
      have hline : line p d = .ok (" " ++ writeIfEnd) := by
        unfold line
        rw [htext]
        dsimp only
        rw [if_pos he, htext2]
      refine ⟨body, rest, hbodyL, hrestL, ?_⟩
      rw [emit_node, hline]
      dsimp only
      cases hin : inner with
      | null => exact absurd hin hinner
      | node q a b =>
        rw [hin] at hbodyE
        rw [hbodyE, hrestE]
        simp [writeIfEnd, String.append_assoc]

/-- On a tree `parse` returns, the loop of `writeProgram` writes the layout. -/
theorem parse_layout (o : ParserOptions) (input : List Char) (parsed : Parsed)
    (h : parse o input = .ok parsed) :
    ∃ text, writeProgramBody parsed.program = .ok text ∧ layout parsed.program 1 = .ok text := by
  obtain ⟨hgood, hlinked, hne⟩ := parse_good o input parsed h
  have hplaced := parse_placed o input parsed h
  rw [writeProgramBody_eq_emit _ hne]
  cases ht : parsed.program with
  | null => exact absurd ht hne
  | node p inner next =>
    rw [ht] at hgood hlinked hplaced
    refine (emit_layout _ 1 false hgood hlinked hplaced).2.1 p inner next rfl ?_
    intro hp
    simpa using (hplaced.1 hp).1

/-! ## Statement sequences -/

theorem filled_of_good : ∀ (t : Tree), t.Forall Program.good → t.linked → t.filled
  | .null, _, _ => trivial
  | .node p a b, ⟨hp, ha, hb⟩, ⟨hi, _, hla, hlb⟩ => by
    refine ⟨?_, ?_, filled_of_good a ha hla, filled_of_good b hb hlb⟩
    · intro hu
      have hd := hp.1
      unfold Program.defined at hd
      rw [hu] at hd
      exact hd
    · intro ho hnull
      exact (hp.2.mp ho) (hi.mp hnull)

/-- Where an instruction has to begin and the next character after the blanks begins none,
the pass fails: with "Unexpected end of file" at the end of the input, with "Expected
beginning of instruction" at any other character. -/
theorem parseInstruction_no_beginning (o : ParserOptions) (fuel : Nat) (state : ParserState)
    (count : Nat) (lr1 lr2 : LineReader) (c : Option Char)
    (hblank : consumeWhitespace fuel state.lineReader 0 o = .ok (count, lr1))
    (hget : getChar lr1 = .ok (c, lr2))
    (hx : c ≠ some 'x') (hL : c ≠ some 'L')
    (hW : c = some 'W' → o.extensionWhile = false)
    (hI : c = some 'I' → o.extensionIf = false) :
    parseInstruction o fuel state
      = .error (.parserError
          (if c = none then "Unexpected end of file" else "Expected beginning of instruction")
          lr2) := by
  simp only [parseInstruction]
  rw [hblank, ok_bind]
  dsimp only
  rw [hget, ok_bind]
  dsimp only
  by_cases hc : c = none
  · rw [if_pos hc, if_pos hc]
    rfl
  · rw [if_neg hc, if_neg hx, if_neg hL, if_neg, if_neg, if_neg hc]
    · rfl
    · rintro ⟨h1, h2⟩
      rw [hI h1] at h2
      cases h2
    · rintro ⟨h1, h2⟩
      rw [hW h1] at h2
      cases h2

/-- An input of blanks, tabs, carriage returns and newlines only, the empty one included, is
rejected with "Unexpected end of file". -/
theorem whitespace_only_rejected (o : ParserOptions) (input : List Char)
    (h : ∀ c ∈ input, c = ' ' ∨ c = Char.ofNat 9 ∨ c = Char.ofNat 13 ∨ c = Char.ofNat 10) :
    ∃ lineReader, parse o input = .error (.parserError "Unexpected end of file" lineReader) := by
  have hnul : ∀ c ∈ input, c ≠ NUL := by
    intro c hc hn
    rcases h c hc with h1 | h1 | h1 | h1 <;> rw [h1] at hn <;> revert hn <;> decide
  have hws : ∀ c ∈ input, isWhitespace (some c) = true := by
    intro c hc
    rcases h c hc with h1 | h1 | h1 | h1 <;> rw [h1] <;> decide
  have hat := newLineReader_at o.inputFileName input LINE_BUF_SIZE (by decide) hnul
  have hpend : (parseStart o input).lineReader.Pending (input ++ []) :=
    ⟨input, 0, hat, by simp⟩
  have hfuel : input.length < (parseStart o input).lineReader.fuel := by
    show input.length < input.length * (256 + 1) + (256 - 0) + 1
    omega
  obtain ⟨lr1, h1, hp1⟩ := consumeWhitespace_pending input [] _ _ 0 o hws rfl hpend hfuel
    (by omega)
  obtain ⟨lr2, h2, _⟩ := getChar_pending_nil lr1 hp1
  exact ⟨lr2, end_of_input_before_instruction o input 0 _ _ lr1 lr2 rfl h1 h2⟩

/-! ## The diagnostic and the character read -/

theorem changeWhitespaceToSpaces_chunk (chunk garbage : List Char) (h : ∀ c ∈ chunk, c ≠ NUL) :
    formatS (changeWhitespaceToSpaces (chunk ++ NUL :: garbage))
      = String.mk (chunk.map
          (fun c => if c = Char.ofNat 9 ∨ c = Char.ofNat 13 ∨ c = Char.ofNat 10 then ' ' else c)) := by
  have hmap : ∀ c ∈ chunk.map
      (fun c => if c = Char.ofNat 9 ∨ c = Char.ofNat 13 ∨ c = Char.ofNat 10 then ' ' else c),
      c ≠ NUL := by
    intro c hc
    obtain ⟨d, hd, rfl⟩ := List.mem_map.mp hc
    split
    · decide
    · exact h d hd
  have hch : changeWhitespaceToSpaces (chunk ++ NUL :: garbage)
      = chunk.map
          (fun c => if c = Char.ofNat 9 ∨ c = Char.ofNat 13 ∨ c = Char.ofNat 10 then ' ' else c)
        ++ NUL :: garbage := by
    unfold changeWhitespaceToSpaces
    rw [strlen_chunk chunk garbage h, List.take_left', List.drop_left']
    · rfl
    · rfl
  unfold formatS
  rw [hch, strlen_chunk _ garbage hmap, List.take_left']
  rfl

/-- Right after `getChar` returned the character at offset `n` of the file, that character
(a tab, carriage return or newline as a blank) stands at offset `position - 1` of the line
`parserError` prints, and `segment` is 0 exactly when the column is at most `size - 1`. -/
theorem at_printed (text : List Char) (n : Nat) (lr : LineReader) (c : Char)
    (h : lr.At text (n + 1)) (hp : 1 ≤ lr.position) (hc : text[n]? = some c) :
    (formatS (changeWhitespaceToSpaces lr.buf)).data[lr.position - 1]?
        = some (if c = Char.ofNat 9 ∨ c = Char.ofNat 13 ∨ c = Char.ofNat 10 then ' ' else c)
      ∧ (lr.segment = 0 ↔ column lr ≤ lr.size - 1) := by
  obtain ⟨before, chunk, hH, ht, hn⟩ := h
  obtain ⟨garbage, hbuf⟩ := hH.buf
  have hpos := hH.position
  have hfits := hH.fits
  have hnul : ∀ d ∈ chunk, d ≠ NUL := fun d hd =>
    hH.noNul d (List.mem_append_left _ (List.mem_append_right _ hd))
  have hlt : lr.position - 1 < chunk.length := by omega
  have hcc : chunk[lr.position - 1]? = some c := by
    rw [← hc, ← ht, List.append_assoc, List.getElem?_append_right (by omega),
      List.getElem?_append_left (by omega)]
    congr 1
    omega
  constructor
  · rw [hbuf, changeWhitespaceToSpaces_chunk chunk garbage hnul]
    show (chunk.map _)[lr.position - 1]? = _
    rw [List.getElem?_map, hcc]
    rfl
  · unfold column
    constructor
    · intro h0
      rw [h0]
      omega
    · intro hle
      cases hs : lr.segment with
      | zero => rfl
      | succ k =>
        rw [hs, Nat.succ_mul] at hle
        omega

theorem caretLine_eq_iff (lineReader : LineReader) (hsize : 3 ≤ lineReader.size) :
    caretLine lineReader = String.mk (List.replicate (column lineReader - 1) ' ') ++ "^"
      ↔ lineReader.segment = 0 := by
  unfold caretLine column
  constructor
  · intro h
    have key : ∀ a : Nat, (String.mk (List.replicate a ' ') ++ "^").length = a + 1 := by
      intro a
      rw [String.length_append]
      simp [String.length]
    have hlen := congrArg String.length h
    rw [key, key] at hlen
    cases hs : lineReader.segment with
    | zero => rfl
    | succ k =>
      rw [hs, Nat.succ_mul] at hlen
      omega
  · intro h
    rw [h, Nat.zero_mul, Nat.zero_add]


theorem getChars_size : ∀ (putBack : List Bool) (lr lr0 : LineReader),
    getChars putBack lr = .ok lr0 → lr0.size = lr.size := by
  intro putBack
  induction putBack with
  | nil =>
    intro lr lr0 h
    cases h
    rfl
  | cons back putBack ih =>
    intro lr lr0 h
    rw [getChars] at h
    cases hg : getChar lr with
    | error e => simp [hg] at h
    | ok r =>
      obtain ⟨c, lr1⟩ := r
      rw [hg] at h
      dsimp only at h
      have h1 := (getCharLoop_remaining _ lr c lr1 hg).2
      rw [ih _ _ h]
      cases back
      · exact h1
      · exact h1

/-- At `end_of_instruction`, `E` without a blank before it (and without `noWhitespace`) is
rejected with "Expected whitespace". -/
theorem parseEndOfInstruction_no_blank (o : ParserOptions) (fuel : Nat) (state : ParserState)
    (lr1 : LineReader) (hE : getChar state.lineReader = .ok (some 'E', lr1))
    (hblank : state.count = 0 ∧ o.noWhitespace = false) :
    parseEndOfInstruction o fuel state = .error (.parserError "Expected whitespace" lr1) := by
  simp only [parseEndOfInstruction]
  rw [hE, ok_bind]
  dsimp only
  rw [if_neg (by decide), if_pos rfl, if_pos hblank]
  rfl

/-! ## The claims -/

/-- C1: for every input that `parse` accepts, under any profile, the loop of `writeProgram`
terminates on the returned tree and the text it writes has exactly as many closing markers,
and as many opening braces, as the tree has block-opener nodes; the line of every node has
no closing marker and has one opening brace when the node is an opener, none otherwise. -/
theorem writeProgram_closes_every_opener (parserOptions : ParserOptions) (input : List Char)
    (parsed : Parsed) (h : parse parserOptions input = .ok parsed) :
    (∃ text, writeProgramBody parsed.program = .ok text
      ∧ countChar closingBrace text = parsed.program.openers
      ∧ countChar openingBrace text = parsed.program.openers)
    ∧ parsed.program.Forall (fun program =>
        ∃ text, writeInstruction program = .ok text ∧ countChar closingBrace text = 0
          ∧ countChar openingBrace text
              = (if program.instructionType.isOpener then 1 else 0)) := by
  obtain ⟨hgood, hlinked, hne⟩ := parse_good parserOptions input parsed h
  refine ⟨?_, ?_⟩
  · rw [writeProgramBody_eq_emit _ hne]
    exact emit_braces _ 1 hgood hlinked
  · exact Tree.Forall.imp (fun p hp => writeInstruction_braces p hp.1) _ hgood

/-- Witness of C1: `LOOP x1 DO x0 := x0 + 1 END` under the base profile. -/
theorem writeProgram_closes_every_opener_witness :
    parse baseProfile "LOOP x1 DO x0 := x0 + 1 END".toList
        = .ok { program := loopTree, heighestIndex := 0 }
    ∧ ((∃ text, writeProgramBody loopTree = .ok text
        ∧ countChar closingBrace text = loopTree.openers
        ∧ countChar openingBrace text = loopTree.openers)
      ∧ loopTree.Forall (fun program =>
          ∃ text, writeInstruction program = .ok text ∧ countChar closingBrace text = 0
            ∧ countChar openingBrace text
                = (if program.instructionType.isOpener then 1 else 0))) :=
  ⟨by decide,
   writeProgram_closes_every_opener baseProfile "LOOP x1 DO x0 := x0 + 1 END".toList
     { program := loopTree, heighestIndex := 0 } (by decide)⟩

/-- C2: profile monotonicity.  For every input and every two profiles `F`, `G` with every
flag of `F` set in `G`: if `parse` accepts the input under `F`, it accepts it under `G`. -/
theorem parse_accepts_under_larger_profile (input : List Char) (F G : ParserOptions)
    (hFG : F.subset G) (h : ∃ parsed, parse F input = .ok parsed) :
    ∃ parsed, parse G input = .ok parsed := by
  obtain ⟨parsed, hp⟩ := h
  exact ⟨parsed, parse_sim F G hFG input parsed hp⟩

/-- Witness of C2: `LOOP x1 DO x0 := x0 + 1 END`, from the base profile to the full one. -/
theorem parse_accepts_under_larger_profile_witness :
    baseProfile.subset fullProfile
    ∧ (∃ parsed, parse baseProfile "LOOP x1 DO x0 := x0 + 1 END".toList = .ok parsed)
    ∧ ∃ parsed, parse fullProfile "LOOP x1 DO x0 := x0 + 1 END".toList = .ok parsed :=
  ⟨⟨rfl, by decide, by decide, by decide, by decide, by decide, by decide, by decide⟩,
   ⟨{ program := loopTree, heighestIndex := 0 }, by decide⟩,
   parse_accepts_under_larger_profile "LOOP x1 DO x0 := x0 + 1 END".toList baseProfile
     fullProfile
     ⟨rfl, by decide, by decide, by decide, by decide, by decide, by decide, by decide⟩
     ⟨{ program := loopTree, heighestIndex := 0 }, by decide⟩⟩

set_option maxRecDepth 100000 in
/-- C3 (code at the failing input): for `LOOP x5 DO x0 := x0 + 1 END` under the base
profile `parse` returns the loop on index 5 with `heighestIndex` 0, not 5, and `writeStart`
sizes the array of the emitted function with one slot. -/
theorem heighestIndex_misses_loop_variable :
    parse baseProfile "LOOP x5 DO x0 := x0 + 1 END".toList
        = .ok { program := loopFiveTree, heighestIndex := 0 }
    ∧ writeStart "program" 0
        = "\nuint_fast64_t program(uint_fast64_t argc, uint_fast64_t *argv) \x7b\n"
          ++ "\tuint_fast64_t *x = calloc(1, sizeof(uint_fast64_t));\n"
          ++ "\tuint_fast64_t n = argc < 0 ? argc : 0;\n"
          ++ "\tmemcpy(x + 1, argv, n * sizeof(uint_fast64_t));\n" := by
  constructor <;> decide

/-- C4: every tree `parse` returns, under any profile, has only nodes with a defined
`instructionType`, assignments with an operation `writeAssignment` has a case for, and
`while`/`if` nodes with a relation; on it `writeProgram` reaches none of its `error` calls
and returns the text. -/
theorem writeProgram_meets_no_undefined_node (parserOptions : ParserOptions)
    (input : List Char) (parsed : Parsed) (h : parse parserOptions input = .ok parsed)
    (writeOptions : WriteOptions) :
    parsed.program.Forall Program.defined
      ∧ ∃ text, writeProgram parsed.program writeOptions parsed.heighestIndex = .ok text := by
  obtain ⟨hgood, hlinked, hne⟩ := parse_good parserOptions input parsed h
  refine ⟨Tree.Forall.imp (fun p hp => hp.1) _ hgood, ?_⟩
  obtain ⟨body, hbody, _, _⟩ := emit_braces _ 1 hgood hlinked
  rw [← writeProgramBody_eq_emit _ hne] at hbody
  unfold writeProgram
  cases hp : parsed.program with
  | null => exact absurd hp hne
  | node p a b =>
    rw [hp] at hbody
    simp only [hbody]
    exact ⟨_, rfl⟩

/-- Witness of C4: `LOOP x1 DO x0 := x0 + 1 END` under the base profile. -/
theorem writeProgram_meets_no_undefined_node_witness :
    parse baseProfile "LOOP x1 DO x0 := x0 + 1 END".toList
        = .ok { program := loopTree, heighestIndex := 0 }
    ∧ (loopTree.Forall Program.defined
      ∧ ∃ text, writeProgram loopTree
          { outputFileName := "a.c", functionName := "program", extensionHeader := false } 0
            = .ok text) :=
  ⟨by decide,
   writeProgram_meets_no_undefined_node baseProfile "LOOP x1 DO x0 := x0 + 1 END".toList
     { program := loopTree, heighestIndex := 0 } (by decide)
     { outputFileName := "a.c", functionName := "program", extensionHeader := false }⟩

/-- C5 (code at the failing input): for `LOOP x1 DO x0 := x0 + 1 END` under the base profile
`parse` returns the loop on index 1 over the single assignment `x0 := x0 + 1`, with
`heighestIndex` 0; the emitted loop run on an array that holds `x1 = 3` ends with `x0 = 3`,
but the array the emitted function sets up from the input 3 has the single slot `x[0]`, the
input is not copied, and the run reads `x[1]` outside the array. -/
theorem emitted_loop_reads_outside_array :
    parse baseProfile "LOOP x1 DO x0 := x0 + 1 END".toList
        = .ok { program := loopTree, heighestIndex := 0 }
    ∧ writeProgramBody loopTree
        = .ok "\n\tfor (int i = x[1]; i; --i) \x7b\n\t\tx[0] = x[0] + 1;\n\t\x7d"
    ∧ exec 5 loopTree [0, 3] = some [3, 3]
    ∧ startArray 0 [3] = some [0]
    ∧ ∀ fuel, runProgram fuel { program := loopTree, heighestIndex := 0 } [3] = none := by
  refine ⟨by decide, by decide, by decide, by decide, ?_⟩
  intro fuel
  cases fuel <;> rfl

set_option maxRecDepth 100000 in
/-- C7 (code at the failing input): `x1 := x0 + 1` is parsed into the single `plus` node
with `i = 1`, `j = 0`, `c = 1`, emitted as `x[1] = x[0] + 1;`, which computes `x1 = 6` from
`x0 = 5`; but for `x1 := x0 + 4294967297` the literal stored is 1 and the emitted statement
is again `x[1] = x[0] + 1;`. -/
theorem parseNumber_wraps_literal :
    parse baseProfile "x1 := x0 + 1".toList
        = .ok { program := plusNode 1 0 1, heighestIndex := 1 }
    ∧ writeProgramBody (plusNode 1 0 1) = .ok "\n\tx[1] = x[0] + 1;"
    ∧ exec 5 (plusNode 1 0 1) [5, 0] = some [5, 6]
    ∧ parse baseProfile "x1 := x0 + 4294967297".toList
        = .ok { program := plusNode 1 0 1, heighestIndex := 1 } := by
  refine ⟨by decide, by decide, by decide, by decide⟩

theorem subU64_of_lt (a r : Nat) (ha : a < U64) (h : r < a) :
    subU64 a r = a - r := by
  unfold subU64
  have h1 : a + U64 - r = (a - r) + U64 := by omega
  rw [h1, Nat.add_mod_right, Nat.mod_eq_of_lt (by omega)]

/-- C8: for a node with operation `minus`, `writeAssignment` prints
`x[i] = x[j] > r ? x[j] - r : 0;` (`r` the literal `c`, or `x[c]`); for every 64-bit unsigned
value `a` of `x[j]` and every value `r` of the operand the value stored is `max (a - r) 0`; the
subtraction is evaluated only when `a > r`, where it is exactly `a - r` (positive, not
wrapped), and the value is 0 otherwise. -/
theorem minus_is_saturating (program : Program) (h : program.operation = .minus)
    (a r : Nat) (ha : a < U64) :
    writeAssignment program
        = .ok (if program.treatCAsVariable then
            "x[" ++ formatD program.i ++ "] = x[" ++ formatD program.j ++ "] > x["
              ++ formatD program.c ++ "] ? x[" ++ formatD program.j ++ "] - x["
              ++ formatD program.c ++ "] : 0;"
          else
            "x[" ++ formatD program.i ++ "] = x[" ++ formatD program.j ++ "] > "
              ++ formatD program.c ++ " ? x[" ++ formatD program.j ++ "] - "
              ++ formatD program.c ++ " : 0;")
    ∧ assignmentValue program.operation a r = some (saturatingMinus a r)
    ∧ ((saturatingMinus a r : Nat) : Int) = max ((a : Int) - (r : Int)) 0
    ∧ (r < a → saturatingMinus a r = subU64 a r ∧ ((subU64 a r : Nat) : Int) = (a : Int) - r
        ∧ 0 < (a : Int) - r)
    ∧ (¬ r < a → saturatingMinus a r = 0) := by
  refine ⟨?_, ?_, ?_, ?_, ?_⟩
  · unfold writeAssignment
    rw [h]
  · rw [h]
    rfl
  · unfold saturatingMinus
    split
    · rename_i hlt
      rw [subU64_of_lt a r ha hlt]
      have : r ≤ a := Nat.le_of_lt hlt
      rw [Int.ofNat_sub this]
      omega
    · rename_i hnlt
      have : a ≤ r := Nat.le_of_not_lt hnlt
      omega
  · intro hlt
    refine ⟨by unfold saturatingMinus; rw [if_pos hlt], ?_, by omega⟩
    rw [subU64_of_lt a r ha hlt, Int.ofNat_sub (Nat.le_of_lt hlt)]
  · intro hnlt
    unfold saturatingMinus
    rw [if_neg hnlt]

/-- Witness of C8: `x1 := x0 - 7` on `x0 = 5`, operand 7. -/
theorem minus_is_saturating_witness :
    (5 : Nat) < U64
    ∧ assignmentValue Operation.minus 5 7 = some (saturatingMinus 5 7)
    ∧ ((saturatingMinus 5 7 : Nat) : Int) = max ((5 : Int) - 7) 0
    ∧ saturatingMinus 5 7 = 0 :=
  have h := minus_is_saturating
    { instructionType := .assignment, operation := .minus, treatCAsVariable := false,
      i := 1, j := 0, c := 7, innerProgram := none, nextProgram := none } rfl 5 7
    (by decide)
  ⟨by decide, h.2.1, h.2.2.1, h.2.2.2.2 (by decide)⟩

set_option maxRecDepth 100000 in
/-- C9 (counterexample): under the base profile `x0 := x0 + 1END` meets `END` at
`end_of_instruction` with an empty stack and fails with "Expected whitespace"; `END` and
`x0 := x0 + 1; END` meet it where an instruction has to begin, with an empty stack, and fail
with "Expected beginning of instruction". -/
theorem END_with_empty_stack_other_messages :
    (parseReach baseProfile (parseStart baseProfile "x0 := x0 + 1END".toList).lineReader.fuel 1
        .instruction (parseStart baseProfile "x0 := x0 + 1END".toList)).map
      (fun r => (r.1, r.2.programStack, r.2.count)) = some (.end_of_instruction, [], 0)
    ∧ failureMessage (parse baseProfile "x0 := x0 + 1END".toList) = some "Expected whitespace"
    ∧ failureMessage (parse baseProfile "END".toList)
        = some "Expected beginning of instruction"
    ∧ (parseReach baseProfile (parseStart baseProfile "x0 := x0 + 1; END".toList).lineReader.fuel
        2 .instruction (parseStart baseProfile "x0 := x0 + 1; END".toList)).map
      (fun r => (r.1, r.2.programStack)) = some (.instruction, [])
    ∧ failureMessage (parse baseProfile "x0 := x0 + 1; END".toList)
        = some "Expected beginning of instruction" := by
  refine ⟨by decide, by decide, by decide, by decide, by decide⟩

/-- C9 (amended): for every input and every profile, when the loop of `parse` meets `END`
with an empty stack, `parse` fails and returns no tree.  At `end_of_instruction` (behind a
complete instruction or a closed block), when the reader delivers `E`: without a blank
before it and without `noWhitespace` the error is "Expected whitespace"; with the blank, or
under `noWhitespace`, and `N`, `D` following, it is "Unexpected END token".  At the top of the
loop, where an instruction has to begin (start of the input, behind `;`), when `E` follows
the blanks the error is "Expected beginning of instruction". -/
theorem END_with_empty_stack_is_rejected (parserOptions : ParserOptions) (input : List Char)
    (passes : Nat) (label : Label) (state : ParserState)
    (hreach : parseReach parserOptions (parseStart parserOptions input).lineReader.fuel passes
      .instruction (parseStart parserOptions input) = some (label, state))
    (hstack : state.programStack = []) :
    (label = .end_of_instruction →
      ∀ lr1, getChar state.lineReader = .ok (some 'E', lr1) →
        (state.count = 0 ∧ parserOptions.noWhitespace = false →
          parse parserOptions input = .error (.parserError "Expected whitespace" lr1))
        ∧ (¬ (state.count = 0 ∧ parserOptions.noWhitespace = false) →
          ∀ lr2 lr3, getChar lr1 = .ok (some 'N', lr2) → consumeString lr2 "D" = .ok lr3 →
            parse parserOptions input = .error (.parserError "Unexpected END token" lr3)))
    ∧ (label = .instruction →
      ∀ count lr1 lr2,
        consumeWhitespace (parseStart parserOptions input).lineReader.fuel state.lineReader 0
          parserOptions = .ok (count, lr1) →
        getChar lr1 = .ok (some 'E', lr2) →
        parse parserOptions input
          = .error (.parserError "Expected beginning of instruction" lr2)) := by
  constructor
  · intro hlabel lr1 hE
    subst hlabel
    constructor
    · intro hblank
      exact parse_fails_of_reach parserOptions input passes _ state _ hreach
        (parseEndOfInstruction_no_blank parserOptions _ state lr1 hE hblank)
    · intro hblank lr2 lr3 hN hD
      refine parse_fails_of_reach parserOptions input passes _ state _ hreach ?_
      simp only [parseStep, parseEndOfInstruction]
      rw [hE, ok_bind]
      dsimp only
      rw [if_neg (by decide), if_pos rfl, if_neg hblank, hN, ok_bind]
      dsimp only
      rw [if_pos rfl, hD, ok_bind, hstack]
      rfl
  · intro hlabel count lr1 lr2 hblank hE
    subst hlabel
    exact parse_fails_of_reach parserOptions input passes _ state _ hreach
      (parseInstruction_no_beginning parserOptions _ state count lr1 lr2 (some 'E') hblank hE
        (by decide) (by decide) (fun h => by cases h) (fun h => by cases h))

set_option maxRecDepth 100000 in
/-- Witness of C9, base profile: `x0 := x0 + 1 END`, with the blank; `x0 := x0 + 1END`,
without it; and `END` at the start of the input. -/
theorem END_with_empty_stack_is_rejected_witness :
    unmatchedEndState.programStack = []
    ∧ parse baseProfile "x0 := x0 + 1 END".toList
      = .error (.parserError "Unexpected END token" (afterThree unmatchedEndState.lineReader))
    ∧ failureMessage (parse baseProfile "x0 := x0 + 1END".toList) = some "Expected whitespace"
    ∧ failureMessage (parse baseProfile "END".toList)
        = some "Expected beginning of instruction" :=
  ⟨by decide,
   ((END_with_empty_stack_is_rejected baseProfile "x0 := x0 + 1 END".toList 1
      .end_of_instruction unmatchedEndState (by decide) (by decide)).1 rfl
      (afterGetChar unmatchedEndState.lineReader) (by decide)).2 (by decide)
      (afterGetChar (afterGetChar unmatchedEndState.lineReader))
      (afterThree unmatchedEndState.lineReader) (by decide) (by decide),
   congrArg failureMessage
     (((END_with_empty_stack_is_rejected baseProfile "x0 := x0 + 1END".toList 1
        .end_of_instruction (stateAfter baseProfile "x0 := x0 + 1END".toList 1) (by decide)
        (by decide)).1 rfl
        (afterGetChar (stateAfter baseProfile "x0 := x0 + 1END".toList 1).lineReader)
        (by decide)).1 (by decide)),
   congrArg failureMessage
     ((END_with_empty_stack_is_rejected baseProfile "END".toList 0 .instruction
        (parseStart baseProfile "END".toList) rfl rfl).2 rfl
        (afterBlanks (parseStart baseProfile "END".toList).lineReader.fuel
          (parseStart baseProfile "END".toList).lineReader baseProfile).1
        (afterBlanks (parseStart baseProfile "END".toList).lineReader.fuel
          (parseStart baseProfile "END".toList).lineReader baseProfile).2
        (afterGetChar (afterBlanks (parseStart baseProfile "END".toList).lineReader.fuel
          (parseStart baseProfile "END".toList).lineReader baseProfile).2)
        (by decide) (by decide))⟩

set_option maxRecDepth 100000 in
/-- C10 (code at the failing input): under the base profile `LOOP x1 DO x0 := x0 + 1` fails
with "Unexpected end of file"; `LOOP x1 DO x0 := x0 + 1 E` also ends while the `LOOP` block is
open (after two passes the stack holds the loop node) and fails with "Expected 'N'". -/
theorem end_of_input_inside_END_message :
    failureMessage (parse baseProfile "LOOP x1 DO x0 := x0 + 1".toList)
      = some "Unexpected end of file"
    ∧ (parseReach baseProfile
          (parseStart baseProfile "LOOP x1 DO x0 := x0 + 1 E".toList).lineReader.fuel 2
          .instruction (parseStart baseProfile "LOOP x1 DO x0 := x0 + 1 E".toList)).map
        (fun r => (r.1, r.2.programStack)) = some (.end_of_instruction, [0])
    ∧ failureMessage (parse baseProfile "LOOP x1 DO x0 := x0 + 1 E".toList)
      = some "Expected 'N'" := by
  refine ⟨by decide, by decide, by decide⟩

/-- C11 (counterexample): with `extensionIfExtended` not set, `parse` fails on
`LOOP x1 DO x0 := x0 + 1 ELSE x0 := x0 + 1 END` with "Expected 'N'", a message that does not
name the `ELSE`; so under the base profile and under the profile with `extensionIf` alone. -/
theorem ELSE_in_LOOP_without_extended_if :
    failureMessage (parse baseProfile "LOOP x1 DO x0 := x0 + 1 ELSE x0 := x0 + 1 END".toList)
      = some "Expected 'N'"
    ∧ failureMessage (parse ifProfile "LOOP x1 DO x0 := x0 + 1 ELSE x0 := x0 + 1 END".toList)
      = some "Expected 'N'" := by
  refine ⟨by decide, by decide⟩

/-- C11 (amended): for every input and every profile, when the loop of `parse` meets `ELSE`
while the innermost open block is a `loopInstruction` node, `parse` fails and returns no
tree.  At `end_of_instruction` (behind a complete instruction or a closed block), when the
reader delivers `E`: without a blank before it and without `noWhitespace` the error is
"Expected whitespace"; with the blank, or under `noWhitespace`, and `L` following, the error
is "Expected 'N'" at the `L` when `extensionIfExtended` is not set, and "Unexpected ELSE
token" when it is set and `S`, `E` follow.  At the top of the loop, where an instruction has
to begin (behind the header of the loop, behind `;`), when `E` follows the blanks the error
is "Expected beginning of instruction". -/
theorem ELSE_in_LOOP_is_rejected (parserOptions : ParserOptions) (input : List Char)
    (passes : Nat) (label : Label) (state : ParserState) (top : Nat) (rest : List Nat)
    (hreach : parseReach parserOptions (parseStart parserOptions input).lineReader.fuel passes
      .instruction (parseStart parserOptions input) = some (label, state))
    (hstack : state.programStack = top :: rest)
    (hloop : (state.heap.getD top Program.zero).instructionType = .loopInstruction) :
    (label = .end_of_instruction →
      ∀ lr1, getChar state.lineReader = .ok (some 'E', lr1) →
        (state.count = 0 ∧ parserOptions.noWhitespace = false →
          parse parserOptions input = .error (.parserError "Expected whitespace" lr1))
        ∧ (¬ (state.count = 0 ∧ parserOptions.noWhitespace = false) →
          ∀ lr2, getChar lr1 = .ok (some 'L', lr2) →
            (parserOptions.extensionIfExtended = false →
              parse parserOptions input = .error (.parserError "Expected 'N'" lr2))
            ∧ (parserOptions.extensionIfExtended = true →
              ∀ lr3, consumeString lr2 "SE" = .ok lr3 →
                parse parserOptions input
                  = .error (.parserError "Unexpected ELSE token" lr3))))
    ∧ (label = .instruction →
      ∀ count lr1 lr2,
        consumeWhitespace (parseStart parserOptions input).lineReader.fuel state.lineReader 0
          parserOptions = .ok (count, lr1) →
        getChar lr1 = .ok (some 'E', lr2) →
        parse parserOptions input
          = .error (.parserError "Expected beginning of instruction" lr2)) := by
  constructor
  · intro hlabel lr1 hE
    subst hlabel
    constructor
    · intro hblank
      exact parse_fails_of_reach parserOptions input passes _ state _ hreach
        (parseEndOfInstruction_no_blank parserOptions _ state lr1 hE hblank)
    · intro hblank lr2 hL
      have hstep : parseStep parserOptions (parseStart parserOptions input).lineReader.fuel
          .end_of_instruction state
          = (if parserOptions.extensionIfExtended = true then
              (do
                let lineReader ← consumeString lr2 "SE"
                match pop state.programStack with
                | (none, _) => .error .nullDereference
                | (some program, programStack) =>
                  if (state.heap.getD program Program.zero).instructionType
                      ≠ .ifInstructionStart then
                    parserError lineReader "Unexpected ELSE token"
                  else do
                    let (_, lineReader) ← consumeWhitespace
                      (parseStart parserOptions input).lineReader.fuel lineReader 1
                      parserOptions
                    pure (Control.goOn Label.instruction
                      (openElse state program programStack lineReader)))
             else parserError lr2 "Expected 'N'" : Except Failure Control) := by
        simp only [parseStep, parseEndOfInstruction]
        rw [hE, ok_bind]
        dsimp only
        rw [if_neg (by decide), if_pos rfl, if_neg hblank, hL, ok_bind]
        dsimp only
        rw [if_neg (by decide)]
        cases parserOptions.extensionIfExtended <;> rfl
      constructor
      · intro hext
        refine parse_fails_of_reach parserOptions input passes _ state _ hreach ?_
        rw [hstep, hext]
        rfl
      · intro hext lr3 hSE
        refine parse_fails_of_reach parserOptions input passes _ state _ hreach ?_
        rw [hstep, if_pos hext, hSE, ok_bind, hstack]
        simp only [pop]
        rw [if_pos (by rw [hloop]; decide)]
        rfl
  · intro hlabel count lr1 lr2 hblank hE
    subst hlabel
    exact parse_fails_of_reach parserOptions input passes _ state _ hreach
      (parseInstruction_no_beginning parserOptions _ state count lr1 lr2 (some 'E') hblank hE
        (by decide) (by decide) (fun h => by cases h) (fun h => by cases h))

set_option maxRecDepth 100000 in
/-- Witness of C11: `LOOP x1 DO x0 := x0 + 1 ELSE x0 := x0 + 1 END` with
`extensionIfExtended` set and under the base profile; the same input without the blank before
`ELSE`; and `LOOP x1 DO ELSE x0 := x0 + 1 END`.  In each the stack holds the loop node when
the `ELSE` is met. -/
theorem ELSE_in_LOOP_is_rejected_witness :
    (stateAfter ifExtendedProfile elseInLoopInput 2).programStack = [0]
    ∧ parse ifExtendedProfile elseInLoopInput
      = .error (.parserError "Unexpected ELSE token"
          (afterGetChar (afterThree (stateAfter ifExtendedProfile elseInLoopInput
            2).lineReader)))
    ∧ failureMessage (parse baseProfile elseInLoopInput) = some "Expected 'N'"
    ∧ failureMessage (parse ifExtendedProfile elseInLoopNoBlankInput)
        = some "Expected whitespace"
    ∧ failureMessage (parse ifExtendedProfile elseAfterHeaderInput)
        = some "Expected beginning of instruction" :=
  ⟨by decide,
   (((ELSE_in_LOOP_is_rejected ifExtendedProfile elseInLoopInput 2 .end_of_instruction
      (stateAfter ifExtendedProfile elseInLoopInput 2) 0 [] (by decide) (by decide)
      (by decide)).1 rfl
      (afterGetChar (stateAfter ifExtendedProfile elseInLoopInput 2).lineReader)
      (by decide)).2 (by decide)
      (afterGetChar (afterGetChar (stateAfter ifExtendedProfile elseInLoopInput
        2).lineReader)) (by decide)).2 rfl
      (afterGetChar (afterThree (stateAfter ifExtendedProfile elseInLoopInput 2).lineReader))
      (by decide),
   congrArg failureMessage
     ((((ELSE_in_LOOP_is_rejected baseProfile elseInLoopInput 2 .end_of_instruction
        (stateAfter baseProfile elseInLoopInput 2) 0 [] (by decide) (by decide)
        (by decide)).1 rfl
        (afterGetChar (stateAfter baseProfile elseInLoopInput 2).lineReader)
        (by decide)).2 (by decide)
        (afterGetChar (afterGetChar (stateAfter baseProfile elseInLoopInput 2).lineReader))
        (by decide)).1 rfl),
   congrArg failureMessage
     (((ELSE_in_LOOP_is_rejected ifExtendedProfile elseInLoopNoBlankInput 2
        .end_of_instruction (stateAfter ifExtendedProfile elseInLoopNoBlankInput 2) 0 []
        (by decide) (by decide) (by decide)).1 rfl
        (afterGetChar (stateAfter ifExtendedProfile elseInLoopNoBlankInput 2).lineReader)
        (by decide)).1 (by decide)),
   congrArg failureMessage
     ((ELSE_in_LOOP_is_rejected ifExtendedProfile elseAfterHeaderInput 1 .instruction
        (stateAfter ifExtendedProfile elseAfterHeaderInput 1) 0 [] (by decide) (by decide)
        (by decide)).2 rfl
        (afterBlanks (parseStart ifExtendedProfile elseAfterHeaderInput).lineReader.fuel
          (stateAfter ifExtendedProfile elseAfterHeaderInput 1).lineReader
          ifExtendedProfile).1
        (afterBlanks (parseStart ifExtendedProfile elseAfterHeaderInput).lineReader.fuel
          (stateAfter ifExtendedProfile elseAfterHeaderInput 1).lineReader
          ifExtendedProfile).2
        (afterGetChar (afterBlanks
          (parseStart ifExtendedProfile elseAfterHeaderInput).lineReader.fuel
          (stateAfter ifExtendedProfile elseAfterHeaderInput 1).lineReader
          ifExtendedProfile).2)
        (by decide) (by decide))⟩

/-- C12 (code at the failing inputs): under `extensionIfExtended`, for every input, when the
loop of `parse` is at `end_of_instruction` with an empty stack and the reader delivers `E`
(with the blank before it, or under `noWhitespace`), `L`, `S`, `E`, then `pop` returns `NULL`
and `parse` reads `program->instructionType` through it: no "Unexpected ELSE token" is
reported. -/
theorem ELSE_with_empty_stack_dereferences_NULL (parserOptions : ParserOptions)
    (input : List Char) (passes : Nat) (state : ParserState) (lr1 lr2 lr3 : LineReader)
    (hextended : parserOptions.extensionIfExtended = true)
    (hreach : parseReach parserOptions (parseStart parserOptions input).lineReader.fuel passes
      .instruction (parseStart parserOptions input) = some (.end_of_instruction, state))
    (hstack : state.programStack = [])
    (hE : getChar state.lineReader = .ok (some 'E', lr1))
    (hblank : ¬ (state.count = 0 ∧ parserOptions.noWhitespace = false))
    (hL : getChar lr1 = .ok (some 'L', lr2))
    (hSE : consumeString lr2 "SE" = .ok lr3) :
    parse parserOptions input = .error .nullDereference := by
  refine parse_fails_of_reach parserOptions input passes _ state _ hreach ?_
  simp only [parseStep, parseEndOfInstruction]
  rw [hE, ok_bind]
  dsimp only
  rw [if_neg (by decide), if_pos rfl, if_neg hblank, hL, ok_bind]
  dsimp only
  rw [if_neg (by decide), if_pos hextended, if_pos rfl, hSE, ok_bind, hstack]
  rfl

set_option maxRecDepth 100000 in
/-- Witness of C12: `x0 := x0 + 1 ELSE x0 := x0 + 1 END` under the profile with `extensionIf`
and `extensionIfExtended`; after one pass the stack is empty. -/
theorem ELSE_with_empty_stack_dereferences_NULL_witness :
    (stateAfter ifExtendedProfile "x0 := x0 + 1 ELSE x0 := x0 + 1 END".toList 1).programStack
      = []
    ∧ parse ifExtendedProfile "x0 := x0 + 1 ELSE x0 := x0 + 1 END".toList
      = .error .nullDereference :=
  ⟨by decide,
   ELSE_with_empty_stack_dereferences_NULL ifExtendedProfile
     "x0 := x0 + 1 ELSE x0 := x0 + 1 END".toList 1
     (stateAfter ifExtendedProfile "x0 := x0 + 1 ELSE x0 := x0 + 1 END".toList 1)
     (afterGetChar (stateAfter ifExtendedProfile
        "x0 := x0 + 1 ELSE x0 := x0 + 1 END".toList 1).lineReader)
     (afterGetChar (afterGetChar (stateAfter ifExtendedProfile
        "x0 := x0 + 1 ELSE x0 := x0 + 1 END".toList 1).lineReader))
     (afterGetChar (afterGetChar (afterGetChar (afterGetChar (stateAfter ifExtendedProfile
        "x0 := x0 + 1 ELSE x0 := x0 + 1 END".toList 1).lineReader))))
     rfl (by decide) (by decide) (by decide) (by decide) (by decide) (by decide)⟩

/-- C13: when the loop of `parse` is at `end_of_instruction` with two blocks open (`inner`
on top of `outer`), a blank before the position, and the reader delivers `END`, at least one
blank, and `END` again, then the next two passes succeed and pop exactly these two entries:
`program` points to `outer` and the stack is what was below it.  When `;` follows, the third
pass allocates a fresh node, makes it the `nextProgram` of `outer`, and the next instruction
is parsed into it.  (The blanks are what the default whitespace rule asks for; under
`noWhitespace` they are accepted as well.) -/
theorem END_END_closes_two_blocks (parserOptions : ParserOptions) (fuel : Nat)
    (state : ParserState) (inner outer : Nat) (rest : List Nat)
    (lr1 lr2 lr3 lr4 lr5 lr6 lr7 lr8 : LineReader) (count1 count2 : Nat)
    (hstack : state.programStack = inner :: outer :: rest)
    (houter : outer < state.heap.length)
    (hcount : 0 < state.count)
    (hE1 : getChar state.lineReader = .ok (some 'E', lr1))
    (hN1 : getChar lr1 = .ok (some 'N', lr2))
    (hD1 : consumeString lr2 "D" = .ok lr3)
    (hW1 : consumeWhitespace fuel lr3 0 parserOptions = .ok (count1, lr4))
    (hsep : 0 < count1)
    (hE2 : getChar lr4 = .ok (some 'E', lr5))
    (hN2 : getChar lr5 = .ok (some 'N', lr6))
    (hD2 : consumeString lr6 "D" = .ok lr7)
    (hW2 : consumeWhitespace fuel lr7 0 parserOptions = .ok (count2, lr8)) :
    parseReach parserOptions fuel 2 .end_of_instruction state
        = some (.end_of_instruction,
            { state with program := outer, programStack := rest, lineReader := lr8,
                         count := count2 })
      ∧ ∀ lr9, getChar lr8 = .ok (some ';', lr9) →
          ∃ next, parseReach parserOptions fuel 3 .end_of_instruction state
              = some (.instruction, next)
            ∧ next.programStack = rest
            ∧ (next.heap.getD outer Program.zero).nextProgram = some next.program
            ∧ next.heap.getD next.program Program.zero = Program.zero := by
  have hstep1 : parseStep parserOptions fuel .end_of_instruction state
      = .ok (.goOn .end_of_instruction
          { state with program := inner, programStack := outer :: rest, lineReader := lr4,
                       count := count1 }) := by
    simp only [parseStep, parseEndOfInstruction]
    rw [hE1, ok_bind]
    dsimp only
    rw [if_neg (by decide), if_pos rfl, if_neg (by omega), hN1, ok_bind]
    dsimp only
    rw [if_pos rfl, hD1, ok_bind, hstack]
    simp only [pop]
    rw [hW1, ok_bind]
    rfl
  have hstep2 : parseStep parserOptions fuel .end_of_instruction
        { state with program := inner, programStack := outer :: rest, lineReader := lr4,
                     count := count1 }
      = .ok (.goOn .end_of_instruction
          { state with program := outer, programStack := rest, lineReader := lr8,
                       count := count2 }) := by
    simp only [parseStep, parseEndOfInstruction]
    rw [hE2, ok_bind]
    dsimp only
    rw [if_neg (by decide), if_pos rfl, if_neg (by omega), hN2, ok_bind]
    dsimp only
    rw [if_pos rfl, hD2, ok_bind]
    simp only [pop]
    rw [hW2, ok_bind]
    rfl
  have hreach2 : parseReach parserOptions fuel 2 .end_of_instruction state
      = some (.end_of_instruction,
          { state with program := outer, programStack := rest, lineReader := lr8,
                       count := count2 }) := by
    simp only [parseReach, hstep1, hstep2]
  refine ⟨hreach2, fun lr9 h9 => ?_⟩
  have hstep3 : parseStep parserOptions fuel .end_of_instruction
        { state with program := outer, programStack := rest, lineReader := lr8,
                     count := count2 }
      = .ok (.goOn .instruction (nextInstruction
          { state with program := outer, programStack := rest, lineReader := lr8,
                       count := count2 } lr9)) := by
    simp only [parseStep, parseEndOfInstruction]
    rw [h9, ok_bind]
    dsimp only
    rw [if_pos rfl]
    rfl
  refine ⟨nextInstruction
      { state with program := outer, programStack := rest, lineReader := lr8,
                   count := count2 } lr9,
    by simp only [parseReach, hstep1, hstep2, hstep3], rfl, ?_, ?_⟩
  · simp only [nextInstruction, List.getD_eq_getElem?_getD]
    rw [List.getElem?_append_left (by simpa using houter), List.getElem?_set_self houter]
    rfl
  · simp [nextInstruction, List.getD_eq_getElem?_getD, List.getElem?_append_right]

set_option maxRecDepth 100000 in
/-- Witness of C13: `LOOP x1 DO LOOP x2 DO x0 := x0 + 1 END END; x3 := x3 + 1` under the base
profile.  After three passes both loops are open (stack `[1, 0]`); the two following passes
leave `program` at node 0, the outer loop, with an empty stack; the input is accepted and
the assignment to `x3` is the `nextProgram` of the outer loop. -/
theorem END_END_closes_two_blocks_witness :
    nestedLoopsState.programStack = [1, 0]
    ∧ (parseReach baseProfile (parseStart baseProfile nestedLoopsInput).lineReader.fuel 2
          .end_of_instruction nestedLoopsState).map
        (fun r => (r.1, r.2.program, r.2.programStack)) = some (.end_of_instruction, 0, [])
    ∧ parse baseProfile nestedLoopsInput
        = .ok { program := nestedLoopsTree, heighestIndex := 3 } :=
  ⟨by decide,
   congrArg (Option.map (fun r => (r.1, r.2.program, r.2.programStack)))
     (END_END_closes_two_blocks baseProfile
       (parseStart baseProfile nestedLoopsInput).lineReader.fuel nestedLoopsState 1 0 []
       (afterGetChar nestedLoopsState.lineReader)
       (afterGetChar (afterGetChar nestedLoopsState.lineReader))
       (afterThree nestedLoopsState.lineReader)
       (afterBlanks (parseStart baseProfile nestedLoopsInput).lineReader.fuel
         (afterThree nestedLoopsState.lineReader) baseProfile).2
       (afterGetChar (afterBlanks (parseStart baseProfile nestedLoopsInput).lineReader.fuel
         (afterThree nestedLoopsState.lineReader) baseProfile).2)
       (afterGetChar (afterGetChar (afterBlanks
         (parseStart baseProfile nestedLoopsInput).lineReader.fuel
         (afterThree nestedLoopsState.lineReader) baseProfile).2))
       (afterThree (afterBlanks (parseStart baseProfile nestedLoopsInput).lineReader.fuel
         (afterThree nestedLoopsState.lineReader) baseProfile).2)
       (afterBlanks (parseStart baseProfile nestedLoopsInput).lineReader.fuel
         (afterThree (afterBlanks (parseStart baseProfile nestedLoopsInput).lineReader.fuel
           (afterThree nestedLoopsState.lineReader) baseProfile).2) baseProfile).2
       1 0 (by decide) (by decide) (by decide) (by decide) (by decide) (by decide)
       (by decide) (by decide) (by decide) (by decide) (by decide) (by decide)).1,
   by decide⟩

set_option maxRecDepth 100000 in
/-- C14 (counterexample): on `x1 : = 0` `parse` fails with the message "Expected '='"; the
literal `:=` does not occur in it. -/
theorem colon_blank_equals_message :
    failureMessage (parse baseProfile "x1 : = 0".toList) = some "Expected '='"
    ∧ ¬ (":=".toList <:+: "Expected '='".toList) := by
  refine ⟨by decide, by decide⟩

set_option maxRecDepth 100000 in
set_option maxHeartbeats 4000000 in
/-- C14 (amended): under every profile `parse` fails on `x1 : = 0` in `consumeString` with
the message "Expected '='", which names the expected character of the literal, and the
diagnostic reports line 1, column 5: the offset, counted from 1, of the blank after `:`. -/
theorem colon_blank_equals_rejected (parserOptions : ParserOptions) :
    failureMessage (parse parserOptions "x1 : = 0".toList) = some "Expected '='"
    ∧ (failureReader (parse parserOptions "x1 : = 0".toList)).map
        (fun lineReader => (lineReader.line, column lineReader)) = some (1, 5) := by
  constructor
  · rfl
  · rfl

/-- C15: a header `WHILE x<i> <rel> <operand> DO ` (single blanks; `<rel>` one of the six
relations, `<operand>` a literal `<k>` or a variable `x<k>`; `i`, `k` digit strings) at any
position of a file without NUL bytes, read by the loop of `parse` into a fresh node under
`extensionWhile`.  With `extensionWhileExtended` not set the pass succeeds if and only if
`<rel>` is `!=` and `<operand>` is the literal `0`.  With it set (and in the one case it is
not needed) the pass succeeds and opens a block with a `whileInstruction` node whose
`operation` is the relation and whose `treatCAsVariable` tells whether the operand was
`x<k>`. -/
theorem while_header_relations (o : ParserOptions) (input : List Char) (putBack : List Bool)
    (state : ParserState) (i k rest : List Char) (operation : Operation) (isVariable : Bool)
    (hW : o.extensionWhile = true)
    (hnul : ∀ c ∈ input, c ≠ NUL)
    (hread : getChars putBack (newLineReader o.inputFileName input LINE_BUF_SIZE)
      = .ok state.lineReader)
    (hheader : input.drop (putBack.count false)
      = "WHILE x".toList ++ i ++ " ".toList ++ relationToken operation ++ " ".toList
          ++ operandToken isVariable k ++ " DO ".toList ++ rest)
    (hfresh : state.heap.getD state.program Program.zero = Program.zero)
    (hi : i ≠ [] ∧ ∀ d ∈ i, isDigit (some d) = true)
    (hk : k ≠ [] ∧ ∀ d ∈ k, isDigit (some d) = true)
    (hop : operation.isRelation = true)
    (hrest : isWhitespace rest.head? = false) :
    (o.extensionWhileExtended = false →
      ((∃ r, parseInstruction o (parseStart o input).lineReader.fuel state = .ok r)
        ↔ operation = .notEqual ∧ isVariable = false ∧ k = ['0']))
    ∧ (o.extensionWhileExtended = true
          ∨ (operation = .notEqual ∧ isVariable = false ∧ k = ['0']) →
        ∃ lr, parseInstruction o (parseStart o input).lineReader.fuel state
          = .ok (.goOn .instruction (openBlock state
              { Program.zero with
                instructionType := .whileInstruction, operation := operation,
                i := toUInt64 (digitsValue i 0),
                treatCAsVariable := o.extensionWhileExtended && isVariable,
                c := if o.extensionWhileExtended = true then toUInt64 (digitsValue k 0)
                     else 0 } lr))) := by
  have hlen : (input.drop (putBack.count false)).length ≤ input.length := by
    rw [List.length_drop]
    omega
  have hcount : putBack.count false ≤ input.length := by
    by_contra hgt
    rw [List.drop_eq_nil_of_le (by omega)] at hheader
    have := congrArg List.length hheader
    simp at this
  have hfuel : i.length + k.length + 2 ≤ (parseStart o input).lineReader.fuel := by
    rw [hheader] at hlen
    simp only [List.length_append] at hlen
    have hkl : k.length ≤ (operandToken isVariable k).length := by
      unfold operandToken
      split
      · simp
      · exact Nat.le_refl _
    simp only [parseStart, newLineReader, LineReader.fuel, LINE_BUF_SIZE]
    omega
  have hP := getChars_pending o.inputFileName input LINE_BUF_SIZE (by decide) hnul putBack
    state.lineReader hcount hread
  rw [hheader] at hP
  have hnorm : "WHILE x".toList ++ i ++ " ".toList ++ relationToken operation ++ " ".toList
        ++ operandToken isVariable k ++ " DO ".toList ++ rest
      = 'W' :: 'H' :: 'I' :: 'L' :: 'E' :: ' ' :: 'x' :: (i ++ ' ' :: (relationToken operation
          ++ ' ' :: (operandToken isVariable k ++ ' ' :: 'D' :: 'O' :: ' ' :: rest))) := by
    have h1 : "WHILE x".toList = ['W', 'H', 'I', 'L', 'E', ' ', 'x'] := rfl
    have h2 : " ".toList = [' '] := rfl
    have h3 : " DO ".toList = [' ', 'D', 'O', ' '] := rfl
    rw [h1, h2, h3]
    simp only [List.append_assoc, List.cons_append, List.nil_append]
  rw [hnorm] at hP
  obtain ⟨lr2, p2, hPI⟩ := parseInstruction_pending_while o
    (parseStart o input).lineReader.fuel state _ hW (by omega) hP
  rw [hPI, hfresh]
  have hacc : o.extensionWhileExtended = true
      ∨ (operation = .notEqual ∧ isVariable = false ∧ k = ['0']) →
      ∃ lr, (match parseWhile (parseStart o input).lineReader.fuel Program.zero lr2 o with
            | .error e => Except.error e
            | .ok (p, lr3) =>
              (Except.ok (Control.goOn Label.instruction (openBlock state p lr3))
                : Except Failure Control))
        = .ok (.goOn .instruction (openBlock state
              { Program.zero with
                instructionType := .whileInstruction, operation := operation,
                i := toUInt64 (digitsValue i 0),
                treatCAsVariable := o.extensionWhileExtended && isVariable,
                c := if o.extensionWhileExtended = true then toUInt64 (digitsValue k 0)
                     else 0 } lr)) := by
    intro h
    obtain ⟨lr3, h3, _⟩ := parseWhile_accepts _ Program.zero lr2 o i operation isVariable k rest
      hi.2 hi.1 hop hk.2 hk.1 hrest hfuel p2 h
    refine ⟨lr3, ?_⟩
    rw [h3]
    simp [Program.zero]
  refine ⟨fun hext => ⟨fun hok => ?_, fun h => ?_⟩, hacc⟩
  · obtain ⟨r, hr⟩ := hok
    by_contra hno
    by_cases hne : operation = .notEqual
    · subst hne
      obtain ⟨e, he⟩ := parseWhile_rejects_operand (parseStart o input).lineReader.fuel
        Program.zero lr2 o i isVariable k rest
        hi.2 hi.1 hk.2 hk.1 (by omega) p2 hext (fun h => hno ⟨rfl, h⟩)
      rw [he] at hr
      cases hr
    · obtain ⟨e, he⟩ := parseWhile_rejects_relation (parseStart o input).lineReader.fuel
        Program.zero lr2 o i operation _
        hi.2 hi.1 hop (by omega) p2 hext hne
      rw [he] at hr
      cases hr
  · obtain ⟨lr, hlr⟩ := hacc (Or.inr h)
    exact ⟨_, hlr⟩

set_option maxRecDepth 100000 in
/-- Witness of C15: `WHILE x1 >= x2 DO x1 := x1 - 1 END` at the start of a file, under the
profile with `extensionWhile` and `extensionWhileExtended`. -/
theorem while_header_relations_witness :
    ∃ lr, parseInstruction whileExtendedProfile
        (parseStart whileExtendedProfile
          "WHILE x1 >= x2 DO x1 := x1 - 1 END".toList).lineReader.fuel
        (parseStart whileExtendedProfile "WHILE x1 >= x2 DO x1 := x1 - 1 END".toList)
      = .ok (.goOn .instruction (openBlock
          (parseStart whileExtendedProfile "WHILE x1 >= x2 DO x1 := x1 - 1 END".toList)
          { Program.zero with
            instructionType := .whileInstruction, operation := .greaterEqual, i := 1,
            treatCAsVariable := true, c := 2 } lr)) :=
  (while_header_relations whileExtendedProfile "WHILE x1 >= x2 DO x1 := x1 - 1 END".toList []
    (parseStart whileExtendedProfile "WHILE x1 >= x2 DO x1 := x1 - 1 END".toList)
    ['1'] ['2'] "x1 := x1 - 1 END".toList .greaterEqual true rfl (by decide) rfl rfl rfl
    ⟨by decide, by decide⟩ ⟨by decide, by decide⟩ rfl (by decide)).2 (Or.inl rfl)

set_option maxRecDepth 100000 in
/-- C16 (code at the failing input): on `x0 := x0 + 2147483648` (base profile) `parseNumber`
overflows its `int`; with the wrap of the usual targets the node stores
`c = 18446744071562067968` (`-2147483648` converted to `uint64_t`), not 2147483648, and the
emitter prints `-2147483648`. -/
theorem parseNumber_overflows_int :
    parse baseProfile "x0 := x0 + 2147483648".toList
        = .ok { program := plusNode 0 0 18446744071562067968, heighestIndex := 0 }
    ∧ writeProgramBody (plusNode 0 0 18446744071562067968)
        = .ok "\n\tx[0] = x[0] + -2147483648;" := by
  refine ⟨by decide, by decide⟩

/-- C17: in every tree `parse` returns, under any profile, each `ifInstructionEnd` node is
the `nextProgram` of an `ifInstructionStart` node and has an `innerProgram` that is not
`NULL`; none is the root of the tree, the `innerProgram` of a node, or the `nextProgram` of
a node of another type (`Tree.elsePlaced`). -/
theorem else_node_follows_if_start (parserOptions : ParserOptions) (input : List Char)
    (parsed : Parsed) (h : parse parserOptions input = .ok parsed) :
    parsed.program.elsePlaced false
      ∧ ∀ program innerProgram nextProgram,
          parsed.program = .node program innerProgram nextProgram →
            program.instructionType ≠ .ifInstructionEnd := by
  have hplaced := parse_placed parserOptions input parsed h
  refine ⟨hplaced, fun program innerProgram nextProgram heq htype => ?_⟩
  rw [heq] at hplaced
  have := (hplaced.1 htype).1
  cases this

set_option maxRecDepth 100000 in
/-- Witness of C17: `IF x1 = 0 THEN x0 := 1 ELSE x0 := 2 END` under the profile with
`extensionIf`, `extensionIfExtended` and `extensionAssignment`. -/
theorem else_node_follows_if_start_witness :
    parse ifExtendedAssignmentProfile "IF x1 = 0 THEN x0 := 1 ELSE x0 := 2 END".toList
        = .ok { program := ifElseTree, heighestIndex := 0 }
    ∧ ifElseTree.elsePlaced false :=
  ⟨by decide,
   (else_node_follows_if_start ifExtendedAssignmentProfile
     "IF x1 = 0 THEN x0 := 1 ELSE x0 := 2 END".toList
     { program := ifElseTree, heighestIndex := 0 } (by decide)).1⟩

/-- C18: for every file without NUL bytes and every buffer size of 2 or more (`parse` uses
`LINE_BUF_SIZE`), after any calls of `getChar` on a fresh reader, each possibly followed by
`lineReader->position--`, that leave the reader in front of the character `c` at offset
`putBack.count false` of the file: the next `getChar` returns `c`, and right after it `line`
is the logical line of `c` and `segment * (size - 1) + position`, the column `parserError`
prints, is the offset of `c` within that line, both counted from 1. -/
theorem getChar_reports_line_and_column (inputFileName : String) (input : List Char)
    (size : Nat) (hsize : 2 ≤ size) (hnul : ∀ c ∈ input, c ≠ NUL) (putBack : List Bool)
    (c : Char) (hc : input[putBack.count false]? = some c) :
    ∃ lr0 lr, getChars putBack (newLineReader inputFileName input size) = .ok lr0
      ∧ getChar lr0 = .ok (some c, lr)
      ∧ lr.line = lineOf (input.take (putBack.count false))
      ∧ column lr = columnOf (input.take (putBack.count false)) := by
  have hlt : putBack.count false < input.length := by
    by_contra hge
    rw [List.getElem?_eq_none (by omega)] at hc
    cases hc
  obtain ⟨lr0, h1, h2⟩ := getChars_at input putBack _ 0
    (newLineReader_at inputFileName input size hsize hnul) (by omega)
  rw [Nat.zero_add] at h2
  have hd : input.drop (putBack.count false)
      = c :: input.drop (putBack.count false + 1) := by
    rw [List.drop_eq_getElem_cons hlt]
    congr 1
    rw [List.getElem?_eq_getElem hlt] at hc
    exact Option.some.inj hc
  obtain ⟨lr, h3, h4, h5⟩ := getChar_at input _ lr0 c _ h2 hd
  exact ⟨lr0, lr, h1, h3, at_line_column input _ lr h4 h5⟩

set_option maxRecDepth 100000 in
/-- Witness of C18: the question mark that ends the second line of `twoLines`, 300
characters long, read with `LINE_BUF_SIZE`: line 2, column 300. -/
theorem getChar_reports_line_and_column_witness :
    ∃ lr0 lr, getChars (List.replicate 313 false)
        (newLineReader "program.loop" twoLines LINE_BUF_SIZE) = .ok lr0
      ∧ getChar lr0 = .ok (some '?', lr)
      ∧ lr.line = 2
      ∧ column lr = 300 :=
  getChar_reports_line_and_column "program.loop" twoLines LINE_BUF_SIZE (by decide) (by decide)
    (List.replicate 313 false) '?' (by decide)

set_option maxRecDepth 100000 in
/-- C19 (counterexample): on `longLine` (base profile) `parse` fails at the question mark, in
the second chunk of the line (`segment = 1`, `position = 45`); the header names column 300
and the caret is preceded by 44 blanks, not by 299. -/
theorem caret_in_second_segment :
    failureMessage (parse baseProfile longLine) = some "Expected beginning of instruction"
    ∧ (failureReader (parse baseProfile longLine)).map
        (fun lineReader => (lineReader.segment, lineReader.position, column lineReader,
          caretLine lineReader))
      = some (1, 45, 300, String.mk (List.replicate 44 ' ') ++ "^")
    ∧ (failureReader (parse baseProfile longLine)).map
        (fun lineReader => parserErrorText lineReader "Expected beginning of instruction")
      = some ("program.loop:1:300: error: Expected beginning of instruction\n"
          ++ String.mk (List.replicate 44 ' ') ++ "?\n"
          ++ String.mk (List.replicate 44 ' ') ++ "^") := by
  refine ⟨by decide, by decide, by decide⟩

/-- C19 (amended): for every reader state the caret is preceded by exactly `position - 1`
blanks, that is `<col> - 1 - segment * (size - 1)`; where the buffer has size 3 or more
(`parse` uses `LINE_BUF_SIZE`) this is `<col> - 1`, the caret in column `<col>` of the header,
if and only if `segment = 0`.  For every file without NUL bytes, every buffer size of 2 or
more and any calls of `getChar`, each possibly followed by `lineReader->position--`, when the
next `getChar` returns the character `c` and `parserError` is called with the reader it
leaves: `<col>` is the column of `c` in its logical line, `c` (a tab, carriage return or
newline as a blank) stands in the printed chunk at the offset of the caret, `segment = 0`
holds exactly when that column is at most `size - 1`, and exactly then the caret is in column
`<col>`. -/
theorem caret_stands_under_character_read (inputFileName : String) (input : List Char)
    (size : Nat) (hsize : 2 ≤ size) (hnul : ∀ c ∈ input, c ≠ NUL) (putBack : List Bool)
    (c : Char) (hc : input[putBack.count false]? = some c) :
    (∀ lineReader : LineReader,
        caretLine lineReader
            = String.mk (List.replicate
                (column lineReader - 1 - lineReader.segment * (lineReader.size - 1)) ' ') ++ "^"
        ∧ (3 ≤ lineReader.size →
            (caretLine lineReader
                = String.mk (List.replicate (column lineReader - 1) ' ') ++ "^"
              ↔ lineReader.segment = 0)))
    ∧ ∃ lr0 lr, getChars putBack (newLineReader inputFileName input size) = .ok lr0
        ∧ getChar lr0 = .ok (some c, lr)
        ∧ lr.size = size
        ∧ column lr = columnOf (input.take (putBack.count false))
        ∧ (caretLine lr).data[column lr - 1 - lr.segment * (size - 1)]? = some '^'
        ∧ (formatS (changeWhitespaceToSpaces lr.buf)).data[
              column lr - 1 - lr.segment * (size - 1)]?
            = some (if c = Char.ofNat 9 ∨ c = Char.ofNat 13 ∨ c = Char.ofNat 10 then ' '
                    else c)
        ∧ (lr.segment = 0 ↔ columnOf (input.take (putBack.count false)) ≤ size - 1)
        ∧ (caretLine lr = String.mk (List.replicate (column lr - 1) ' ') ++ "^"
            ↔ lr.segment = 0) := by
  have hcaret : ∀ lineReader : LineReader,
      caretLine lineReader
        = String.mk (List.replicate
            (column lineReader - 1 - lineReader.segment * (lineReader.size - 1)) ' ')
          ++ "^" := by
    intro lineReader
    unfold caretLine column
    congr 3
    omega
  have hlen : ∀ a : Nat, (String.mk (List.replicate a ' ') ++ "^").length = a + 1 := by
    intro a
    rw [String.length_append]
    simp [String.length]
  refine ⟨fun lineReader => ⟨hcaret lineReader, caretLine_eq_iff lineReader⟩, ?_⟩
  have hlt : putBack.count false < input.length := by
    by_contra hge
    rw [List.getElem?_eq_none (by omega)] at hc
    cases hc
  obtain ⟨lr0, h1, h2⟩ := getChars_at input putBack _ 0
    (newLineReader_at inputFileName input size hsize hnul) (by omega)
  rw [Nat.zero_add] at h2
  have hd : input.drop (putBack.count false)
      = c :: input.drop (putBack.count false + 1) := by
    rw [List.drop_eq_getElem_cons hlt]
    congr 1
    rw [List.getElem?_eq_getElem hlt] at hc
    exact Option.some.inj hc
  obtain ⟨lr, h3, h4, h5⟩ := getChar_at input _ lr0 c _ h2 hd
  have hsz : lr.size = size := by
    rw [(getCharLoop_remaining _ lr0 (some c) lr h3).2, getChars_size putBack _ lr0 h1]
    rfl
  have hcol := (at_line_column input _ lr h4 h5).2
  obtain ⟨hprint, hseg⟩ := at_printed input _ lr c h4 h5 hc
  have hoff : column lr - 1 - lr.segment * (size - 1) = lr.position - 1 := by
    unfold column
    rw [hsz]
    omega
  refine ⟨lr0, lr, h1, h3, hsz, hcol, ?_, ?_, ?_, ?_⟩
  · rw [hoff]
    unfold caretLine
    show (List.replicate (lr.position - 1) ' ' ++ ['^'])[lr.position - 1]? = some '^'
    rw [List.getElem?_append_right (by simp)]
    simp
  · rw [hoff]
    exact hprint
  · rw [← hcol, ← hsz]
    exact hseg
  · constructor
    · intro h
      have hl := congrArg String.length h
      unfold caretLine at hl
      rw [hlen, hlen] at hl
      unfold column at hl
      cases hs : lr.segment with
      | zero => rfl
      | succ k =>
        rw [hs, Nat.succ_mul] at hl
        have := hsz
        omega
    · intro h
      unfold caretLine column
      rw [h, Nat.zero_mul, Nat.zero_add]

set_option maxRecDepth 100000 in
/-- Witness of C19: the question mark that ends the second line of `twoLines`, 300
characters long, read with `LINE_BUF_SIZE`: column 300, the caret and the question mark at
offset 44 of their lines. -/
theorem caret_stands_under_character_read_witness :
    ∃ lr0 lr, getChars (List.replicate 313 false)
        (newLineReader "program.loop" twoLines LINE_BUF_SIZE) = .ok lr0
      ∧ getChar lr0 = .ok (some '?', lr)
      ∧ lr.size = LINE_BUF_SIZE
      ∧ column lr = 300
      ∧ (caretLine lr).data[column lr - 1 - lr.segment * (LINE_BUF_SIZE - 1)]? = some '^'
      ∧ (formatS (changeWhitespaceToSpaces lr.buf)).data[
            column lr - 1 - lr.segment * (LINE_BUF_SIZE - 1)]? = some '?'
      ∧ (lr.segment = 0 ↔ 300 ≤ LINE_BUF_SIZE - 1)
      ∧ (caretLine lr = String.mk (List.replicate (column lr - 1) ' ') ++ "^"
          ↔ lr.segment = 0) :=
  (caret_stands_under_character_read "program.loop" twoLines LINE_BUF_SIZE (by decide)
    (by decide) (List.replicate 313 false) '?' (by decide)).2

/-- C20: for every tree `parse` returns, under any profile, the loop of `writeProgram`
writes the text of `layout` at indentation 1: every instruction and every closing marker on
a new line after one tab and one more for each open block, except that each `else` follows
on the line of the marker that closes the body of its `if`, after one blank. -/
theorem else_on_line_of_closing_marker (parserOptions : ParserOptions) (input : List Char)
    (parsed : Parsed) (h : parse parserOptions input = .ok parsed) :
    ∃ text, writeProgramBody parsed.program = .ok text
      ∧ layout parsed.program 1 = .ok text :=
  parse_layout parserOptions input parsed h

set_option maxRecDepth 100000 in
/-- Witness of C20: the tree of `IF x1 = 0 THEN x0 := 1 ELSE x0 := 2 END`. -/
theorem else_on_line_of_closing_marker_witness :
    parse ifExtendedAssignmentProfile "IF x1 = 0 THEN x0 := 1 ELSE x0 := 2 END".toList
        = .ok { program := ifElseTree, heighestIndex := 0 }
    ∧ writeProgramBody ifElseTree
        = .ok "\n\tif (x[1] == 0) \x7b\n\t\tx[0] = 1;\n\t\x7d else \x7b\n\t\tx[0] = 2;\n\t\x7d"
    ∧ ∃ text, writeProgramBody ifElseTree = .ok text ∧ layout ifElseTree 1 = .ok text :=
  ⟨by decide, by decide,
   else_on_line_of_closing_marker ifExtendedAssignmentProfile
     "IF x1 = 0 THEN x0 := 1 ELSE x0 := 2 END".toList
     { program := ifElseTree, heighestIndex := 0 } (by decide)⟩

/-- C21: for every finite instruction tree (`writeProgram` runs its loop on a tree that is
not `NULL`), the explicit-stack loop of `writeProgram`, started with an empty stack at
indentation 1, writes exactly the text of the recursive pre-order emitter `emit` at depth 1,
where `emit` of a node is its `line`, then, if it has a body, `emit` of the body one level
deeper followed by `closer` at the depth of the node, then `emit` of its `nextProgram` at the
same depth; where `writeInstruction` exits with an error both end in it.  The text of
`writeProgram` is this text between the prologue and the epilogue. -/
theorem writeProgram_loop_equals_recursive_emitter (program : Tree) (h : program ≠ .null) :
    writeProgramBody program = emit program 1
    ∧ (∀ (p : Program) (innerProgram nextProgram : Tree) (d : Nat),
        emit (.node p innerProgram nextProgram) d
          = (do
              let first ← line p d
              let block ← (if innerProgram = .null then pure ""
                           else do
                             let body ← emit innerProgram (d + 1)
                             pure (body ++ closer d))
              let rest ← (if nextProgram = .null then pure "" else emit nextProgram d)
              pure (first ++ block ++ rest)))
    ∧ ∀ (writeOptions : WriteOptions) (heighestIndex : Int),
        writeProgram program writeOptions heighestIndex
          = (emit program 1).map (fun body =>
              writeIncludes
                ++ (if writeOptions.extensionHeader then
                      "#include \"" ++ (writeOptions.outputFileName.dropRight 1 ++ "h") ++ "\"\n"
                    else "")
                ++ writeStart writeOptions.functionName heighestIndex ++ body
                ++ writeEnd writeOptions.functionName) := by
  refine ⟨writeProgramBody_eq_emit program h, ?_, ?_⟩
  · intro p innerProgram nextProgram d
    rw [emit_node]
    cases line p d with
    | error e => rfl
    | ok first =>
      cases innerProgram with
      | null =>
        cases nextProgram with
        | null => simp [emit, bind, Except.bind, pure, Except.pure]
        | node q a b =>
          simp only [if_pos, if_neg, reduceCtorEq, if_false, if_true]
          cases emit (.node q a b) d <;> rfl
      | node q a b =>
        simp only [reduceCtorEq, if_false]
        cases emit (.node q a b) (d + 1) with
        | error e => rfl
        | ok body =>
          cases nextProgram with
          | null => simp [emit, bind, Except.bind, pure, Except.pure]
          | node q2 a2 b2 =>
            simp only [reduceCtorEq, if_false]
            cases emit (.node q2 a2 b2) d <;> rfl
  · intro writeOptions heighestIndex
    cases program with
    | null => exact absurd rfl h
    | node p a b =>
      unfold writeProgram
      dsimp only
      rw [writeProgramBody_eq_emit _ h]
      cases emit (.node p a b) 1 <;> rfl

/-- Witness of C21: the tree of `IF x1 = 0 THEN x0 := 1 ELSE x0 := 2 END`, with the text both
emitters write. -/
theorem writeProgram_loop_equals_recursive_emitter_witness :
    ifElseTree ≠ .null
    ∧ emit ifElseTree 1
        = .ok "\n\tif (x[1] == 0) \x7b\n\t\tx[0] = 1;\n\t\x7d else \x7b\n\t\tx[0] = 2;\n\t\x7d"
    ∧ writeProgramBody ifElseTree = emit ifElseTree 1 :=
  ⟨by decide, by decide,
   (writeProgram_loop_equals_recursive_emitter ifElseTree (by decide)).1⟩

/-- C22: for every input, every profile `F` and every profile `G` in which every flag of `F`
is set: if `parse` under `F` returns a tree and a highest-index counter, `parse` under `G`
returns the same tree, node by node (kind, operation, indices, literal, `treatCAsVariable`,
links and shape), and the same counter. -/
theorem parse_returns_same_tree_under_larger_profile (input : List Char)
    (F G : ParserOptions) (hFG : F.subset G) (parsed : Parsed)
    (h : parse F input = .ok parsed) : parse G input = .ok parsed :=
  parse_sim F G hFG input parsed h

set_option maxRecDepth 100000 in
/-- Witness of C22: `WHILE x1 != 0 DO x0 := x0 + 2; x1 := x1 - 1 END`, from the profile with
`extensionWhile` only to the full one. -/
theorem parse_returns_same_tree_under_larger_profile_witness :
    whileProfile.subset fullProfile
    ∧ parse whileProfile whileInput = .ok { program := whileTree, heighestIndex := 1 }
    ∧ parse fullProfile whileInput = .ok { program := whileTree, heighestIndex := 1 } :=
  ⟨⟨rfl, by decide, by decide, by decide, by decide, by decide, by decide, by decide⟩,
   by decide,
   parse_returns_same_tree_under_larger_profile whileInput whileProfile fullProfile
     ⟨rfl, by decide, by decide, by decide, by decide, by decide, by decide, by decide⟩
     { program := whileTree, heighestIndex := 1 } (by decide)⟩

set_option maxRecDepth 100000 in
set_option maxHeartbeats 4000000 in
/-- C23: under every profile (1) an input of blanks, tabs, carriage returns and newlines
only, the empty one included, is rejected with "Unexpected end of file"; (2)
`LOOP x1 DO END` is rejected with "Expected beginning of instruction"; (3) `x0 := x0 + 1;`
is rejected with "Unexpected end of file"; (4) wherever the loop of `parse` is at its top,
where an instruction has to begin (at the start, behind the header of a block, behind `ELSE`,
behind `;`), and the character after the blanks is the end of the input or begins no
instruction of the profile, `parse` fails there; (5) every tree `parse` returns is not `NULL`,
every node of it has a defined `instructionType`, and the body of every block opener is not
`NULL`. -/
theorem every_statement_sequence_is_non_empty (parserOptions : ParserOptions) :
    (∀ input : List Char,
        (∀ c ∈ input, c = ' ' ∨ c = Char.ofNat 9 ∨ c = Char.ofNat 13 ∨ c = Char.ofNat 10) →
        failureMessage (parse parserOptions input) = some "Unexpected end of file")
    ∧ failureMessage (parse parserOptions "LOOP x1 DO END".toList)
        = some "Expected beginning of instruction"
    ∧ failureMessage (parse parserOptions "x0 := x0 + 1;".toList)
        = some "Unexpected end of file"
    ∧ (∀ (input : List Char) (passes : Nat) (state : ParserState) (count : Nat)
        (lr1 lr2 : LineReader) (c : Option Char),
        parseReach parserOptions (parseStart parserOptions input).lineReader.fuel passes
            .instruction (parseStart parserOptions input) = some (.instruction, state) →
        consumeWhitespace (parseStart parserOptions input).lineReader.fuel state.lineReader 0
            parserOptions = .ok (count, lr1) →
        getChar lr1 = .ok (c, lr2) →
        c ≠ some 'x' → c ≠ some 'L' →
        (c = some 'W' → parserOptions.extensionWhile = false) →
        (c = some 'I' → parserOptions.extensionIf = false) →
        parse parserOptions input
          = .error (.parserError
              (if c = none then "Unexpected end of file"
               else "Expected beginning of instruction") lr2))
    ∧ ∀ (input : List Char) (parsed : Parsed), parse parserOptions input = .ok parsed →
        parsed.program ≠ .null ∧ parsed.program.filled := by
  refine ⟨?_, ?_, ?_, ?_, ?_⟩
  · intro input hws
    obtain ⟨lineReader, hfail⟩ := whitespace_only_rejected parserOptions input hws
    rw [hfail]
    rfl
  · rfl
  · obtain ⟨name, w, ops, asg, nw, i, ie, we⟩ := parserOptions
    cases asg
    · rfl
    · rfl
  · intro input passes state count lr1 lr2 c hreach hblank hget hx hL hW hI
    exact parse_fails_of_reach parserOptions input passes _ state _ hreach
      (parseInstruction_no_beginning parserOptions _ state count lr1 lr2 c hblank hget hx hL
        hW hI)
  · intro input parsed h
    obtain ⟨hgood, hlinked, hne⟩ := parse_good parserOptions input parsed h
    exact ⟨hne, filled_of_good _ hgood hlinked⟩

set_option maxRecDepth 100000 in
/-- Witness of C23, base profile: a blank and a newline; `x0 := x0 + 1; END`, where `END`
stands behind `;`; and the tree of `LOOP x1 DO x0 := x0 + 1 END`. -/
theorem every_statement_sequence_is_non_empty_witness :
    failureMessage (parse baseProfile [' ', Char.ofNat 10]) = some "Unexpected end of file"
    ∧ failureMessage (parse baseProfile danglingSemicolonInput)
        = some "Expected beginning of instruction"
    ∧ parse baseProfile "LOOP x1 DO x0 := x0 + 1 END".toList
        = .ok { program := loopTree, heighestIndex := 0 }
    ∧ loopTree ≠ .null ∧ loopTree.filled :=
  ⟨(every_statement_sequence_is_non_empty baseProfile).1 [' ', Char.ofNat 10] (by decide),
   congrArg failureMessage
     ((every_statement_sequence_is_non_empty baseProfile).2.2.2.1 danglingSemicolonInput 2
       danglingSemicolonState
       (afterBlanks (parseStart baseProfile danglingSemicolonInput).lineReader.fuel
         danglingSemicolonState.lineReader baseProfile).1
       (afterBlanks (parseStart baseProfile danglingSemicolonInput).lineReader.fuel
         danglingSemicolonState.lineReader baseProfile).2
       (afterGetChar (afterBlanks (parseStart baseProfile danglingSemicolonInput).lineReader.fuel
         danglingSemicolonState.lineReader baseProfile).2)
       (some 'E') (by decide) (by decide) (by decide) (by decide) (by decide) (by decide)
       (by decide)),
   by decide,
   (every_statement_sequence_is_non_empty baseProfile).2.2.2.2
     "LOOP x1 DO x0 := x0 + 1 END".toList { program := loopTree, heighestIndex := 0 }
     (by decide)⟩

end Loop
